import Mathlib

/-!
Verification of the Word-template exporter (`src/wordTemplateExporter.js`).

Strings are modelled as `List Char`.  JavaScript string primitives
(`trim`, `split`, `indexOf`, `replace`, regular-expression scanning) are
embedded as executable functions on character lists; each embedded
function carries a comment pointing at the source construct it models.
-/

/-- Characters of a string literal; the representation used throughout. -/
def str (s : String) : List Char := s.toList

/-- The backquote character (U+0060). -/
def backquote : Char := Char.ofNat 96

/-- The apostrophe character (U+0027). -/
def apos : Char := Char.ofNat 39

/-- JS whitespace class (`\s`, and the set used by `String.prototype.trim`),
restricted to the characters that can actually appear in this code base. -/
def isWs (c : Char) : Bool :=
  c = ' ' || c = '\t' || c = '\n' || c = '\r' ||
  c = Char.ofNat 11 || c = Char.ofNat 12 || c = Char.ofNat 160 || c = Char.ofNat 65279

/-- JS `String.prototype.trim`. -/
def trim (l : List Char) : List Char :=
  ((l.dropWhile isWs).reverse.dropWhile isWs).reverse

/-- JS `String.prototype.split(sep)` for a one-character separator. -/
def splitOnChar (sep : Char) : List Char → List (List Char)
  | [] => [[]]
  | c :: t =>
    let r := splitOnChar sep t
    if c = sep then [] :: r
    else
      match r with
      | [] => [[c]]
      | h :: t' => (c :: h) :: t'

/-- Number of occurrences (at distinct start positions) of `needle` in a list. -/
def countSub (needle : List Char) : List Char → Nat
  | [] => 0
  | c :: t => (if needle.isPrefixOf (c :: t) then 1 else 0) + countSub needle t

/-- JS `String.prototype.indexOf` for a nonempty pattern: index of the first
occurrence, `none` when absent (JS returns `-1`). -/
def findSub (pat : List Char) : List Char → Option Nat
  | [] => if pat.isPrefixOf ([] : List Char) then some 0 else none
  | c :: t => if pat.isPrefixOf (c :: t) then some 0 else (findSub pat t).map (· + 1)

/-- The character for a single decimal digit. -/
def digitChar (d : Nat) : Char :=
  if d = 0 then '0' else if d = 1 then '1' else if d = 2 then '2' else if d = 3 then '3'
  else if d = 4 then '4' else if d = 5 then '5' else if d = 6 then '6' else if d = 7 then '7'
  else if d = 8 then '8' else '9'

/-- Fuelled digit production; the fuel only serves termination and any
`fuel > n` computes the digits. -/
def natCharsGo : Nat → Nat → List Char
  | _, 0 => []
  | n, fuel + 1 => if n < 10 then [digitChar n] else natCharsGo (n / 10) fuel ++ [digitChar (n % 10)]

/-- Decimal digits of a natural number, as produced by JS string interpolation
of a nonnegative integer. -/
def natChars (n : Nat) : List Char := natCharsGo n (n + 1)

/-- An occurrence of `N` starting at position `i` of `l`. -/
def OccursAt (N l : List Char) (i : Nat) : Prop := N <+: l.drop i

/-- `countSub` is zero exactly when the needle occurs nowhere. -/
theorem countSub_eq_zero_iff {N : List Char} (hN : N ≠ []) (l : List Char) :
    countSub N l = 0 ↔ ∀ i, ¬ OccursAt N l i := by
  induction l with
  | nil =>
    simp only [countSub, true_iff]
    intro i h
    unfold OccursAt at h
    rw [List.drop_nil] at h
    exact hN (List.prefix_nil.mp h)
  | cons c t ih =>
    simp only [countSub, Nat.add_eq_zero]
    constructor
    · rintro ⟨h0, hrec⟩ i h
      match i with
      | 0 =>
        unfold OccursAt at h
        rw [List.drop_zero] at h
        rw [if_pos (List.isPrefixOf_iff_prefix.mpr h)] at h0
        exact one_ne_zero h0
      | i + 1 => exact (ih.mp hrec) i h
    · intro h
      refine ⟨?_, ih.mpr fun i hi => h (i + 1) hi⟩
      rw [if_neg]
      intro hp
      exact h 0 (by unfold OccursAt; rw [List.drop_zero]; exact List.isPrefixOf_iff_prefix.mp hp)

/-- A prefix of `a ++ b` longer than `a` contains all of `a` and continues into `b`. -/
theorem prefix_append_split_lt {N a b : List Char} (h : N <+: a ++ b)
    (hlen : a.length < N.length) : N.take a.length = a ∧ N.drop a.length <+: b := by
  have hN : N = (a ++ b).take N.length := List.prefix_iff_eq_take.mp h
  constructor
  · rw [hN, List.take_take, min_eq_left hlen.le, List.take_left]
  · rw [hN, List.drop_take]
    have : List.drop a.length (a ++ b) = b := List.drop_left a b
    rw [this]
    exact ⟨List.drop (N.length - a.length) b, List.take_append_drop _ b⟩

/-- Whether a short needle is a prefix of `a ++ b` depends only on `a`. -/
theorem prefix_append_of_le {N a b : List Char} (hlen : N.length ≤ a.length) :
    (N <+: a ++ b) ↔ N <+: a := by
  constructor
  · intro h
    have hN : N = (a ++ b).take N.length := List.prefix_iff_eq_take.mp h
    rw [List.take_append_of_le_length hlen] at hN
    rw [List.prefix_iff_eq_take]
    exact hN
  · intro h
    exact h.trans ⟨b, rfl⟩

/-- Splitting `countSub` over an append, given that no occurrence crosses the boundary. -/
theorem countSub_append {N : List Char} (hN : N ≠ []) (a b : List Char)
    (h : ∀ k, 0 < k → k < N.length → ¬ (N.take k <:+ a ∧ N.drop k <+: b)) :
    countSub N (a ++ b) = countSub N a + countSub N b := by
  induction a with
  | nil => simp [countSub]
  | cons c a' ih =>
    have hstep : ∀ k, 0 < k → k < N.length → ¬ (N.take k <:+ a' ∧ N.drop k <+: b) := by
      intro k hk0 hkN ⟨hs, hp⟩
      exact h k hk0 hkN ⟨hs.trans (List.suffix_cons c a'), hp⟩
    have hrec := ih hstep
    have hterm : (if N.isPrefixOf (c :: (a' ++ b)) then 1 else 0)
        = (if N.isPrefixOf (c :: a') then (1 : Nat) else 0) := by
      by_cases hle : N.length ≤ (c :: a').length
      · have hiff := prefix_append_of_le (N := N) (a := c :: a') (b := b) hle
        rw [List.cons_append] at hiff
        by_cases hp : N <+: c :: a'
        · rw [if_pos (List.isPrefixOf_iff_prefix.mpr (hiff.mpr hp)),
            if_pos (List.isPrefixOf_iff_prefix.mpr hp)]
        · rw [if_neg (fun hh => hp (hiff.mp (List.isPrefixOf_iff_prefix.mp hh))),
            if_neg (fun hh => hp (List.isPrefixOf_iff_prefix.mp hh))]
      · push_neg at hle
        rw [if_neg, if_neg]
        · intro hh
          exact absurd (List.isPrefixOf_iff_prefix.mp hh).length_le (by omega)
        · intro hh
          have hsplit := prefix_append_split_lt (N := N) (a := c :: a') (b := b)
            (by rw [List.cons_append]; exact List.isPrefixOf_iff_prefix.mp hh) hle
          refine h (c :: a').length (by simp) hle ⟨?_, hsplit.2⟩
          rw [hsplit.1]
    calc countSub N (c :: a' ++ b)
        = (if N.isPrefixOf (c :: (a' ++ b)) then 1 else 0) + countSub N (a' ++ b) := by
          rw [List.cons_append]; rfl
      _ = (if N.isPrefixOf (c :: a') then 1 else 0) + (countSub N a' + countSub N b) := by
          rw [hterm, hrec]
      _ = countSub N (c :: a') + countSub N b := by
          show _ = (if N.isPrefixOf (c :: a') then 1 else 0) + countSub N a' + countSub N b
          omega
/-- Append split when no proper needle head is a suffix of the left part. -/
theorem countSub_append_left {N : List Char} (hN : N ≠ []) (a b : List Char)
    (h : ∀ k, 0 < k → k < N.length → ¬ N.take k <:+ a) :
    countSub N (a ++ b) = countSub N a + countSub N b :=
  countSub_append hN a b fun k hk0 hkN hc => h k hk0 hkN hc.1

/-- Append split when no proper needle tail is a prefix of the right part. -/
theorem countSub_append_right {N : List Char} (hN : N ≠ []) (a b : List Char)
    (h : ∀ k, 0 < k → k < N.length → ¬ N.drop k <+: b) :
    countSub N (a ++ b) = countSub N a + countSub N b :=
  countSub_append hN a b fun k hk0 hkN hc => h k hk0 hkN hc.2

/-- Discharge the left-split side condition from the last character of `a`:
no character of `N` other than possibly its final one equals `a`'s last character. -/
theorem take_not_suffix_of_getLast {N a : List Char} {c : Char} (ha : a.getLast? = some c)
    (hc : ∀ j, j + 1 < N.length → N[j]? ≠ some c) :
    ∀ k, 0 < k → k < N.length → ¬ N.take k <:+ a := by
  intro k hk0 hkN hsuf
  have hlen : (N.take k).length = k := by
    rw [List.length_take]; omega
  have hne : N.take k ≠ [] := by
    intro h0; rw [h0] at hlen; simp at hlen; omega
  obtain ⟨w, hw⟩ := hsuf
  rw [← hw, List.getLast?_append] at ha
  have hlast : (N.take k).getLast? = N[k - 1]? := by
    rw [List.getLast?_eq_getElem?, hlen, List.getElem?_take, if_pos (by omega)]
  rcases h0 : (N.take k).getLast? with _ | d
  · rw [h0] at ha; exact hne (List.getLast?_eq_none_iff.mp h0)
  · rw [h0] at ha
    simp only [Option.or_some, Option.some.injEq] at ha
    subst ha
    exact hc (k - 1) (by omega) (by rw [← hlast, h0])

/-- Discharge the right-split side condition from the first character of `b`:
no character of `N` other than its first equals `b`'s head. -/
theorem drop_not_prefix_of_head {N b : List Char} {c : Char} (hb : b.head? = some c)
    (hc : ∀ j, 0 < j → j < N.length → N[j]? ≠ some c) :
    ∀ k, 0 < k → k < N.length → ¬ N.drop k <+: b := by
  intro k hk0 hkN hpre
  have hne : N.drop k ≠ [] := by
    rw [Ne, List.drop_eq_nil_iff]; omega
  obtain ⟨w, hw⟩ := hpre
  rw [← hw, List.head?_append] at hb
  have hhead : (N.drop k).head? = N[k]? := List.head?_drop N k
  rcases h0 : (N.drop k).head? with _ | d
  · exact hne (List.head?_eq_none_iff.mp h0)
  · rw [h0] at hb
    rw [show (some d).or w.head? = some d from rfl] at hb
    have hd : d = c := Option.some.inj hb
    subst hd
    exact hc k hk0 hkN (by rw [← hhead, h0])

/-- A needle whose head character never occurs in `l` occurs nowhere in `l`. -/
theorem countSub_eq_zero_of_head {N l : List Char} {h0 : Char} (hN : N.head? = some h0)
    (hl : h0 ∉ l) : countSub N l = 0 := by
  induction l with
  | nil => rfl
  | cons c t ih =>
    have hct : h0 ∉ t := fun h => hl (List.mem_cons_of_mem c h)
    simp only [countSub, ih hct, Nat.add_zero]
    rw [if_neg]
    intro hp
    obtain ⟨w, hw⟩ := List.isPrefixOf_iff_prefix.mp hp
    have : (N ++ w).head? = some c := by rw [hw]; rfl
    rw [List.head?_append, hN] at this
    rw [show (some h0).or w.head? = some h0 from rfl] at this
    have hcc : h0 = c := Option.some.inj this
    exact hl (hcc ▸ List.mem_cons_self c t)

/-- Occurrences in a `take` are occurrences in the whole list. -/
theorem OccursAt_of_take {N l : List Char} {m i : Nat} (h : OccursAt N (l.take m) i) :
    OccursAt N l i := by
  unfold OccursAt at h ⊢
  rw [List.drop_take] at h
  exact h.trans ⟨(l.drop i).drop (m - i), List.take_append_drop _ _⟩

/-- If the needle occurs nowhere in `l`, it occurs nowhere in a prefix of `l`. -/
theorem countSub_take_eq_zero {N : List Char} (hN : N ≠ []) {l : List Char} (m : Nat)
    (h : countSub N l = 0) : countSub N (l.take m) = 0 := by
  rw [countSub_eq_zero_iff hN] at h ⊢
  exact fun i hi => h i (OccursAt_of_take hi)

/-- Occurrence-freeness for a needle transfers to any extension of that needle. -/
theorem countSub_eq_zero_of_sub {N1 N2 l : List Char} (hN1 : N1 ≠ []) (hp : N1 <+: N2)
    (h : countSub N1 l = 0) : countSub N2 l = 0 := by
  have hN2 : N2 ≠ [] := by
    intro h0; subst h0; exact hN1 (List.prefix_nil.mp hp)
  rw [countSub_eq_zero_iff hN1] at h
  rw [countSub_eq_zero_iff hN2]
  exact fun i hi => h i (hp.trans hi)

theorem splitOnChar_ne_nil (sep : Char) (l : List Char) : splitOnChar sep l ≠ [] := by
  cases l with
  | nil => simp [splitOnChar]
  | cons c t =>
    simp only [splitOnChar]
    split
    · simp
    · split <;> simp

/-! ## The exporter, embedded from `src/wordTemplateExporter.js` -/

/-- JS `text.replace(/c/g, s)` for a single-character pattern `c`. -/
def replaceAllChar (c : Char) (s : List Char) : List Char → List Char
  | [] => []
  | d :: t => (if d = c then s else [d]) ++ replaceAllChar c s t

/-- `escapeXml` (source lines 733-740): five sequential global replacements,
ampersand first. -/
def escapeXml (text : List Char) : List Char :=
  replaceAllChar apos (str "&apos;")
    (replaceAllChar '"' (str "&quot;")
      (replaceAllChar '>' (str "&gt;")
        (replaceAllChar '<' (str "&lt;")
          (replaceAllChar '&' (str "&amp;") text))))

/-- `createRunXml` (source lines 712-728).  An empty text yields the empty string. -/
def createRunXml (text : List Char) (bold italic code : Bool) : List Char :=
  if text = [] then []
  else
    str "<w:r><w:rPr>" ++
    (if bold then str "<w:b/>" else []) ++
    (if italic then str "<w:i/>" else []) ++
    (if code then
      str "<w:rFonts w:ascii=\"Consolas\" w:hAnsi=\"Consolas\"/>" ++ str "<w:sz w:val=\"20\"/>"
     else []) ++
    str "</w:rPr><w:t xml:space=\"preserve\">" ++ escapeXml text ++ str "</w:t></w:r>"

/-- The four inline delimiter patterns of `parseInlineFormatting` (source 661-666). -/
inductive InlinePattern
  | biPat
  | boldPat
  | italPat
  | codePat
deriving DecidableEq, Repr

/-- Delimiter length of a pattern (`***`, `**`, `*`, or a single backquote). -/
def patDelim : InlinePattern → Nat
  | .biPat => 3
  | .boldPat => 2
  | .italPat => 1
  | .codePat => 1

/-- Delimiter character of a pattern. -/
def patChar : InlinePattern → Char
  | .codePat => backquote
  | _ => '*'

/-- `bold` flag attached to a pattern. -/
def patBold : InlinePattern → Bool
  | .biPat => true
  | .boldPat => true
  | _ => false

/-- `italic` flag attached to a pattern. -/
def patItalic : InlinePattern → Bool
  | .biPat => true
  | .italPat => true
  | _ => false

/-- `code` flag attached to a pattern. -/
def patCode : InlinePattern → Bool
  | .codePat => true
  | _ => false

/-- Lazy-group scan of `/D(.+?)D/`: starting at position `j` (one past the first
group character), return the first position at which the closing delimiter occurs,
crossing only non-newline group characters (the `.` class). -/
def lazyCloserScan (closer : List Char) (l : List Char) : Nat → Nat → Option Nat
  | _, 0 => none
  | j, fuel + 1 =>
    if closer.isPrefixOf (l.drop j) then some j
    else
      match l[j]? with
      | none => none
      | some c => if c = '\n' then none else lazyCloserScan closer l (j + 1) fuel

/-- Match of one inline pattern at a fixed position `i`: on success, the group's
end position (the full match ends one delimiter later). -/
def patMatchAt (p : InlinePattern) (l : List Char) (i : Nat) : Option Nat :=
  if (List.replicate (patDelim p) (patChar p)).isPrefixOf (l.drop i) then
    match l[i + patDelim p]? with
    | none => none
    | some c0 =>
      if c0 = '\n' then none
      else lazyCloserScan (List.replicate (patDelim p) (patChar p)) l (i + patDelim p + 1)
        (l.length + 1)
  else none

/-- JS `regex.exec(remaining)` for one inline pattern: earliest match position
with the group end. -/
def execPatFrom (p : InlinePattern) (l : List Char) : Nat → Nat → Option (Nat × Nat)
  | _, 0 => none
  | i, fuel + 1 =>
    match patMatchAt p l i with
    | some ge => some (i, ge)
    | none => if i < l.length then execPatFrom p l (i + 1) fuel else none

/-- Earliest match of one pattern anywhere in `l`. -/
def execPat (p : InlinePattern) (l : List Char) : Option (Nat × Nat) :=
  execPatFrom p l 0 (l.length + 1)

/-- The selection loop of `parseInlineFormatting` (source 677-687): iterate the
pattern list, keeping the match with the strictly smallest start index
(`earliestPos` starts at `remaining.length`). -/
def selectEarliest (pats : List InlinePattern) (l : List Char) :
    Option (InlinePattern × Nat × Nat) :=
  pats.foldl
    (fun acc p =>
      match execPat p l with
      | none => acc
      | some (i, ge) =>
        match acc with
        | none => if i < l.length then some (p, i, ge) else acc
        | some (_, i0, _) => if i < i0 then some (p, i, ge) else acc)
    none

/-- The main loop of `parseInlineFormatting` (source 671-704), parameterized by
the pattern list so that pattern-order questions can be stated. -/
def parseInlineWith (pats : List InlinePattern) : List Char → Nat → List Char
  | _, 0 => []
  | remaining, fuel + 1 =>
    if remaining = [] then []
    else
      match selectEarliest pats remaining with
      | some (p, earliestPos, ge) =>
        (if earliestPos > 0 then createRunXml (remaining.take earliestPos) false false false
         else []) ++
        createRunXml ((remaining.take ge).drop (earliestPos + patDelim p))
          (patBold p) (patItalic p) (patCode p) ++
        parseInlineWith pats (remaining.drop (ge + patDelim p)) fuel
      | none => createRunXml remaining false false false

/-- The pattern order fixed in the source (661-666). -/
def inlinePatterns : List InlinePattern :=
  [.biPat, .boldPat, .italPat, .codePat]

/-- `parseInlineFormatting` (source 656-707). -/
def parseInlineFormatting (text : List Char) : List Char :=
  parseInlineWith inlinePatterns text (text.length + 1)

/-- `createHeadingXml` (source 252-262). -/
def createHeadingXml (text : List Char) (level : Nat) : List Char :=
  str "<w:p>\n            <w:pPr>\n                <w:pStyle w:val=\"Heading" ++
  natChars level ++
  str "\"/>\n            </w:pPr>\n            " ++
  parseInlineFormatting text ++
  str "\n        </w:p>"

/-- `createParagraphXml` (source 267-276). -/
def createParagraphXml (text : List Char) : List Char :=
  str "<w:p>\n            <w:pPr>\n                <w:pStyle w:val=\"Normal\"/>\n            </w:pPr>\n            " ++
  parseInlineFormatting text ++
  str "\n        </w:p>"

/-- `createQuoteXml` (source 281-290). -/
def createQuoteXml (text : List Char) : List Char :=
  str "<w:p>\n            <w:pPr>\n                <w:pStyle w:val=\"Quote\"/>\n            </w:pPr>\n            " ++
  parseInlineFormatting text ++
  str "\n        </w:p>"

/-- `createListItemXml` (source 295-309). -/
def createListItemXml (text : List Char) (numbered : Bool) : List Char :=
  str "<w:p>\n            <w:pPr>\n                <w:pStyle w:val=\"" ++
  (if numbered then str "ListNumber" else str "ListBullet") ++
  str "\"/>\n                <w:numPr>\n                    <w:ilvl w:val=\"0\"/>\n                    <w:numId w:val=\"" ++
  (if numbered then str "1" else str "2") ++
  str "\"/>\n                </w:numPr>\n            </w:pPr>\n            " ++
  parseInlineFormatting text ++
  str "\n        </w:p>"

/-- Index-annotated copy of a list (for `forEach((x, index) => ...)` loops). -/
def withIdx {α : Type} : List α → Nat → List (α × Nat)
  | [], _ => []
  | l :: t, i => (l, i) :: withIdx t (i + 1)

/-- One paragraph of `createCodeBlockXml` (source 325-344). -/
def codeBlockPara (line : List Char) (index total : Nat) : List Char :=
  str "<w:p>\n                <w:pPr>\n                    <w:pStyle w:val=\"Normal\"/>\n                    <w:shd w:val=\"clear\" w:color=\"auto\" w:fill=\"F5F5F5\"/>\n                    <w:spacing w:before=\"" ++
  (if index = 0 then str "120" else str "0") ++
  str "\" w:after=\"" ++
  (if index = total - 1 then str "120" else str "0") ++
  str "\" w:line=\"240\" w:lineRule=\"exact\"/>\n                    <w:ind w:left=\"284\" w:right=\"284\"/>\n                    <w:jc w:val=\"left\"/>\n                    <w:keepLines/>\n                    <w:wordWrap w:val=\"0\"/>\n                </w:pPr>\n                <w:r>\n                    <w:rPr>\n                        <w:rFonts w:ascii=\"Consolas\" w:hAnsi=\"Consolas\" w:cs=\"Consolas\"/>\n                        <w:sz w:val=\"18\"/>\n                        <w:szCs w:val=\"18\"/>\n                        <w:noProof/>\n                    </w:rPr>\n                    <w:t xml:space=\"preserve\">" ++
  escapeXml line ++
  str "</w:t>\n                </w:r>\n            </w:p>"

/-- `createCodeBlockXml` (source 316-348): one paragraph per line of
`code.split('\n')`. -/
def createCodeBlockXml (code : List Char) : List Char :=
  let lines := splitOnChar '\n' code
  ((withIdx lines 0).map fun li => codeBlockPara li.1 li.2 lines.length).flatten

/-- `createHorizontalRuleXml` (source 353-361). -/
def createHorizontalRuleXml : List Char :=
  str "<w:p>\n            <w:pPr>\n                <w:pBdr>\n                    <w:bottom w:val=\"single\" w:sz=\"6\" w:space=\"1\" w:color=\"auto\"/>\n                </w:pBdr>\n            </w:pPr>\n        </w:p>"

/-- ASCII decimal digit test (`\d`). -/
def isDigitCh (c : Char) : Bool := '0' ≤ c && c ≤ '9'

/-- `[A-Z]`. -/
def isUpperCh (c : Char) : Bool := 'A' ≤ c && c ≤ 'Z'

/-- `[a-z]`. -/
def isLowerCh (c : Char) : Bool := 'a' ≤ c && c ≤ 'z'

/-- `\w`. -/
def isWordCh (c : Char) : Bool := isUpperCh c || isLowerCh c || isDigitCh c || c = '_'

/-- The box-drawing and symbol characters of `isAsciiArt` (source 509-517). -/
def boxChars : List Char :=
  str "─│┌┐└┘├┤┬┴┼═║╔╗╚╝╠╣╦╩╬╭╮╯╰▲▼◄►♦●○■□◆◇↓→←↑↔↕⇒⇐⇓⇑┃━┏┓┗┛┣┫┳┻╋░▒▓█"

/-- `/^\s*\+[-=_+]+\+/` — the class contains `+`, so the test is whether the
maximal class run after the opening `+` contains another `+` past its first
character. -/
def asciiPat1 (line : List Char) : Bool :=
  match line.dropWhile isWs with
  | '+' :: rest =>
    (let R := rest.takeWhile fun c => c = '-' || c = '=' || c = '_' || c = '+'
     (R.drop 1).contains '+')
  | _ => false

/-- `/^\s*\|[-=_]{3,}\|/`. -/
def asciiPat2 (line : List Char) : Bool :=
  match line.dropWhile isWs with
  | '|' :: rest =>
    (let R := rest.takeWhile fun c => c = '-' || c = '=' || c = '_'
     3 ≤ R.length && (rest.drop R.length).head? = some '|')
  | _ => false

/-- `/^\s*[-=_]{5,}$/`. -/
def asciiPat3 (line : List Char) : Bool :=
  let s := line.dropWhile isWs
  5 ≤ s.length && s.all fun c => c = '-' || c = '=' || c = '_'

/-- `/^\s*\+[-]+\+[-]+\+/`. -/
def asciiPat4 (line : List Char) : Bool :=
  match line.dropWhile isWs with
  | '+' :: rest =>
    (let R1 := rest.takeWhile fun c => c = '-'
     1 ≤ R1.length &&
     match rest.drop R1.length with
     | '+' :: r2 =>
       (let R2 := r2.takeWhile fun c => c = '-'
        1 ≤ R2.length && (r2.drop R2.length).head? = some '+')
     | _ => false)
  | _ => false

/-- `/^\s*\([A-Z][a-z]+\)\s*\|\|/`. -/
def asciiPat5 (line : List Char) : Bool :=
  match line.dropWhile isWs with
  | '(' :: u :: r2 =>
    isUpperCh u &&
    (let L := r2.takeWhile isLowerCh
     1 ≤ L.length &&
     match r2.drop L.length with
     | ')' :: r3 =>
       (let w := r3.dropWhile isWs
        w.head? = some '|' && (w.drop 1).head? = some '|')
     | _ => false)
  | _ => false

/-- `/^\s*\|\s+[A-Z\s]+[-:]\s+[A-Z]/`. -/
def asciiPat6 (line : List Char) : Bool :=
  match line.dropWhile isWs with
  | '|' :: rest =>
    (match rest.head? with
     | some c0 => isWs c0
     | none => false) &&
    (let body := rest.takeWhile fun c => isUpperCh c || isWs c
     2 ≤ body.length &&
     match rest.drop body.length with
     | m :: r3 =>
       (m = '-' || m = ':') &&
       (let W2 := r3.takeWhile isWs
        1 ≤ W2.length &&
        match (r3.drop W2.length).head? with
        | some u => isUpperCh u
        | none => false)
     | [] => false)
  | _ => false

/-- `/^\s*\|\s*\[[^\]]+\]/`. -/
def asciiPat7 (line : List Char) : Bool :=
  match line.dropWhile isWs with
  | '|' :: rest =>
    (match rest.dropWhile isWs with
     | '[' :: t2 =>
       (let u := t2.takeWhile fun c => c ≠ ']'
        1 ≤ u.length && (t2.drop u.length).head? = some ']')
     | _ => false)
  | _ => false

/-- `/^\s*\|\s{2,}\w+.*\|\|/` — the `.` class excludes newlines, so the double
bar must occur before any newline. -/
def asciiPat8 (line : List Char) : Bool :=
  match line.dropWhile isWs with
  | '|' :: rest =>
    (let W := rest.takeWhile isWs
     2 ≤ W.length &&
     match rest.drop W.length with
     | a0 :: a1 =>
       isWordCh a0 && (findSub (str "||") (a1.takeWhile fun c => c ≠ '\n')).isSome
     | [] => false)
  | _ => false

/-- `/^\s*\[[^\]]+\]\s*$/`. -/
def asciiPat9 (line : List Char) : Bool :=
  match line.dropWhile isWs with
  | '[' :: t2 =>
    (let u := t2.takeWhile fun c => c ≠ ']'
     1 ≤ u.length &&
     match t2.drop u.length with
     | ']' :: r3 => (r3.dropWhile isWs).isEmpty
     | _ => false)
  | _ => false

/-- `/^\s*<[-=]+>/`. -/
def asciiPat10 (line : List Char) : Bool :=
  match line.dropWhile isWs with
  | '<' :: rest =>
    (let R := rest.takeWhile fun c => c = '-' || c = '='
     1 ≤ R.length && (rest.drop R.length).head? = some '>')
  | _ => false

/-- `/^\s*\/[-_\\\/]+\//` — the class contains `/`, handled like `asciiPat1`. -/
def asciiPat11 (line : List Char) : Bool :=
  match line.dropWhile isWs with
  | '/' :: rest =>
    (let R := rest.takeWhile fun c => c = '-' || c = '_' || c = '\\' || c = '/'
     (R.drop 1).contains '/')
  | _ => false

/-- `/^\s*\*[-=\*]+\*/` — the class contains `*`, handled like `asciiPat1`. -/
def asciiPat12 (line : List Char) : Bool :=
  match line.dropWhile isWs with
  | '*' :: rest =>
    (let R := rest.takeWhile fun c => c = '-' || c = '=' || c = '*'
     (R.drop 1).contains '*')
  | _ => false

/-- `isAsciiArt` (source 498-541). -/
def isAsciiArt (line : List Char) : Bool :=
  if ((trim line).head? = some '|' && (trim line).getLast? = some '|') &&
      2 ≤ ((splitOnChar '|' line).filter fun c => !(trim c).isEmpty).length then
    false
  else if boxChars.any fun c => line.contains c then true
  else
    asciiPat1 line || asciiPat2 line || asciiPat3 line || asciiPat4 line || asciiPat5 line ||
    asciiPat6 line || asciiPat7 line || asciiPat8 line || asciiPat9 line || asciiPat10 line ||
    asciiPat11 line || asciiPat12 line

/-- The arrow characters colored red in ASCII art (source 566). -/
def arrowChars : List Char := str "↓→←↑▼►◄▲"

/-- The arrow search of `createAsciiArtXml` (source 578-586): earliest arrow
occurrence, the first arrow of the list winning only on a strictly smaller index. -/
def firstArrow (l : List Char) : Option (Nat × Char) :=
  arrowChars.foldl
    (fun acc a =>
      match findSub [a] l with
      | none => acc
      | some idx =>
        match acc with
        | none => some (idx, a)
        | some (i0, _) => if idx < i0 then some (idx, a) else acc)
    none

/-- Run before an arrow (source 592-600). -/
def asciiRunBefore (t : List Char) : List Char :=
  str "<w:r>\n                                <w:rPr>\n                                    <w:rFonts w:ascii=\"Consolas\" w:hAnsi=\"Consolas\" w:cs=\"Consolas\"/>\n                                    <w:sz w:val=\"16\"/>\n                                    <w:szCs w:val=\"16\"/>\n                                    <w:noProof/>\n                                </w:rPr>\n                                <w:t xml:space=\"preserve\">" ++
  escapeXml t ++
  str "</w:t>\n                            </w:r>"

/-- Red arrow run (source 605-614). -/
def asciiRunArrow (t : List Char) : List Char :=
  str "<w:r>\n                            <w:rPr>\n                                <w:rFonts w:ascii=\"Consolas\" w:hAnsi=\"Consolas\" w:cs=\"Consolas\"/>\n                                <w:sz w:val=\"16\"/>\n                                <w:szCs w:val=\"16\"/>\n                                <w:color w:val=\"FF0000\"/>\n                                <w:noProof/>\n                            </w:rPr>\n                            <w:t xml:space=\"preserve\">" ++
  escapeXml t ++
  str "</w:t>\n                        </w:r>"

/-- Trailing run after the last arrow (source 621-629). -/
def asciiRunRemaining (t : List Char) : List Char :=
  str "<w:r>\n                            <w:rPr>\n                                <w:rFonts w:ascii=\"Consolas\" w:hAnsi=\"Consolas\" w:cs=\"Consolas\"/>\n                                <w:sz w:val=\"16\"/>\n                                <w:szCs w:val=\"16\"/>\n                                <w:noProof/>\n                            </w:rPr>\n                            <w:t xml:space=\"preserve\">" ++
  escapeXml t ++
  str "</w:t>\n                        </w:r>"

/-- Arrow-free line run (source 636-644). -/
def asciiRunNoArrow (t : List Char) : List Char :=
  str "<w:r>\n                    <w:rPr>\n                        <w:rFonts w:ascii=\"Consolas\" w:hAnsi=\"Consolas\" w:cs=\"Consolas\"/>\n                        <w:sz w:val=\"16\"/>\n                        <w:szCs w:val=\"16\"/>\n                        <w:noProof/>\n                    </w:rPr>\n                    <w:t xml:space=\"preserve\">" ++
  escapeXml t ++
  str "</w:t>\n                </w:r>"

/-- The arrow-splitting while loop (source 571-632). -/
def asciiArrowRuns : List Char → Nat → List Char
  | _, 0 => []
  | remainingLine, fuel + 1 =>
    if remainingLine = [] then []
    else
      match firstArrow remainingLine with
      | some (arrowIndex, a) =>
        (if arrowIndex > 0 then asciiRunBefore (remainingLine.take arrowIndex) else []) ++
        asciiRunArrow [a] ++
        asciiArrowRuns (remainingLine.drop (arrowIndex + 1)) fuel
      | none => asciiRunRemaining remainingLine

/-- Paragraph opening of `createAsciiArtXml` (source 554-563). -/
def asciiParaHeader (index total : Nat) : List Char :=
  str "<w:p>\n                <w:pPr>\n                    <w:pStyle w:val=\"Normal\"/>\n                    <w:shd w:val=\"clear\" w:color=\"auto\" w:fill=\"F5F5F5\"/>\n                    <w:spacing w:before=\"" ++
  (if index = 0 then str "120" else str "0") ++
  str "\" w:after=\"" ++
  (if index = total - 1 then str "120" else str "0") ++
  str "\" w:line=\"240\" w:lineRule=\"exact\"/>\n                    <w:ind w:left=\"284\" w:right=\"284\"/>\n                    <w:jc w:val=\"left\"/>\n                    <w:keepLines/>\n                    <w:wordWrap w:val=\"0\"/>\n                </w:pPr>"

/-- One ASCII-art paragraph (source 552-648). -/
def asciiArtPara (line : List Char) (index total : Nat) : List Char :=
  asciiParaHeader index total ++
  (if arrowChars.any fun a => line.contains a then asciiArrowRuns line (line.length + 1)
   else asciiRunNoArrow line) ++
  str "</w:p>"

/-- `createAsciiArtXml` (source 547-651). -/
def createAsciiArtXml (asciiContent : List Char) : List Char :=
  let lines := splitOnChar '\n' asciiContent
  ((withIdx lines 0).map fun li => asciiArtPara li.1 li.2 lines.length).flatten

/-- The separator-row test `/^\s*\|[\s\-:]+\|\s*$/` (source 372). -/
def isSepLine (line : List Char) : Bool :=
  match line.dropWhile isWs with
  | '|' :: rest =>
    (let R := rest.takeWhile fun d => isWs d || d = '-' || d = ':'
     1 ≤ R.length &&
     match rest.drop R.length with
     | '|' :: tail2 => (tail2.dropWhile isWs).isEmpty
     | _ => false)
  | _ => false

/-- Cell parsing of one table row (source 376):
`line.split('|').filter(cell => cell.trim()).map(cell => cell.trim())`. -/
def parseTableRow (line : List Char) : List (List Char) :=
  ((splitOnChar '|' line).filter fun cell => !(trim cell).isEmpty).map trim

/-- Row collection of `createTableXml` (source 369-380). -/
def tableRows (tableLines : List (List Char)) : List (List (List Char)) :=
  tableLines.filterMap fun line =>
    if isSepLine line then none
    else
      let cells := parseTableRow line
      if cells.length > 0 then some cells else none

/-- The padding loop, with the number of remaining iterations explicit. -/
def padRowGo : Nat → List (List Char) → List (List Char)
  | 0, r => r
  | k + 1, r => padRowGo k (r ++ [[]])

/-- Row padding (source 428-430): empty cells appended until the row has
`n` cells. -/
def padRow (r : List (List Char)) (n : Nat) : List (List Char) :=
  padRowGo (n - r.length) r

/-- JS `runs.replace(/<w:rPr>/g, repl)`: global replacement of a literal
pattern (the replacement text here contains no `$` patterns), fuelled for
structural recursion. -/
def replaceAllSubGo (pat repl : List Char) : List Char → Nat → List Char
  | l, 0 => l
  | [], _ + 1 => []
  | c :: t, fuel + 1 =>
    if pat.isPrefixOf (c :: t) then
      repl ++ replaceAllSubGo pat repl (t.drop (pat.length - 1)) fuel
    else c :: replaceAllSubGo pat repl t fuel

/-- See `replaceAllSubGo`. -/
def replaceAllSub (pat repl : List Char) (l : List Char) : List Char :=
  replaceAllSubGo pat repl l l.length

/-- Fixed table properties (source 396-409). -/
def tblPrXml : List Char :=
  str "<w:tblPr>\n            <w:tblStyle w:val=\"TableGrid\"/>\n            <w:tblW w:w=\"0\" w:type=\"auto\"/>\n            <w:tblLayout w:type=\"fixed\"/>\n            <w:tblLook w:val=\"04A0\" w:firstRow=\"1\" w:lastRow=\"0\" w:firstColumn=\"0\" w:lastColumn=\"0\" w:noHBand=\"0\" w:noVBand=\"1\"/>\n            <w:tblBorders>\n                <w:top w:val=\"single\" w:sz=\"8\" w:space=\"0\" w:color=\"F58220\"/>\n                <w:left w:val=\"single\" w:sz=\"8\" w:space=\"0\" w:color=\"F58220\"/>\n                <w:bottom w:val=\"single\" w:sz=\"8\" w:space=\"0\" w:color=\"F58220\"/>\n                <w:right w:val=\"single\" w:sz=\"8\" w:space=\"0\" w:color=\"F58220\"/>\n                <w:insideH w:val=\"single\" w:sz=\"8\" w:space=\"0\" w:color=\"F58220\"/>\n                <w:insideV w:val=\"single\" w:sz=\"8\" w:space=\"0\" w:color=\"F58220\"/>\n            </w:tblBorders>\n        </w:tblPr>"

/-- One grid column element (source 414). -/
def gridColXml (colWidth : Nat) : List Char :=
  str "<w:gridCol w:w=\"" ++ natChars colWidth ++ str "\"/>"

/-- The cell width element (source 437). -/
def tcWXml (colWidth : Nat) : List Char :=
  str "<w:tcW w:w=\"" ++ natChars colWidth ++ str "\" w:type=\"dxa\"/>"

/-- One table cell (source 432-481). -/
def tcCellXml (cellText : List Char) (isHeader : Bool) (colWidth : Nat) : List Char :=
  str "<w:tc>" ++ str "<w:tcPr>" ++
  tcWXml colWidth ++
  (if isHeader then str "<w:shd w:val=\"clear\" w:color=\"auto\" w:fill=\"F58220\"/>"
   else str "<w:shd w:val=\"clear\" w:color=\"auto\" w:fill=\"FFFFFF\"/>") ++
  str "<w:tcBorders><w:top w:val=\"single\" w:sz=\"8\" w:space=\"0\" w:color=\"F58220\"/><w:left w:val=\"single\" w:sz=\"8\" w:space=\"0\" w:color=\"F58220\"/><w:bottom w:val=\"single\" w:sz=\"8\" w:space=\"0\" w:color=\"F58220\"/><w:right w:val=\"single\" w:sz=\"8\" w:space=\"0\" w:color=\"F58220\"/></w:tcBorders>" ++
  str "<w:tcMar><w:top w:w=\"80\" w:type=\"dxa\"/><w:left w:w=\"120\" w:type=\"dxa\"/><w:bottom w:w=\"80\" w:type=\"dxa\"/><w:right w:w=\"120\" w:type=\"dxa\"/></w:tcMar>" ++
  str "</w:tcPr>" ++
  str "<w:p>" ++ str "<w:pPr>" ++
  str "<w:spacing w:before=\"0\" w:after=\"0\" w:line=\"240\" w:lineRule=\"auto\"/>" ++
  str "</w:pPr>" ++
  (let runs := parseInlineFormatting cellText
   if isHeader then
     replaceAllSub (str "<w:rPr>") (str "<w:rPr><w:b/><w:color w:val=\"FFFFFF\"/>") runs
   else runs) ++
  str "</w:p>" ++ str "</w:tc>"

/-- One table row (source 419-485). -/
def tableRowXml (rowCells : List (List Char)) (rowIndex : Nat) (numCols colWidth : Nat) :
    List Char :=
  str "<w:tr>" ++
  str "<w:trPr><w:trHeight w:val=\"0\" w:hRule=\"atLeast\"/></w:trPr>" ++
  ((padRow rowCells numCols).map fun cell => tcCellXml cell (rowIndex = 0) colWidth).flatten ++
  str "</w:tr>"

/-- `createTableXml` (source 367-493).  `Math.max(...)` over the nonempty list of
row lengths is the fold of `max` from `0`. -/
def createTableXml (tableLines : List (List Char)) : List Char :=
  let rows := tableRows tableLines
  if rows.length = 0 then []
  else
    let numCols := rows.foldl (fun acc r => max acc r.length) 0
    let colWidth := 9360 / numCols
    str "<w:tbl>" ++ tblPrXml ++
    str "<w:tblGrid>" ++ (List.replicate numCols (gridColXml colWidth)).flatten ++
    str "</w:tblGrid>" ++
    ((withIdx rows 0).map fun ri => tableRowXml ri.1 ri.2 numCols colWidth).flatten ++
    str "</w:tbl>" ++
    str "<w:p><w:pPr><w:spacing w:before=\"120\" w:after=\"0\"/></w:pPr></w:p>"

/-- Heading level (source 207): `(line.match(/^#+/) || [''])[0].length` — the
count of leading `#` characters of the raw, untrimmed line. -/
def headingLevel (line : List Char) : Nat :=
  (line.takeWhile fun c => c = '#').length

/-- Numbering-prefix strip (source 210): `text.replace(/^\d+(\.\d+)*\.?\s+/, '')`.
The group scan `(\.\d+)*` is deterministic; after it, an optional dot is taken
only when whitespace follows, and the whole match requires at least one
whitespace character, all of which are consumed. -/
def stripNumberGroups : List Char → Nat → List Char
  | l, 0 => l
  | l, fuel + 1 =>
    match l with
    | '.' :: rest =>
      let ds := rest.takeWhile isDigitCh
      if ds.isEmpty then l else stripNumberGroups (rest.drop ds.length) fuel
    | _ => l

/-- See `stripNumberGroups`. -/
def stripNumbering (t : List Char) : List Char :=
  let ds := t.takeWhile isDigitCh
  if ds.isEmpty then t
  else
    let rem := stripNumberGroups (t.drop ds.length) t.length
    match rem with
    | '.' :: r2 =>
      let W := r2.takeWhile isWs
      if W.isEmpty then t else r2.drop W.length
    | _ =>
      let W := rem.takeWhile isWs
      if W.isEmpty then t else rem.drop W.length

/-- Heading text (source 208-210): strip the leading `#` run and following
whitespace (only when the raw line starts with `#`), trim, then strip any
numbering prefix. -/
def headingText (line : List Char) : List Char :=
  let text0 :=
    if line.head? = some '#' then (line.dropWhile fun c => c = '#').dropWhile isWs else line
  stripNumbering (trim text0)

/-- Quote text (source 217): `line.replace(/^>\s*/, '').trim()`. -/
def quoteText (line : List Char) : List Char :=
  trim (if line.head? = some '>' then (line.drop 1).dropWhile isWs else line)

/-- Ordered-list test `/^\s*\d+\.\s+/` (source 223). -/
def orderedTest (line : List Char) : Bool :=
  let s := line.dropWhile isWs
  let ds := s.takeWhile isDigitCh
  !ds.isEmpty &&
  (s.drop ds.length).head? = some '.' &&
  !((s.drop (ds.length + 1)).takeWhile isWs).isEmpty

/-- Ordered-list text (source 224): the remainder after the matched prefix. -/
def orderedText (line : List Char) : List Char :=
  let s := line.dropWhile isWs
  let ds := s.takeWhile isDigitCh
  (s.drop (ds.length + 1)).dropWhile isWs

/-- Bullet test `/^\s*[-*+]\s+/` (source 230). -/
def bulletTest (line : List Char) : Bool :=
  match line.dropWhile isWs with
  | c :: rest => (c = '-' || c = '*' || c = '+') && !(rest.takeWhile isWs).isEmpty
  | [] => false

/-- Bullet text (source 231). -/
def bulletText (line : List Char) : List Char :=
  ((line.dropWhile isWs).drop 1).dropWhile isWs

/-- Horizontal-rule test `/^[-*_]{3,}$/` on the trimmed line (source 237). -/
def hrTest (line : List Char) : Bool :=
  let s := trim line
  3 ≤ s.length && s.all fun c => c = '-' || c = '*' || c = '_'

/-- ASCII-art consumption (source 190-200): take following lines that are
ASCII art or blank, stopping at the first non-blank non-art line. -/
def consumeAscii : List (List Char) → List (List Char) × List (List Char)
  | [] => ([], [])
  | l :: rest =>
    if isAsciiArt l || (trim l).isEmpty then
      let r := consumeAscii rest
      (l :: r.1, r.2)
    else ([], l :: rest)

/-- The remainder left by `consumeAscii` is no longer than the input. -/
theorem consumeAscii_length_le (lines : List (List Char)) :
    (consumeAscii lines).2.length ≤ lines.length := by
  induction lines with
  | nil => simp [consumeAscii]
  | cons l rest ih =>
    simp only [consumeAscii]
    split
    · simpa using Nat.le_succ_of_le ih
    · simp

/-- The classifier loop of `markdownToWordXml` (source 141-247), with the
`inCodeBlock` flag and accumulated code lines as explicit state.  Note that
code lines accumulated when the input ends inside a code block are discarded,
exactly as in the source (the loop ends without flushing). -/
def markdownLoop : List (List Char) → Bool → List (List Char) → Nat → List Char
  | _, _, _, 0 => []
  | [], _, _, _ + 1 => []
  | line :: rest, inCodeBlock, codeLines, fuel + 1 =>
    if (str "```").isPrefixOf (trim line) then
      if inCodeBlock then
        createCodeBlockXml (List.intercalate [('\n' : Char)] codeLines) ++
        markdownLoop rest false [] fuel
      else markdownLoop rest true codeLines fuel
    else if inCodeBlock then markdownLoop rest true (codeLines ++ [line]) fuel
    else if (trim line).isEmpty then
      str "<w:p><w:pPr></w:pPr></w:p>" ++ markdownLoop rest false codeLines fuel
    else if line.contains '|' && (trim line).head? = some '|' then
      createTableXml (line :: rest.takeWhile fun l => l.contains '|') ++
      markdownLoop (rest.dropWhile fun l => l.contains '|') false codeLines fuel
    else if isAsciiArt line then
      createAsciiArtXml (List.intercalate [('\n' : Char)] (line :: (consumeAscii rest).1)) ++
      markdownLoop (consumeAscii rest).2 false codeLines fuel
    else if (trim line).head? = some '#' then
      createHeadingXml (headingText line) (headingLevel line) ++ markdownLoop rest false codeLines fuel
    else if (trim line).head? = some '>' then
      createQuoteXml (quoteText line) ++ markdownLoop rest false codeLines fuel
    else if orderedTest line then
      createListItemXml (orderedText line) true ++ markdownLoop rest false codeLines fuel
    else if bulletTest line then
      createListItemXml (bulletText line) false ++ markdownLoop rest false codeLines fuel
    else if hrTest line then
      createHorizontalRuleXml ++ markdownLoop rest false codeLines fuel
    else createParagraphXml line ++ markdownLoop rest false codeLines fuel

/-- `markdownToWordXml` (source 141-247). -/
def markdownToWordXml (markdown : List Char) : List Char :=
  let lines := splitOnChar '\n' markdown
  markdownLoop lines false [] (lines.length + 1)

/-- The literal head of the page-size regex `/<w:pgSz[^>]*\/>/`. -/
def pgNeedle : List Char := str "<w:pgSz"

/-- The literal head of the section regexes `/<w:sectPr[^>]*>/`. -/
def sectNeedle : List Char := str "<w:sectPr"

/-- Match of `/<w:pgSz[^>]*\/>/` at position 0: after the literal head, the
greedy `[^>]*` runs to the first `>`, which must be preceded by `/`.  Returns
the match length. -/
def pgMatchHere (l : List Char) : Option Nat :=
  if pgNeedle.isPrefixOf l then
    match (l.drop 7).findIdx? (fun c => c = '>') with
    | some j => if 1 ≤ j ∧ (l.drop 7)[j - 1]? = some '/' then some (8 + j) else none
    | none => none
  else none

/-- First match of the page-size regex: start position and length. -/
def findPg : List Char → Option (Nat × Nat)
  | [] => none
  | c :: t =>
    match pgMatchHere (c :: t) with
    | some len => some (0, len)
    | none => (findPg t).map fun p => (p.1 + 1, p.2)

/-- A `pgMatchHere` match is at least 8 characters and stays inside the list. -/
theorem pgMatchHere_bounds {l : List Char} {len : Nat} (h : pgMatchHere l = some len) :
    8 ≤ len ∧ len ≤ l.length := by
  unfold pgMatchHere at h
  split at h
  · rename_i hpre
    split at h
    · rename_i j hj
      split at h
      · have hlen : len = 8 + j := (Option.some.inj h).symm
        have hjlt : j < (l.drop 7).length :=
          (List.findIdx?_eq_some_iff_findIdx_eq.mp hj).1
        rw [List.length_drop] at hjlt
        have h7 : 7 ≤ l.length :=
          le_trans (by decide : (7 : Nat) ≤ (pgNeedle).length)
            (List.isPrefixOf_iff_prefix.mp hpre).length_le
        omega
      · exact absurd h (by simp)
    · exact absurd h (by simp)
  · exact absurd h (by simp)

/-- `findPg` facts needed for termination. -/
theorem findPg_bounds {l : List Char} {s len : Nat} (h : findPg l = some (s, len)) :
    8 ≤ len ∧ s + len ≤ l.length := by
  induction l generalizing s with
  | nil => exact absurd h (by simp [findPg])
  | cons c t ih =>
    simp only [findPg] at h
    cases hm : pgMatchHere (c :: t) with
    | some len0 =>
      rw [hm] at h
      obtain ⟨hs, hl⟩ := Prod.mk.injEq .. ▸ Option.some.inj h
      subst hs; subst hl
      have := pgMatchHere_bounds hm
      omega
    | none =>
      rw [hm] at h
      simp only [Option.map_eq_some'] at h
      obtain ⟨⟨s', len'⟩, hfind, heq⟩ := h
      obtain ⟨hs, hl⟩ := Prod.mk.injEq .. ▸ heq
      subst hs; subst hl
      have := ih hfind
      simp only [List.length_cons]
      omega

/-- `documentXml.replace(/<w:pgSz[^>]*\/>/g, S)` (source 90-93), written as the
standard left-to-right scan: matching restarts after every replacement, and a
match depends only on the suffix it starts at.  The fuel only serves
termination; any `fuel > l.length` computes the replacement. -/
def replacePgGo (S : List Char) : List Char → Nat → List Char
  | l, 0 => l
  | l, fuel + 1 =>
    match findPg l with
    | none => l
    | some (s, len) => l.take s ++ S ++ replacePgGo S (l.drop (s + len)) fuel

/-- See `replacePgGo`. -/
def replacePg (S : List Char) (l : List Char) : List Char :=
  replacePgGo S l (l.length + 1)

/-- Match of `/<w:sectPr[^>]*>/` at position 0, returning the match length. -/
def sectOpenHere (l : List Char) : Option Nat :=
  if sectNeedle.isPrefixOf l then
    match (l.drop 9).findIdx? (fun c => c = '>') with
    | some j => some (10 + j)
    | none => none
  else none

/-- First match of the section-opening regex. -/
def findSectOpen : List Char → Option (Nat × Nat)
  | [] => none
  | c :: t =>
    match sectOpenHere (c :: t) with
    | some len => some (0, len)
    | none => (findSectOpen t).map fun p => (p.1 + 1, p.2)

/-- A `sectOpenHere` match is at least 10 characters and stays inside the list. -/
theorem sectOpenHere_bounds {l : List Char} {len : Nat} (h : sectOpenHere l = some len) :
    10 ≤ len ∧ len ≤ l.length := by
  unfold sectOpenHere at h
  split at h
  · rename_i hpre
    split at h
    · rename_i j hj
      have hlen : len = 10 + j := (Option.some.inj h).symm
      have hjlt : j < (l.drop 9).length :=
        (List.findIdx?_eq_some_iff_findIdx_eq.mp hj).1
      rw [List.length_drop] at hjlt
      have h9 : 9 ≤ l.length :=
        le_trans (by decide : (9 : Nat) ≤ (sectNeedle).length)
          (List.isPrefixOf_iff_prefix.mp hpre).length_le
      omega
    · exact absurd h (by simp)
  · exact absurd h (by simp)

/-- `findSectOpen` facts needed for termination. -/
theorem findSectOpen_bounds {l : List Char} {s len : Nat}
    (h : findSectOpen l = some (s, len)) : 10 ≤ len ∧ s + len ≤ l.length := by
  induction l generalizing s with
  | nil => exact absurd h (by simp [findSectOpen])
  | cons c t ih =>
    simp only [findSectOpen] at h
    cases hm : sectOpenHere (c :: t) with
    | some len0 =>
      rw [hm] at h
      obtain ⟨hs, hl⟩ := Prod.mk.injEq .. ▸ Option.some.inj h
      subst hs; subst hl
      have := sectOpenHere_bounds hm
      omega
    | none =>
      rw [hm] at h
      simp only [Option.map_eq_some'] at h
      obtain ⟨⟨s', len'⟩, hfind, heq⟩ := h
      obtain ⟨hs, hl⟩ := Prod.mk.injEq .. ▸ heq
      subst hs; subst hl
      have := ih hfind
      simp only [List.length_cons]
      omega

/-- `modifiedXml.replace(/<w:sectPr[^>]*>/g, m => m + S)` (source 97-100):
every section-opening tag has `S` appended directly after it (fuelled). -/
def replaceSectOpenGo (S : List Char) : List Char → Nat → List Char
  | l, 0 => l
  | l, fuel + 1 =>
    match findSectOpen l with
    | none => l
    | some (s, len) => l.take (s + len) ++ S ++ replaceSectOpenGo S (l.drop (s + len)) fuel

/-- See `replaceSectOpenGo`. -/
def replaceSectOpen (S : List Char) (l : List Char) : List Char :=
  replaceSectOpenGo S l (l.length + 1)

/-- Page settings handed to the exporter (`{size, orientation}`). -/
structure PageSettings where
  size : List Char
  orientation : List Char

/-- The `PAGE_SIZES` table (source 61-70). -/
def pageSizeFor (size : List Char) : Option (Nat × Nat) :=
  if size = str "a4" then some (11906, 16838)
  else if size = str "a3" then some (16838, 23811)
  else if size = str "a5" then some (8391, 11906)
  else if size = str "b4" then some (14170, 20015)
  else if size = str "b5" then some (9979, 14170)
  else if size = str "letter" then some (12240, 15840)
  else if size = str "legal" then some (12240, 20160)
  else if size = str "tabloid" then some (15840, 24480)
  else none

/-- The replacement tag `<w:pgSz w:w="W" w:h="H" w:orient="O"/>` (source 92). -/
def pgSzTag (width height : Nat) (orientation : List Char) : List Char :=
  str "<w:pgSz w:w=\"" ++ natChars width ++ str "\" w:h=\"" ++ natChars height ++
  str "\" w:orient=\"" ++ orientation ++ str "\"/>"

/-- `setPageSize` (source 59-104): rewrite every self-closing `<w:pgSz .../>`;
if the original document has none, instead append the tag inside every
`<w:sectPr ...>` opening tag (the test is on the original document). -/
def setPageSize (pageSettings : PageSettings) (documentXml : List Char) : List Char :=
  let wh := (pageSizeFor pageSettings.size).getD (11906, 16838)
  let w := if pageSettings.orientation = str "landscape" then wh.2 else wh.1
  let h := if pageSettings.orientation = str "landscape" then wh.1 else wh.2
  let S := pgSzTag w h pageSettings.orientation
  let modifiedXml := replacePg S documentXml
  if (findPg documentXml).isSome then modifiedXml
  else replaceSectOpen S modifiedXml

/-- Match of `/<w:sectPr[^>]*>[\s\S]*?<\/w:sectPr>/` at position 0: the opening
tag, then the lazy any-character gap up to the first `</w:sectPr>`. -/
def sectPairHere (l : List Char) : Option Nat :=
  if sectNeedle.isPrefixOf l then
    match (l.drop 9).findIdx? (fun c => c = '>') with
    | none => none
    | some j =>
      match findSub (str "</w:sectPr>") (l.drop (10 + j)) with
      | none => none
      | some m => some (10 + j + m + 11)
  else none

/-- The `matchAll` scan (source 116): left-to-right, resuming after each match. -/
def sectScan (doc : List Char) : Nat → Nat → List (Nat × Nat)
  | _, 0 => []
  | i, fuel + 1 =>
    if i < doc.length then
      match sectPairHere (doc.drop i) with
      | some len => (i, len) :: sectScan doc (i + len) fuel
      | none => sectScan doc (i + 1) fuel
    else []

/-- All section-boundary matches of the document, in document order. -/
def sectMatches (doc : List Char) : List (Nat × Nat) :=
  sectScan doc 0 (doc.length + 1)

/-- ECMAScript `GetSubstitution` for a string replacement: `$$`, `$&`, `` $` ``
and `$'` are special; everything else is literal (there are no capture groups
for a string search). -/
def getSubstitution (matched strFull : List Char) (position : Nat) : List Char → List Char
  | [] => []
  | [c] => [c]
  | c :: d :: t' =>
    if c = '$' then
      if d = '$' then '$' :: getSubstitution matched strFull position t'
      else if d = '&' then matched ++ getSubstitution matched strFull position t'
      else if d = backquote then
        strFull.take position ++ getSubstitution matched strFull position t'
      else if d = apos then
        strFull.drop (position + matched.length) ++
          getSubstitution matched strFull position t'
      else c :: getSubstitution matched strFull position (d :: t')
    else c :: getSubstitution matched strFull position (d :: t')

/-- JS `hay.replace(pat, repl)` for a string pattern: first occurrence only,
with `$`-substitution applied to the replacement. -/
def replaceFirstStr (hay pat repl : List Char) : List Char :=
  match findSub pat hay with
  | none => hay
  | some b => hay.take b ++ getSubstitution pat hay b repl ++ hay.drop (b + pat.length)

/-- `insertContentAfterPage` (source 112-136).  `afterPage` is an `Int` as in
JS; a missing `<w:body>` makes `indexOf` return `-1`, so the slice point
becomes `-1 + 8 = 7`. -/
def insertContentAfterPage (documentXml newContentXml : List Char) (afterPage : Int) :
    List Char :=
  let ms := sectMatches documentXml
  let sectionIndex : Int := afterPage - 1
  if sectionIndex ≤ (ms.length : Int) ∧ 0 < sectionIndex then
    let m := ms.getD (sectionIndex - 1).toNat (0, 0)
    let insertPoint := m.1 + m.2
    documentXml.take insertPoint ++ newContentXml ++ documentXml.drop insertPoint
  else if afterPage = 1 ∨ ms.length = 0 then
    let bodyStart :=
      match findSub (str "<w:body>") documentXml with
      | some n => n + 8
      | none => 7
    documentXml.take bodyStart ++ newContentXml ++ documentXml.drop bodyStart
  else
    replaceFirstStr documentXml (str "</w:body>") (newContentXml ++ str "</w:body>")

/-- The effectful collaborators of `convert`, abstracted: template read, archive
parse, archive serialization and output write, each able to fail with an
underlying reason. -/
structure ConvertEnv where
  fileBytes : Except (List Char) (List Nat)
  archiveOf : List Nat → Except (List Char) (List (List Char × List Char))
  generate : List (List Char × List Char) → Except (List Char) (List Nat)
  writeResult : List Nat → Except (List Char) Unit

/-- `zip.file(name)` then `.asText()`: the entry's text, when present. -/
def zipFile (zip : List (List Char × List Char)) (nm : List Char) : Option (List Char) :=
  (zip.find? fun e => e.1 = nm).map (·.2)

/-- `zip.file(name, data)`: replace the entry, or add it. -/
def zipSet (zip : List (List Char × List Char)) (nm content : List Char) :
    List (List Char × List Char) :=
  if (zip.find? fun e => e.1 = nm).isSome then
    zip.map fun e => if e.1 = nm then (nm, content) else e
  else zip ++ [(nm, content)]

/-- Constructor arguments of `WordTemplateExporter` that `convert` reads. -/
structure ExporterConfig where
  startPage : Int
  pageSettings : Option PageSettings

/-- The main document entry. -/
def docEntryName : List Char := str "word/document.xml"

/-- The reason JS produces when `zip.file(...)` returns `null` and `.asText()`
is invoked on it. -/
def nullEntryReason : List Char :=
  str "TypeError: Cannot read properties of null (reading 'asText')"

/-- `convert` (source 22-54).  The result is the outcome (the propagated raw
error, or the bytes written) paired with a flag telling whether the final
`writeFileSync` was reached; the `catch` block only logs and rethrows, so every
error propagates unwrapped. -/
def convert (cfg : ExporterConfig) (env : ConvertEnv) (markdownContent : List Char) :
    Except (List Char) (List Nat) × Bool :=
  match env.fileBytes with
  | .error e => (.error e, false)
  | .ok templateBuffer =>
    match env.archiveOf templateBuffer with
    | .error e => (.error e, false)
    | .ok zip =>
      match zipFile zip docEntryName with
      | none => (.error nullEntryReason, false)
      | some documentXml =>
        let documentXml :=
          match cfg.pageSettings with
          | some ps => setPageSize ps documentXml
          | none => documentXml
        let newContentXml := markdownToWordXml markdownContent
        let modifiedXml := insertContentAfterPage documentXml newContentXml cfg.startPage
        let zip2 := zipSet zip docEntryName modifiedXml
        match env.generate zip2 with
        | .error e => (.error e, false)
        | .ok newDocBuffer =>
          match env.writeResult newDocBuffer with
          | .error e => (.error e, true)
          | .ok _ => (.ok newDocBuffer, true)

/-- Digit characters lie between `'0'` and `'9'`. -/
theorem digitChar_range (d : Nat) : '0' ≤ digitChar d ∧ digitChar d ≤ '9' := by
  unfold digitChar
  (repeat' split) <;> decide

/-- The digits of a natural number are decimal digit characters. -/
theorem natChars_mem (n : Nat) : ∀ c ∈ natChars n, '0' ≤ c ∧ c ≤ '9' := by
  have hgo : ∀ fuel m, ∀ c ∈ natCharsGo m fuel, '0' ≤ c ∧ c ≤ '9' := by
    intro fuel
    induction fuel with
    | zero => intro m c hc; exact absurd hc (by simp [natCharsGo])
    | succ fuel ih =>
      intro m c hc
      rw [natCharsGo] at hc
      split at hc
      · simp only [List.mem_singleton] at hc
        subst hc
        exact digitChar_range m
      · rcases List.mem_append.mp hc with h1 | h1
        · exact ih (m / 10) c h1
        · simp only [List.mem_singleton] at h1
          subst h1
          exact digitChar_range (m % 10)
  exact hgo (n + 1) n

/-! ## Helper lemmas for the claims -/

/-- A nonempty needle whose head differs from the list head is not a prefix. -/
theorem isPrefixOf_cons_false {a c : Char} {as l : List Char} (h : ¬ a = c) :
    (a :: as).isPrefixOf (c :: l) = false := by
  simp [List.isPrefixOf, h]

/-- Splitting a string without the separator gives the single piece. -/
theorem splitOnChar_eq_single {sep : Char} {line : List Char} (h : sep ∉ line) :
    splitOnChar sep line = [line] := by
  induction line with
  | nil => rfl
  | cons c t ih =>
    have hct : sep ∉ t := fun hm => h (List.mem_cons_of_mem c hm)
    have hc : ¬ c = sep := fun he => h (he ▸ List.mem_cons_self c t)
    simp only [splitOnChar, ih hct, if_neg hc]

/-- The single-line pipeline reduces to one `markdownLoop` step. -/
theorem markdownToWordXml_single {line : List Char} (h : ('\n' : Char) ∉ line) :
    markdownToWordXml line = markdownLoop [line] false [] 2 := by
  unfold markdownToWordXml
  rw [splitOnChar_eq_single h]
  rfl

/-- The heading branch of the classifier: a line whose trimmed form starts with
`#`, not captured by the code-fence, blank, table or ASCII-art rules. -/
theorem markdownLoop_heading {line : List Char}
    (h1 : (trim line).head? = some '#') (h2 : isAsciiArt line = false) :
    markdownLoop [line] false [] 2 = createHeadingXml (headingText line) (headingLevel line) := by
  obtain ⟨tl, htl⟩ : ∃ tl, trim line = '#' :: tl := by
    cases htr : trim line with
    | nil => rw [htr] at h1; exact absurd h1 (by simp)
    | cons c t =>
      rw [htr] at h1
      simp only [List.head?_cons, Option.some.injEq] at h1
      exact ⟨t, by rw [h1]⟩
  have hbq : str "```" = [backquote, backquote, backquote] := by decide
  unfold markdownLoop
  rw [htl]
  rw [hbq, isPrefixOf_cons_false (by decide)]
  rw [if_neg (by simp), if_neg (by simp), if_neg (by simp)]
  rw [if_neg (by
    simp only [Bool.and_eq_true, decide_eq_true_eq, List.head?_cons, Option.some.injEq]
    rintro ⟨-, hcc⟩
    exact absurd hcc (by decide))]
  rw [if_neg (by rw [h2]; simp)]
  rw [if_pos (show ('#' :: tl).head? = some '#' from rfl)]
  rw [show markdownLoop [] false [] 1 = [] from rfl, List.append_nil]

/-! ## Claims -/

set_option maxRecDepth 40000 in
/-- C3, counterexample: the heading level is the count of leading `#` of the raw
line with no clamping, so the seven-hash line `####### Seven` is emitted as a
`Heading7`-styled paragraph with level 7, which does not lie in the range 1–6
required by the claim. -/
theorem claim3_counterexample :
    markdownToWordXml (str "####### Seven") = createHeadingXml (str "Seven") 7 ∧
    headingLevel (str "####### Seven") = 7 ∧ ¬ (1 ≤ 7 ∧ 7 ≤ 6) := by
  refine ⟨by decide, by decide, by decide⟩

/-- C3, amended: for every line whose trimmed form starts with `#` and that is
not captured by an earlier classification rule (the ASCII-art heuristic is the
only earlier rule such a line can match), the single-line pipeline emits exactly
the heading paragraph whose level is the count of leading `#` characters of the
raw line (with no clamping into 1–6, and 0 if the line starts with whitespace)
and whose text is the remainder with the `#` run, surrounding whitespace, and
any leading `N.` / `N.N.` numbering prefix stripped. -/
theorem claim3_heading_level_and_text (line : List Char)
    (h1 : (trim line).head? = some '#') (h2 : isAsciiArt line = false)
    (h3 : ('\n' : Char) ∉ line) :
    markdownToWordXml line = createHeadingXml (headingText line) (headingLevel line) := by
  rw [markdownToWordXml_single h3]
  exact markdownLoop_heading h1 h2

set_option maxRecDepth 40000 in
/-- C3, witness: the amended theorem applied to `## 2.1 Overview` yields the
claimed `Heading` with level 2 and text `Overview`. -/
theorem claim3_witness :
    markdownToWordXml (str "## 2.1 Overview") = createHeadingXml (str "Overview") 2 := by
  have h := claim3_heading_level_and_text (str "## 2.1 Overview")
    (by decide) (by decide) (by decide)
  rw [h]
  rw [show headingText (str "## 2.1 Overview") = str "Overview" from by decide]
  rfl

set_option maxRecDepth 10000 in
/-- C6: on the input ```**a** and *b* and `c` ``` the inline parser emits
exactly the run sequence bold `a`, plain ` and `, italic `b`, plain ` and `,
code `c`, in that left-to-right order. -/
theorem claim6_inline_precedence :
    parseInlineFormatting (str "**a** and *b* and `c`") =
      createRunXml (str "a") true false false ++
      createRunXml (str " and ") false false false ++
      createRunXml (str "b") false true false ++
      createRunXml (str " and ") false false false ++
      createRunXml (str "c") false false true := by
  decide

/-- `padRowGo` appends exactly its iteration count of empty cells. -/
theorem padRowGo_eq (k : Nat) (r : List (List Char)) :
    padRowGo k r = r ++ List.replicate k [] := by
  induction k generalizing r with
  | zero => simp [padRowGo]
  | succ k ih =>
    rw [padRowGo, ih, List.append_assoc]
    rfl

/-- Padding appends empty cells at the end only. -/
theorem padRow_eq (r : List (List Char)) (n : Nat) :
    padRow r n = r ++ List.replicate (n - r.length) [] :=
  padRowGo_eq (n - r.length) r

/-- C10: table-row parsing drops every cell whose trimmed text is empty,
including interior ones — `| a | | b |` parses to the two-cell row `a`, `b` —
no kept cell is empty, and padding appends empty cells only at the end of a
row. -/
theorem claim10_empty_cells_dropped :
    parseTableRow (str "| a | | b |") = [str "a", str "b"] ∧
    (∀ line c, c ∈ parseTableRow line → c ≠ []) ∧
    (∀ r n, padRow r n = r ++ List.replicate (n - r.length) []) := by
  refine ⟨by decide, ?_, padRow_eq⟩
  intro line c hc
  unfold parseTableRow at hc
  obtain ⟨cell, hcell, hcc⟩ := List.mem_map.mp hc
  have hp := (List.mem_filter.mp hcell).2
  simp only [Bool.not_eq_true', List.isEmpty_eq_false] at hp
  rw [← hcc]
  exact hp

/-- C10, witness: the membership clause of the theorem at a concrete row. -/
theorem claim10_witness :
    str "x" ∈ parseTableRow (str "|x|") ∧ str "x" ≠ [] :=
  ⟨by decide, claim10_empty_cells_dropped.2.1 (str "|x|") (str "x") (by decide)⟩

/-- C9: the output write is the last operation of `convert` — when the template
read, archive open, document-entry lookup, or archive serialization fails, the
error propagates and the write is never attempted (flag `false`); conversely
the write is only attempted once every earlier step has succeeded. -/
theorem claim9_no_write_on_failure (cfg : ExporterConfig) (env : ConvertEnv)
    (md : List Char) :
    (∀ e, env.fileBytes = .error e → convert cfg env md = (.error e, false)) ∧
    (∀ buf e, env.fileBytes = .ok buf → env.archiveOf buf = .error e →
      convert cfg env md = (.error e, false)) ∧
    (∀ buf zip, env.fileBytes = .ok buf → env.archiveOf buf = .ok zip →
      zipFile zip docEntryName = none →
      convert cfg env md = (.error nullEntryReason, false)) ∧
    (∀ buf zip docXml e, env.fileBytes = .ok buf → env.archiveOf buf = .ok zip →
      zipFile zip docEntryName = some docXml →
      env.generate (zipSet zip docEntryName
        (insertContentAfterPage
          (match cfg.pageSettings with
           | some ps => setPageSize ps docXml
           | none => docXml)
          (markdownToWordXml md) cfg.startPage)) = .error e →
      convert cfg env md = (.error e, false)) ∧
    ((convert cfg env md).2 = true →
      ∃ buf zip docXml bytes, env.fileBytes = .ok buf ∧ env.archiveOf buf = .ok zip ∧
        zipFile zip docEntryName = some docXml ∧
        env.generate (zipSet zip docEntryName
          (insertContentAfterPage
            (match cfg.pageSettings with
             | some ps => setPageSize ps docXml
             | none => docXml)
            (markdownToWordXml md) cfg.startPage)) = .ok bytes) := by
  refine ⟨?_, ?_, ?_, ?_, ?_⟩
  · intro e he
    unfold convert
    rw [he]
  · intro buf e hb ha
    unfold convert
    rw [hb]
    dsimp only
    rw [ha]
  · intro buf zip hb ha hz
    unfold convert
    rw [hb]
    dsimp only
    rw [ha]
    dsimp only
    rw [hz]
  · intro buf zip docXml e hb ha hz hg
    unfold convert
    rw [hb]
    dsimp only
    rw [ha]
    dsimp only
    rw [hz]
    dsimp only
    rw [hg]
  · intro hflag
    unfold convert at hflag
    cases hb : env.fileBytes with
    | error e => rw [hb] at hflag; exact absurd hflag (by simp)
    | ok buf =>
      rw [hb] at hflag
      dsimp only at hflag
      cases ha : env.archiveOf buf with
      | error e => rw [ha] at hflag; exact absurd hflag (by simp)
      | ok zip =>
        rw [ha] at hflag
        dsimp only at hflag
        cases hz : zipFile zip docEntryName with
        | none => rw [hz] at hflag; exact absurd hflag (by simp)
        | some docXml =>
          rw [hz] at hflag
          dsimp only at hflag
          cases hg : env.generate (zipSet zip docEntryName
              (insertContentAfterPage
                (match cfg.pageSettings with
                 | some ps => setPageSize ps docXml
                 | none => docXml)
                (markdownToWordXml md) cfg.startPage)) with
          | error e => rw [hg] at hflag; exact absurd hflag (by simp)
          | ok bytes =>
            refine ⟨buf, zip, docXml, bytes, ?_, ?_, ?_, ?_⟩ <;> first | exact hb | exact ha | exact hz | exact hg | rfl



/-- C9, witness: a concrete environment whose template read fails; `convert`
propagates the reason and the output write is never attempted. -/
theorem claim9_witness :
    convert ⟨3, none⟩
      ⟨.error (str "EPERM"), fun _ => .ok [], fun _ => .ok [], fun _ => .ok ()⟩
      (str "# T") = (.error (str "EPERM"), false) :=
  (claim9_no_write_on_failure _ _ _).1 (str "EPERM") rfl

set_option maxRecDepth 40000 in
/-- C8, counterexample: `convert` rethrows the underlying error unwrapped — no
`TemplateReadError` or `ExportWriteError` class exists in the code — so a
template-read failure and an output-write failure with the same underlying
reason produce the identical propagated value, and the caller cannot
distinguish the two kinds from it. -/
theorem claim8_counterexample :
    (convert ⟨3, none⟩
        ⟨.error (str "EACCES"), fun _ => .ok [], fun _ => .ok [], fun _ => .ok ()⟩
        (str "x")).1 = .error (str "EACCES") ∧
    (convert ⟨3, none⟩
        ⟨.ok [], fun _ => .ok [(docEntryName, str "<w:body></w:body>")],
          fun _ => .ok [], fun _ => .error (str "EACCES")⟩
        (str "x")).1 = .error (str "EACCES") ∧
    (⟨.error (str "EACCES"), fun _ => .ok [], fun _ => .ok [], fun _ => .ok ()⟩ :
      ConvertEnv).fileBytes = .error (str "EACCES") ∧
    (⟨.ok [], fun _ => .ok [(docEntryName, str "<w:body></w:body>")],
        fun _ => .ok [], fun _ => .error (str "EACCES")⟩ : ConvertEnv).fileBytes = .ok [] := by
  refine ⟨rfl, rfl, rfl, rfl⟩

/-- C8, amended: `convert` fails when the template file is unreadable, the
archive is invalid, or the `word/document.xml` entry is absent; in each case the
failure propagates immediately (never retried — the pipeline is abandoned and
the write is not attempted) and carries the underlying reason unwrapped.  No
error-class wrapper exists, so read failures are not distinguishable in kind
from write failures by the caller (see the counterexample). -/
theorem claim8_read_failure_propagates (cfg : ExporterConfig) (env : ConvertEnv)
    (md : List Char) (e : List Char) :
    (env.fileBytes = .error e → convert cfg env md = (.error e, false)) ∧
    (∀ buf, env.fileBytes = .ok buf → env.archiveOf buf = .error e →
      convert cfg env md = (.error e, false)) ∧
    (∀ buf zip, env.fileBytes = .ok buf → env.archiveOf buf = .ok zip →
      zipFile zip docEntryName = none →
      convert cfg env md = (.error nullEntryReason, false)) := by
  refine ⟨?_, ?_, ?_⟩
  · intro he
    unfold convert
    rw [he]
  · intro buf hb ha
    unfold convert
    rw [hb]
    dsimp only
    rw [ha]
  · intro buf zip hb ha hz
    unfold convert
    rw [hb]
    dsimp only
    rw [ha]
    dsimp only
    rw [hz]

/-- C8, witness: the amended theorem at a concrete environment with an invalid
archive. -/
theorem claim8_witness :
    convert ⟨3, none⟩
      ⟨.ok [7], fun _ => .error (str "not a zip"), fun _ => .ok [], fun _ => .ok ()⟩
      (str "x") = (.error (str "not a zip"), false) :=
  (claim8_read_failure_propagates ⟨3, none⟩ _ (str "x") (str "not a zip")).2.1 [7] rfl rfl

/-- The fold step of `selectEarliest`, named for reasoning. -/
def selStep (l : List Char) (acc : Option (InlinePattern × Nat × Nat)) (p : InlinePattern) :
    Option (InlinePattern × Nat × Nat) :=
  match execPat p l with
  | none => acc
  | some (i, ge) =>
    match acc with
    | none => if i < l.length then some (p, i, ge) else acc
    | some (_, i0, _) => if i < i0 then some (p, i, ge) else acc

/-- `selectEarliest` is the fold of `selStep`. -/
theorem selectEarliest_eq_foldl (pats : List InlinePattern) (l : List Char) :
    selectEarliest pats l = pats.foldl (selStep l) none := rfl

/-- Every pattern has a nonempty delimiter. -/
theorem patDelim_pos (p : InlinePattern) : 1 ≤ patDelim p := by
  cases p <;> decide

/-- A successful scan from position `j` is a successful fixed-position match. -/
theorem execPatFrom_spec {p : InlinePattern} {l : List Char} {i ge : Nat} :
    ∀ {j fuel}, execPatFrom p l j fuel = some (i, ge) → patMatchAt p l i = some ge := by
  intro j fuel
  induction fuel generalizing j with
  | zero => intro h; exact absurd h (by simp [execPatFrom])
  | succ fuel ih =>
    intro h
    rw [execPatFrom] at h
    cases hm : patMatchAt p l j with
    | some ge0 =>
      rw [hm] at h
      dsimp only at h
      obtain ⟨hi, hge⟩ := Prod.mk.injEq .. ▸ Option.some.inj h
      subst hi; subst hge
      exact hm
    | none =>
      rw [hm] at h
      dsimp only at h
      by_cases hj : j < l.length
      · rw [if_pos hj] at h
        exact ih h
      · rw [if_neg hj] at h
        exact absurd h (by simp)

/-- The character at the start of a pattern match is its delimiter character. -/
theorem execPat_char {p : InlinePattern} {l : List Char} {i ge : Nat}
    (h : execPat p l = some (i, ge)) : l[i]? = some (patChar p) := by
  have hm := execPatFrom_spec h
  unfold patMatchAt at hm
  split at hm
  · rename_i hpre
    have hpre' := List.isPrefixOf_iff_prefix.mp hpre
    have hd := patDelim_pos p
    obtain ⟨w, hw⟩ := hpre'
    have : l.drop i = patChar p :: (List.replicate (patDelim p - 1) (patChar p) ++ w) := by
      rw [← hw]
      cases hdp : patDelim p with
      | zero => omega
      | succ k => simp [List.replicate_succ]
    rw [← List.head?_drop, this]
    rfl
  · exact absurd hm (by simp)

/-- A successful match starts inside the list. -/
theorem execPat_lt {p : InlinePattern} {l : List Char} {i ge : Nat}
    (h : execPat p l = some (i, ge)) : i < l.length := by
  have hc := execPat_char h
  have : i < l.length ∨ l.length ≤ i := Nat.lt_or_ge i l.length
  rcases this with h1 | h1
  · exact h1
  · rw [List.getElem?_eq_none h1] at hc
    exact absurd hc (by simp)

/-- Two patterns with different delimiter characters never match at the same
start offset, so swapping them in the pattern list leaves the selection fold
unchanged. -/
theorem selStep_swap {l : List Char} {p q : InlinePattern}
    (hpq : patChar p ≠ patChar q) (acc : Option (InlinePattern × Nat × Nat)) :
    selStep l (selStep l acc p) q = selStep l (selStep l acc q) p := by
  have stepNone : ∀ (p' : InlinePattern) (ip' gep' : Nat),
      execPat p' l = some (ip', gep') → ip' < l.length →
      selStep l none p' = some (p', ip', gep') := by
    intro p' ip' gep' he hlt
    unfold selStep
    rw [he]
    dsimp only
    rw [if_pos hlt]
  have stepSome : ∀ (r : InlinePattern) (i0 g0 : Nat) (p' : InlinePattern) (ip' gep' : Nat),
      execPat p' l = some (ip', gep') →
      selStep l (some (r, i0, g0)) p' =
        if ip' < i0 then some (p', ip', gep') else some (r, i0, g0) := by
    intro r i0 g0 p' ip' gep' he
    unfold selStep
    rw [he]
  have stepSkip : ∀ (p' : InlinePattern), execPat p' l = none →
      ∀ acc', selStep l acc' p' = acc' := by
    intro p' he acc'
    unfold selStep
    rw [he]
  cases hp : execPat p l with
  | none =>
    cases hq : execPat q l with
    | none => simp only [stepSkip p hp, stepSkip q hq]
    | some vq => simp only [stepSkip p hp]
  | some vp =>
    obtain ⟨ip, gep⟩ := vp
    cases hq : execPat q l with
    | none => simp only [stepSkip q hq]
    | some vq =>
      obtain ⟨iq, geq⟩ := vq
      have hne : ip ≠ iq := by
        intro he
        have h1 := execPat_char hp
        have h2 := execPat_char hq
        rw [he, h2] at h1
        exact hpq (Option.some.inj h1).symm
      have hiplt := execPat_lt hp
      have hiqlt := execPat_lt hq
      cases acc with
      | none =>
        rw [stepNone p ip gep hp hiplt, stepNone q iq geq hq hiqlt,
          stepSome p ip gep q iq geq hq, stepSome q iq geq p ip gep hp]
        by_cases h3 : iq < ip
        · rw [if_pos h3, if_neg (by omega)]
        · rw [if_neg h3, if_pos (by omega)]
      | some a0 =>
        obtain ⟨r, i0, g0⟩ := a0
        rw [stepSome r i0 g0 p ip gep hp, stepSome r i0 g0 q iq geq hq]
        by_cases h1 : ip < i0 <;> by_cases h2 : iq < i0
        · rw [if_pos h1, if_pos h2, stepSome p ip gep q iq geq hq,
            stepSome q iq geq p ip gep hp]
          by_cases h3 : iq < ip
          · rw [if_pos h3, if_neg (by omega)]
          · rw [if_neg h3, if_pos (by omega)]
        · rw [if_pos h1, if_neg h2, stepSome p ip gep q iq geq hq,
            stepSome r i0 g0 p ip gep hp]
          rw [if_neg (by omega), if_pos h1]
        · rw [if_neg h1, if_pos h2, stepSome r i0 g0 q iq geq hq,
            stepSome q iq geq p ip gep hp]
          rw [if_pos h2, if_neg (by omega)]
        · rw [if_neg h1, if_neg h2, stepSome r i0 g0 q iq geq hq,
            stepSome r i0 g0 p ip gep hp]
          rw [if_neg h1, if_neg h2]

/-- Moving the code pattern one slot left past `italPat` keeps the selection. -/
theorem selectEarliest_move3 (l : List Char) :
    selectEarliest [.biPat, .boldPat, .codePat, .italPat] l =
      selectEarliest inlinePatterns l := by
  rw [selectEarliest_eq_foldl, selectEarliest_eq_foldl]
  simp only [inlinePatterns, List.foldl]
  exact selStep_swap (by decide) _

/-- Moving the code pattern past `boldPat` as well keeps the selection. -/
theorem selectEarliest_move2 (l : List Char) :
    selectEarliest [.biPat, .codePat, .boldPat, .italPat] l =
      selectEarliest inlinePatterns l := by
  rw [← selectEarliest_move3 l]
  rw [selectEarliest_eq_foldl, selectEarliest_eq_foldl]
  simp only [List.foldl]
  exact congrArg (fun a => selStep l a .italPat) (selStep_swap (by decide) _)

/-- Moving the code pattern to the front keeps the selection. -/
theorem selectEarliest_move1 (l : List Char) :
    selectEarliest [.codePat, .biPat, .boldPat, .italPat] l =
      selectEarliest inlinePatterns l := by
  rw [← selectEarliest_move2 l]
  rw [selectEarliest_eq_foldl, selectEarliest_eq_foldl]
  simp only [List.foldl]
  exact congrArg (fun a => selStep l (selStep l a .boldPat) .italPat) (selStep_swap (by decide) _)

/-- Equal selections give an equal parse. -/
theorem parseInlineWith_congr {pats1 pats2 : List InlinePattern}
    (hsel : ∀ l, selectEarliest pats1 l = selectEarliest pats2 l) :
    ∀ fuel l, parseInlineWith pats1 l fuel = parseInlineWith pats2 l fuel := by
  intro fuel
  induction fuel with
  | zero => intro l; rfl
  | succ fuel ih =>
    intro l
    rw [parseInlineWith, parseInlineWith]
    by_cases hl : l = []
    · rw [if_pos hl, if_pos hl]
    · rw [if_neg hl, if_neg hl, hsel l]
      cases selectEarliest pats2 l with
      | none => rfl
      | some v =>
        obtain ⟨p, i, ge⟩ := v
        dsimp only
        rw [ih]

set_option maxRecDepth 20000 in
/-- C7, counterexample: on `***x***` the bold-italic and bold patterns both
match at offset 0, and the strict `<` comparison lets the earlier pattern in
the list win the tie — so swapping the first two patterns changes the output
from one bold-italic `x` run to a bold `*x` run followed by a plain `*` run.
The claim that any permutation of the pattern list yields an equal function is
therefore false. -/
theorem claim7_counterexample :
    parseInlineWith [.boldPat, .biPat, .italPat, .codePat] (str "***x***")
        ((str "***x***").length + 1) ≠ parseInlineFormatting (str "***x***") ∧
    List.Perm [InlinePattern.boldPat, .biPat, .italPat, .codePat] inlinePatterns ∧
    parseInlineFormatting (str "***x***") = createRunXml (str "x") true true false ∧
    parseInlineWith [.boldPat, .biPat, .italPat, .codePat] (str "***x***")
        ((str "***x***").length + 1) =
      createRunXml (str "*x") true false false ++ createRunXml (str "*") false false false := by
  exact ⟨by decide, by decide, by decide, by decide⟩

/-- C7, amended: the run sequence is unchanged by exactly those permutations of
the pattern list that keep the three asterisk patterns (bold-italic, bold,
italic) in their original relative order: the inline-code pattern never ties
with an asterisk pattern at the same offset (their first characters differ), so
its position is irrelevant; ties between asterisk patterns do occur (see the
counterexample), so their relative order must be preserved. -/
theorem claim7_star_order_invariance (pats : List InlinePattern)
    (hperm : pats.Perm inlinePatterns)
    (horder : pats.filter (fun p => p != InlinePattern.codePat) =
      [.biPat, .boldPat, .italPat]) :
    ∀ text, parseInlineWith pats text (text.length + 1) = parseInlineFormatting text := by
  have hlen : pats.length = 4 := by rw [hperm.length_eq]; rfl
  obtain ⟨a, b, c, d, hshape⟩ : ∃ a b c d, pats = [a, b, c, d] := by
    rcases pats with _ | ⟨a, _ | ⟨b, _ | ⟨c, _ | ⟨d, _ | ⟨e, t⟩⟩⟩⟩⟩ <;>
      first
        | (exact ⟨a, b, c, d, rfl⟩)
        | (exfalso; simp only [List.length_cons, List.length_nil] at hlen; omega)
  subst hshape
  have key : [a, b, c, d] = [.codePat, .biPat, .boldPat, .italPat] ∨
      [a, b, c, d] = [.biPat, .codePat, .boldPat, .italPat] ∨
      [a, b, c, d] = [.biPat, .boldPat, .codePat, .italPat] ∨
      [a, b, c, d] = inlinePatterns := by
    clear hlen
    revert hperm horder
    cases a <;> cases b <;> cases c <;> cases d <;> decide
  intro text
  rcases key with h | h | h | h <;> rw [h]
  · exact parseInlineWith_congr selectEarliest_move1 _ text
  · exact parseInlineWith_congr selectEarliest_move2 _ text
  · exact parseInlineWith_congr selectEarliest_move3 _ text
  · rfl

/-- C7, witness: the amended theorem at the code-first permutation and a
concrete line. -/
theorem claim7_witness :
    parseInlineWith [.codePat, .biPat, .boldPat, .italPat] (str "**a** x")
      ((str "**a** x").length + 1) = parseInlineFormatting (str "**a** x") :=
  claim7_star_order_invariance [.codePat, .biPat, .boldPat, .italPat]
    (by decide) (by decide) (str "**a** x")

/-- `findSub` returns a real occurrence. -/
theorem findSub_spec {pat l : List Char} {b : Nat} (h : findSub pat l = some b) :
    pat <+: l.drop b := by
  induction l generalizing b with
  | nil =>
    unfold findSub at h
    split at h
    · rename_i hp
      rw [← Option.some.inj h, List.drop_nil]
      exact List.isPrefixOf_iff_prefix.mp hp
    · exact absurd h (by simp)
  | cons c t ih =>
    unfold findSub at h
    split at h
    · rename_i hp
      rw [← Option.some.inj h, List.drop_zero]
      exact List.isPrefixOf_iff_prefix.mp hp
    · simp only [Option.map_eq_some'] at h
      obtain ⟨b', hb', hbe⟩ := h
      subst hbe
      exact ih hb'

/-- Every match produced by the scan starts at or after the scan position. -/
theorem sectScan_start_ge (doc : List Char) :
    ∀ fuel i, ∀ e ∈ sectScan doc i fuel, i ≤ e.1 := by
  intro fuel
  induction fuel with
  | zero => intro i e he; exact absurd he (by simp [sectScan])
  | succ fuel ih =>
    intro i e he
    rw [sectScan] at he
    split at he
    · cases hm : sectPairHere (doc.drop i) with
      | some len =>
        rw [hm] at he
        rcases List.mem_cons.mp he with h1 | h1
        · rw [h1]
        · exact le_trans (Nat.le_add_right i len) (ih (i + len) e h1)
      | none =>
        rw [hm] at he
        exact le_trans (Nat.le_succ i) (ih (i + 1) e he)
    · exact absurd he (by simp)

/-- Unfolding equation for `sectScan` when a match starts at the scan head. -/
theorem sectScan_eq_some {doc : List Char} {i len fuel : Nat}
    (hi : i < doc.length) (hm : sectPairHere (doc.drop i) = some len) :
    sectScan doc i (fuel + 1) = (i, len) :: sectScan doc (i + len) fuel := by
  rw [sectScan, if_pos hi, hm]

/-- Unfolding equation for `sectScan` when no match starts at the scan head. -/
theorem sectScan_eq_none {doc : List Char} {i fuel : Nat}
    (hi : i < doc.length) (hm : sectPairHere (doc.drop i) = none) :
    sectScan doc i (fuel + 1) = sectScan doc (i + 1) fuel := by
  rw [sectScan, if_pos hi, hm]

/-- Matches come in document order: each match ends at or before the next
match's start. -/
theorem sectScan_chain (doc : List Char) :
    ∀ fuel i j, j + 1 < (sectScan doc i fuel).length →
      ((sectScan doc i fuel).getD j (0, 0)).1 + ((sectScan doc i fuel).getD j (0, 0)).2 ≤
        ((sectScan doc i fuel).getD (j + 1) (0, 0)).1 := by
  intro fuel
  induction fuel with
  | zero => intro i j hj; rw [sectScan] at hj; exact absurd hj (by simp)
  | succ fuel ih =>
    intro i j hj
    by_cases hi : i < doc.length
    · cases hm : sectPairHere (doc.drop i) with
      | some len =>
        rw [sectScan_eq_some hi hm] at hj ⊢
        cases j with
        | zero =>
          simp only [List.getD_cons_zero, List.getD_cons_succ]
          simp only [List.length_cons] at hj
          have hne : sectScan doc (i + len) fuel ≠ [] := by
            intro h0
            rw [h0] at hj
            simp at hj
          obtain ⟨e0, rest, hrest⟩ : ∃ e0 rest, sectScan doc (i + len) fuel = e0 :: rest := by
            cases hs : sectScan doc (i + len) fuel with
            | nil => exact absurd hs hne
            | cons e0 rest => exact ⟨e0, rest, rfl⟩
          rw [hrest]
          simp only [List.getD_cons_zero]
          exact sectScan_start_ge doc fuel (i + len) e0
            (by rw [hrest]; exact List.mem_cons_self _ _)
        | succ j' =>
          simp only [List.getD_cons_succ]
          simp only [List.length_cons] at hj
          exact ih (i + len) j' (by omega)
      | none =>
        rw [sectScan_eq_none hi hm] at hj ⊢
        exact ih (i + 1) j hj
    · rw [sectScan, if_neg hi] at hj
      exact absurd hj (by simp)

/-- No two-character `$`-pattern (`$$`, `$&`, `` $` ``, `$'`) occurs in the
replacement, so `GetSubstitution` copies it verbatim. -/
def dollarSafe : List Char → Bool
  | [] => true
  | [_] => true
  | c :: d :: t =>
    if c = '$' then
      !(d = '$' || d = '&' || d = backquote || d = apos) && dollarSafe (d :: t)
    else dollarSafe (d :: t)

/-- `getSubstitution` is the identity on `$`-safe replacements. -/
theorem getSubstitution_id (matched strFull : List Char) (position : Nat) :
    ∀ n (repl : List Char), repl.length ≤ n → dollarSafe repl = true →
      getSubstitution matched strFull position repl = repl := by
  intro n
  induction n with
  | zero =>
    intro repl hlen _
    have : repl = [] := List.eq_nil_of_length_eq_zero (by omega)
    rw [this]
    rfl
  | succ n ih =>
    intro repl hlen hsafe
    match repl with
    | [] => rfl
    | [c] => rfl
    | c :: d :: t =>
      rw [dollarSafe] at hsafe
      rw [getSubstitution]
      by_cases hc : c = '$'
      · rw [if_pos hc] at hsafe ⊢
        have hA : (d = '$' || d = '&' || d = backquote || d = apos) = false := by
          cases hb : (d = '$' || d = '&' || d = backquote || d = apos)
          · rfl
          · rw [hb] at hsafe
            exact absurd hsafe (by simp)
        have hrec : dollarSafe (d :: t) = true := by
          cases hr : dollarSafe (d :: t)
          · rw [hr] at hsafe
            exact absurd hsafe (by simp)
          · rfl
        simp only [Bool.or_eq_false_iff, decide_eq_false_iff_not] at hA
        obtain ⟨⟨⟨h1, h2⟩, h3⟩, h4⟩ := hA
        rw [if_neg h1, if_neg h2, if_neg h3, if_neg h4]
        rw [ih (d :: t) (by simp at hlen ⊢; omega) hrec]
      · rw [if_neg hc] at hsafe ⊢
        rw [ih (d :: t) (by simp at hlen ⊢; omega) hsafe]

/-- Appending `</w:body>` preserves `$`-safety. -/
theorem dollarSafe_append_body {frag : List Char} (h : dollarSafe frag = true) :
    dollarSafe (frag ++ str "</w:body>") = true := by
  induction frag with
  | nil => decide
  | cons c t ih =>
    cases t with
    | nil =>
      show dollarSafe (c :: str "</w:body>") = true
      rw [show str "</w:body>" = '<' :: str "/w:body>" from rfl]
      rw [dollarSafe]
      by_cases hc : c = '$'
      · rw [if_pos hc]
        decide
      · rw [if_neg hc]
        decide
    | cons d t' =>
      rw [dollarSafe] at h
      show dollarSafe (c :: d :: (t' ++ str "</w:body>")) = true
      rw [dollarSafe]
      by_cases hc : c = '$'
      · rw [if_pos hc] at h ⊢
        simp only [Bool.and_eq_true] at h ⊢
        exact ⟨h.1, ih h.2⟩
      · rw [if_neg hc] at h ⊢
        exact ih h

set_option maxRecDepth 40000 in
/-- C1: counterexample to the fallback clause. The spec says that for
`startPage - 1 > k` the fragment "is inserted immediately before `</w:body>`",
but the source performs this step with `String.replace`, which applies the
ECMAScript `$`-substitution to the replacement. The pipeline fragment produced
for the markdown text `$$` contains the pattern `$$`, which collapses to a
single `$`, so the result is not the fragment spliced before `</w:body>`. -/
theorem claim1_counterexample :
    (sectMatches (str "<w:body>A<w:sectPr></w:sectPr>B</w:body>")).length = 1 ∧
    findSub (str "</w:body>") (str "<w:body>A<w:sectPr></w:sectPr>B</w:body>") = some 31 ∧
    insertContentAfterPage (str "<w:body>A<w:sectPr></w:sectPr>B</w:body>")
        (markdownToWordXml (str "$$")) 3 ≠
      (str "<w:body>A<w:sectPr></w:sectPr>B</w:body>").take 31 ++
        markdownToWordXml (str "$$") ++
        (str "<w:body>A<w:sectPr></w:sectPr>B</w:body>").drop 31 := by
  decide

/-- C1 (amended): splice placement of `insertContentAfterPage` for a document
with `k` section-boundary matches. For `2 ≤ p ≤ k + 1` the fragment is spliced
exactly at the end of the `(p-1)`-th boundary (0-indexed `p - 2`), a point at
or before the start of the `p`-th boundary when one exists; for `p = 1` or
`k = 0` it is spliced immediately after the opening `<w:body>` tag; for
`p - 1 > k ≥ 1` it is spliced immediately before the closing `</w:body>` tag
PROVIDED the fragment contains no two-character `$`-replacement pattern —
without that proviso `String.replace` rewrites the fragment. -/
theorem claim1_splice (doc frag : List Char) (p k : Nat)
    (hk : (sectMatches doc).length = k) :
    (2 ≤ p → p ≤ k + 1 →
      insertContentAfterPage doc frag (p : Int) =
        doc.take (((sectMatches doc).getD (p - 2) (0, 0)).1 +
            ((sectMatches doc).getD (p - 2) (0, 0)).2) ++ frag ++
          doc.drop (((sectMatches doc).getD (p - 2) (0, 0)).1 +
            ((sectMatches doc).getD (p - 2) (0, 0)).2) ∧
      (p ≤ k →
        ((sectMatches doc).getD (p - 2) (0, 0)).1 +
            ((sectMatches doc).getD (p - 2) (0, 0)).2 ≤
          ((sectMatches doc).getD (p - 1) (0, 0)).1)) ∧
    ((p = 1 ∨ k = 0) → ∀ b, findSub (str "<w:body>") doc = some b →
      insertContentAfterPage doc frag (p : Int) =
        doc.take (b + 8) ++ frag ++ doc.drop (b + 8)) ∧
    (k + 2 ≤ p → 1 ≤ k → dollarSafe frag = true →
      ∀ b, findSub (str "</w:body>") doc = some b →
        insertContentAfterPage doc frag (p : Int) =
          doc.take b ++ frag ++ doc.drop b) := by
  refine ⟨?_, ?_, ?_⟩
  · intro h2 hpk
    simp only [insertContentAfterPage]
    have hc : (p : Int) - 1 ≤ ((sectMatches doc).length : Int) ∧ 0 < (p : Int) - 1 := by
      rw [hk]
      omega
    rw [if_pos hc]
    have ht : ((p : Int) - 1 - 1).toNat = p - 2 := by omega
    rw [ht]
    refine ⟨rfl, ?_⟩
    intro hpk2
    have hchain : ((sectMatches doc).getD (p - 2) (0, 0)).1 +
        ((sectMatches doc).getD (p - 2) (0, 0)).2 ≤
          ((sectMatches doc).getD (p - 2 + 1) (0, 0)).1 := by
      refine sectScan_chain doc (doc.length + 1) 0 (p - 2) ?_
      show p - 2 + 1 < (sectMatches doc).length
      rw [hk]
      omega
    rw [show p - 2 + 1 = p - 1 from by omega] at hchain
    exact hchain
  · intro hpk1 b hb
    simp only [insertContentAfterPage]
    have hc1 : ¬((p : Int) - 1 ≤ ((sectMatches doc).length : Int) ∧ 0 < (p : Int) - 1) := by
      rw [hk]
      rcases hpk1 with h | h <;> omega
    rw [if_neg hc1]
    have hc2 : (p : Int) = 1 ∨ (sectMatches doc).length = 0 := by
      rcases hpk1 with h | h
      · left
        rw [h]
        rfl
      · right
        rw [hk]
        exact h
    rw [if_pos hc2, hb]
  · intro hp2 hk1 hsafe b hb
    simp only [insertContentAfterPage]
    have hc1 : ¬((p : Int) - 1 ≤ ((sectMatches doc).length : Int) ∧ 0 < (p : Int) - 1) := by
      rw [hk]
      omega
    have hc2 : ¬((p : Int) = 1 ∨ (sectMatches doc).length = 0) := by
      rw [hk]
      omega
    rw [if_neg hc1, if_neg hc2, replaceFirstStr, hb]
    show doc.take b ++
        getSubstitution (str "</w:body>") doc b (frag ++ str "</w:body>") ++
          doc.drop (b + (str "</w:body>").length) =
      doc.take b ++ frag ++ doc.drop b
    rw [getSubstitution_id (str "</w:body>") doc b (frag ++ str "</w:body>").length
        (frag ++ str "</w:body>") le_rfl (dollarSafe_append_body hsafe)]
    obtain ⟨t, ht⟩ := findSub_spec hb
    have hdrop : doc.drop (b + (str "</w:body>").length) = t := by
      rw [← List.drop_drop, ← ht, List.drop_left]
    rw [hdrop, ← ht]
    simp [List.append_assoc]

set_option maxRecDepth 40000 in
/-- C1 witness: a two-boundary document with `startPage = 2`; the fragment
lands exactly at offset 30, the end of the first section boundary. -/
theorem claim1_witness :
    insertContentAfterPage
        (str "<w:body>A<w:sectPr></w:sectPr>B<w:sectPr></w:sectPr>C</w:body>")
        (str "<w:p/>") ((2 : Nat) : Int) =
      (str "<w:body>A<w:sectPr></w:sectPr>B<w:sectPr></w:sectPr>C</w:body>").take 30 ++
        str "<w:p/>" ++
        (str "<w:body>A<w:sectPr></w:sectPr>B<w:sectPr></w:sectPr>C</w:body>").drop 30 := by
  have h := ((claim1_splice
      (str "<w:body>A<w:sectPr></w:sectPr>B<w:sectPr></w:sectPr>C</w:body>")
      (str "<w:p/>") 2 2 (by decide)).1 (by decide) (by decide)).1
  exact h.trans (by decide)

/-! ## Code-block paragraph anatomy and payload extraction -/

/-- The literal opening of the `<w:t>` run inside a code-block paragraph. -/
def tOpen : List Char := str "<w:t xml:space=\"preserve\">"

/-- The literal closing of a `<w:t>` run. -/
def tClose : List Char := str "</w:t>"

/-- Everything of a code-block paragraph before the `<w:t ...>` opening. -/
def codeParaHead (index total : Nat) : List Char :=
  str "<w:p>\n                <w:pPr>\n                    <w:pStyle w:val=\"Normal\"/>\n                    <w:shd w:val=\"clear\" w:color=\"auto\" w:fill=\"F5F5F5\"/>\n                    <w:spacing w:before=\"" ++
  (if index = 0 then str "120" else str "0") ++
  str "\" w:after=\"" ++
  (if index = total - 1 then str "120" else str "0") ++
  str "\" w:line=\"240\" w:lineRule=\"exact\"/>\n                    <w:ind w:left=\"284\" w:right=\"284\"/>\n                    <w:jc w:val=\"left\"/>\n                    <w:keepLines/>\n                    <w:wordWrap w:val=\"0\"/>\n                </w:pPr>\n                <w:r>\n                    <w:rPr>\n                        <w:rFonts w:ascii=\"Consolas\" w:hAnsi=\"Consolas\" w:cs=\"Consolas\"/>\n                        <w:sz w:val=\"18\"/>\n                        <w:szCs w:val=\"18\"/>\n                        <w:noProof/>\n                    </w:rPr>\n                    "

/-- Everything of a code-block paragraph after the `</w:t>` closing. -/
def codeParaTail : List Char := str "\n                </w:r>\n            </w:p>"

/-- The XML escape of a single character. -/
def encChar (c : Char) : List Char :=
  if c = '&' then str "&amp;"
  else if c = '<' then str "&lt;"
  else if c = '>' then str "&gt;"
  else if c = '"' then str "&quot;"
  else if c = apos then str "&apos;"
  else [c]

/-- Inverse of `escapeXml`: decode the five XML entities (fuelled, the fuel
only serves termination). -/
def unescapeGo : Nat → List Char → List Char
  | 0, l => l
  | _ + 1, [] => []
  | fuel + 1, c :: t =>
    if c = '&' then
      if (str "amp;").isPrefixOf t then '&' :: unescapeGo fuel (t.drop 4)
      else if (str "lt;").isPrefixOf t then '<' :: unescapeGo fuel (t.drop 3)
      else if (str "gt;").isPrefixOf t then '>' :: unescapeGo fuel (t.drop 3)
      else if (str "quot;").isPrefixOf t then '"' :: unescapeGo fuel (t.drop 5)
      else if (str "apos;").isPrefixOf t then apos :: unescapeGo fuel (t.drop 5)
      else c :: unescapeGo fuel t
    else c :: unescapeGo fuel t

/-- Inverse of `escapeXml`. -/
def unescapeXml (l : List Char) : List Char := unescapeGo l.length l

/-- Successive `<w:t xml:space="preserve">...</w:t>` payloads of a piece of
XML, in order (fuelled scan). -/
def payloadsGo : Nat → List Char → List (List Char)
  | 0, _ => []
  | fuel + 1, l =>
    match findSub tOpen l with
    | none => []
    | some b =>
      let rest := l.drop (b + tOpen.length)
      match findSub tClose rest with
      | none => [rest]
      | some e => rest.take e :: payloadsGo fuel (rest.drop (e + tClose.length))

/-- All `<w:t xml:space="preserve">` run payloads of a piece of XML. -/
def textPayloads (l : List Char) : List (List Char) := payloadsGo (l.length + 1) l

/-- `replaceAllChar` distributes over append. -/
theorem replaceAllChar_append (c : Char) (s a b : List Char) :
    replaceAllChar c s (a ++ b) = replaceAllChar c s a ++ replaceAllChar c s b := by
  induction a with
  | nil => rfl
  | cons d t ih =>
    show (if d = c then s else [d]) ++ replaceAllChar c s (t ++ b) = _
    rw [ih]
    show _ = (if d = c then s else [d]) ++ replaceAllChar c s t ++ replaceAllChar c s b
    rw [List.append_assoc]

/-- The chain of four later replacements maps the first-stage image of one
character to its five-entity escape. -/
theorem escape_step (c : Char) :
    replaceAllChar apos (str "&apos;")
      (replaceAllChar '"' (str "&quot;")
        (replaceAllChar '>' (str "&gt;")
          (replaceAllChar '<' (str "&lt;")
            (if c = '&' then str "&amp;" else [c])))) = encChar c := by
  by_cases h1 : c = '&'
  · subst h1; decide
  · rw [if_neg h1, encChar, if_neg h1]
    by_cases h2 : c = '<'
    · subst h2; decide
    · rw [if_neg h2]
      by_cases h3 : c = '>'
      · subst h3; decide
      · rw [if_neg h3]
        by_cases h4 : c = '"'
        · subst h4; decide
        · rw [if_neg h4]
          by_cases h5 : c = apos
          · subst h5; decide
          · rw [if_neg h5]
            simp [replaceAllChar, h2, h3, h4, h5]

/-- `escapeXml` is character-by-character. -/
theorem escapeXml_cons (c : Char) (l : List Char) :
    escapeXml (c :: l) = encChar c ++ escapeXml l := by
  unfold escapeXml
  rw [show replaceAllChar '&' (str "&amp;") (c :: l) =
      (if c = '&' then str "&amp;" else [c]) ++ replaceAllChar '&' (str "&amp;") l from rfl]
  rw [replaceAllChar_append, replaceAllChar_append, replaceAllChar_append,
    replaceAllChar_append, escape_step]

/-- No single-character escape contains a literal `<`. -/
theorem lt_not_mem_encChar (c : Char) : '<' ∉ encChar c := by
  unfold encChar
  by_cases h1 : c = '&'
  · rw [if_pos h1]; decide
  · rw [if_neg h1]
    by_cases h2 : c = '<'
    · rw [if_pos h2]; decide
    · rw [if_neg h2]
      by_cases h3 : c = '>'
      · rw [if_pos h3]; decide
      · rw [if_neg h3]
        by_cases h4 : c = '"'
        · rw [if_pos h4]; decide
        · rw [if_neg h4]
          by_cases h5 : c = apos
          · rw [if_pos h5]; decide
          · rw [if_neg h5]
            intro hm
            exact h2 (List.mem_singleton.mp hm).symm

/-- Escaped text never contains a literal `<`. -/
theorem lt_not_mem_escapeXml (l : List Char) : '<' ∉ escapeXml l := by
  induction l with
  | nil => intro h; exact absurd h (by decide)
  | cons c t ih =>
    rw [escapeXml_cons]
    intro hm
    rcases List.mem_append.mp hm with h | h
    · exact lt_not_mem_encChar c h
    · exact ih h

/-- A two-character disagreement at the second position refutes a prefix test. -/
theorem isPrefixOf_cons2_false {a b d : Char} {as l : List Char} (h : ¬ b = d) :
    (a :: b :: as).isPrefixOf (a :: d :: l) = false := by
  simp [List.isPrefixOf, h]

/-- With enough fuel, `unescapeGo` inverts `escapeXml`. -/
theorem unescapeGo_enc :
    ∀ (l : List Char) (fuel : Nat), (escapeXml l).length ≤ fuel →
      unescapeGo fuel (escapeXml l) = l := by
  intro l
  induction l with
  | nil =>
    intro fuel _
    cases fuel <;> rfl
  | cons c t ih =>
    intro fuel hfuel
    rw [escapeXml_cons] at hfuel ⊢
    by_cases h1 : c = '&'
    · subst h1
      rw [show encChar '&' = '&' :: str "amp;" from rfl] at hfuel ⊢
      rw [List.cons_append] at hfuel ⊢
      obtain ⟨f, rfl⟩ : ∃ f, fuel = f + 1 := ⟨fuel - 1, by simp at hfuel; omega⟩
      rw [unescapeGo, if_pos rfl,
        if_pos (List.isPrefixOf_iff_prefix.mpr ⟨escapeXml t, rfl⟩)]
      rw [show (4 : Nat) = (str "amp;").length from rfl, List.drop_left]
      rw [ih f (by simp at hfuel; omega)]
    · rw [encChar, if_neg h1] at hfuel ⊢
      by_cases h2 : c = '<'
      · subst h2
        rw [show (if ('<' : Char) = '<' then str "&lt;" else
            if ('<' : Char) = '>' then str "&gt;" else if ('<' : Char) = '"' then str "&quot;"
            else if ('<' : Char) = apos then str "&apos;" else ['<']) =
          '&' :: str "lt;" from rfl] at hfuel ⊢
        rw [List.cons_append] at hfuel ⊢
        obtain ⟨f, rfl⟩ : ∃ f, fuel = f + 1 := ⟨fuel - 1, by simp at hfuel; omega⟩
        rw [unescapeGo, if_pos rfl,
          if_neg (by rw [show str "amp;" = 'a' :: str "mp;" from rfl,
            show str "lt;" ++ escapeXml t = 'l' :: (str "t;" ++ escapeXml t) from rfl,
            isPrefixOf_cons_false (by decide)]; exact Bool.false_ne_true),
          if_pos (List.isPrefixOf_iff_prefix.mpr ⟨escapeXml t, rfl⟩)]
        rw [show (3 : Nat) = (str "lt;").length from rfl, List.drop_left]
        rw [ih f (by simp at hfuel; omega)]
      · rw [if_neg h2] at hfuel ⊢
        by_cases h3 : c = '>'
        · subst h3
          rw [show (if ('>' : Char) = '>' then str "&gt;" else
              if ('>' : Char) = '"' then str "&quot;"
              else if ('>' : Char) = apos then str "&apos;" else ['>']) =
            '&' :: str "gt;" from rfl] at hfuel ⊢
          rw [List.cons_append] at hfuel ⊢
          obtain ⟨f, rfl⟩ : ∃ f, fuel = f + 1 := ⟨fuel - 1, by simp at hfuel; omega⟩
          rw [unescapeGo, if_pos rfl,
            if_neg (by rw [show str "amp;" = 'a' :: str "mp;" from rfl,
              show str "gt;" ++ escapeXml t = 'g' :: (str "t;" ++ escapeXml t) from rfl,
              isPrefixOf_cons_false (by decide)]; exact Bool.false_ne_true),
            if_neg (by rw [show str "lt;" = 'l' :: str "t;" from rfl,
              show str "gt;" ++ escapeXml t = 'g' :: (str "t;" ++ escapeXml t) from rfl,
              isPrefixOf_cons_false (by decide)]; exact Bool.false_ne_true),
            if_pos (List.isPrefixOf_iff_prefix.mpr ⟨escapeXml t, rfl⟩)]
          rw [show (3 : Nat) = (str "gt;").length from rfl, List.drop_left]
          rw [ih f (by simp at hfuel; omega)]
        · rw [if_neg h3] at hfuel ⊢
          by_cases h4 : c = '"'
          · subst h4
            rw [show (if ('"' : Char) = '"' then str "&quot;"
                else if ('"' : Char) = apos then str "&apos;" else ['"']) =
              '&' :: str "quot;" from rfl] at hfuel ⊢
            rw [List.cons_append] at hfuel ⊢
            obtain ⟨f, rfl⟩ : ∃ f, fuel = f + 1 := ⟨fuel - 1, by simp at hfuel; omega⟩
            rw [unescapeGo, if_pos rfl,
              if_neg (by rw [show str "amp;" = 'a' :: str "mp;" from rfl,
                show str "quot;" ++ escapeXml t = 'q' :: (str "uot;" ++ escapeXml t) from rfl,
                isPrefixOf_cons_false (by decide)]; exact Bool.false_ne_true),
              if_neg (by rw [show str "lt;" = 'l' :: str "t;" from rfl,
                show str "quot;" ++ escapeXml t = 'q' :: (str "uot;" ++ escapeXml t) from rfl,
                isPrefixOf_cons_false (by decide)]; exact Bool.false_ne_true),
              if_neg (by rw [show str "gt;" = 'g' :: str "t;" from rfl,
                show str "quot;" ++ escapeXml t = 'q' :: (str "uot;" ++ escapeXml t) from rfl,
                isPrefixOf_cons_false (by decide)]; exact Bool.false_ne_true),
              if_pos (List.isPrefixOf_iff_prefix.mpr ⟨escapeXml t, rfl⟩)]
            rw [show (5 : Nat) = (str "quot;").length from rfl, List.drop_left]
            rw [ih f (by simp at hfuel; omega)]
          · rw [if_neg h4] at hfuel ⊢
            by_cases h5 : c = apos
            · subst h5
              rw [if_pos rfl] at hfuel ⊢
              rw [show str "&apos;" = '&' :: str "apos;" from rfl] at hfuel ⊢
              rw [List.cons_append] at hfuel ⊢
              obtain ⟨f, rfl⟩ : ∃ f, fuel = f + 1 := ⟨fuel - 1, by simp at hfuel; omega⟩
              rw [unescapeGo, if_pos rfl,
                if_neg (by rw [show str "amp;" = 'a' :: 'm' :: str "p;" from rfl,
                  show str "apos;" ++ escapeXml t = 'a' :: 'p' :: (str "os;" ++ escapeXml t)
                    from rfl,
                  isPrefixOf_cons2_false (by decide)]; exact Bool.false_ne_true),
                if_neg (by rw [show str "lt;" = 'l' :: str "t;" from rfl,
                  show str "apos;" ++ escapeXml t = 'a' :: (str "pos;" ++ escapeXml t) from rfl,
                  isPrefixOf_cons_false (by decide)]; exact Bool.false_ne_true),
                if_neg (by rw [show str "gt;" = 'g' :: str "t;" from rfl,
                  show str "apos;" ++ escapeXml t = 'a' :: (str "pos;" ++ escapeXml t) from rfl,
                  isPrefixOf_cons_false (by decide)]; exact Bool.false_ne_true),
                if_neg (by rw [show str "quot;" = 'q' :: str "uot;" from rfl,
                  show str "apos;" ++ escapeXml t = 'a' :: (str "pos;" ++ escapeXml t) from rfl,
                  isPrefixOf_cons_false (by decide)]; exact Bool.false_ne_true),
                if_pos (List.isPrefixOf_iff_prefix.mpr ⟨escapeXml t, rfl⟩)]
              rw [show (5 : Nat) = (str "apos;").length from rfl, List.drop_left]
              rw [ih f (by simp at hfuel; omega)]
            · rw [if_neg h5] at hfuel ⊢
              rw [List.singleton_append] at hfuel ⊢
              obtain ⟨f, rfl⟩ : ∃ f, fuel = f + 1 := ⟨fuel - 1, by simp at hfuel; omega⟩
              rw [unescapeGo, if_neg h1]
              rw [ih f (by simp at hfuel; omega)]

/-- `unescapeXml` inverts `escapeXml` on every input. -/
theorem unescapeXml_escapeXml (l : List Char) : unescapeXml (escapeXml l) = l :=
  unescapeGo_enc l (escapeXml l).length le_rfl

/-- A needle occurring nowhere is not found. -/
theorem findSub_eq_none {pat : List Char} (hN : pat ≠ []) :
    ∀ {l : List Char}, countSub pat l = 0 → findSub pat l = none := by
  intro l
  induction l with
  | nil =>
    intro _
    rw [findSub, if_neg]
    intro hp
    exact hN (List.prefix_nil.mp (List.isPrefixOf_iff_prefix.mp hp))
  | cons c t ih =>
    intro h
    rw [countSub] at h
    have h1 : ¬ pat.isPrefixOf (c :: t) = true := by
      intro hp
      rw [if_pos hp] at h
      omega
    rw [if_neg h1] at h
    rw [findSub, if_neg h1, ih (by omega)]
    rfl

/-- The needle is found at 0 at the head of an append. -/
theorem findSub_self_append (pat r : List Char) (hN : pat ≠ []) :
    findSub pat (pat ++ r) = some 0 := by
  cases pat with
  | nil => exact absurd rfl hN
  | cons c t =>
    show findSub (c :: t) (c :: (t ++ r)) = some 0
    rw [findSub, if_pos (List.isPrefixOf_iff_prefix.mpr ⟨r, by simp⟩)]

/-- Searching an append whose left part is occurrence-free and admits no
boundary-straddling occurrence reduces to searching the right part. -/
theorem findSub_append {pat : List Char} (hN : pat ≠ []) :
    ∀ {a : List Char}, countSub pat a = 0 →
      (∀ k, 0 < k → k < pat.length → ¬ pat.take k <:+ a) →
      ∀ b, findSub pat (a ++ b) = (findSub pat b).map (· + a.length) := by
  intro a
  induction a with
  | nil =>
    intro _ _ b
    rw [List.nil_append]
    cases findSub pat b <;> simp
  | cons c t ih =>
    intro hz hstr b
    have hz' : countSub pat t = 0 := by
      rw [countSub] at hz
      omega
    have hnp : ¬ pat <+: (c :: t) := by
      intro hp
      rw [countSub, if_pos (List.isPrefixOf_iff_prefix.mpr hp)] at hz
      omega
    have hstr' : ∀ k, 0 < k → k < pat.length → ¬ pat.take k <:+ t := by
      intro k hk0 hkN hs
      exact hstr k hk0 hkN (hs.trans (List.suffix_cons c t))
    have h1 : ¬ pat.isPrefixOf (c :: (t ++ b)) = true := by
      intro hp
      have hp' : pat <+: (c :: t) ++ b := by
        rw [List.cons_append]
        exact List.isPrefixOf_iff_prefix.mp hp
      by_cases hle : pat.length ≤ (c :: t).length
      · exact hnp ((prefix_append_of_le hle).mp hp')
      · push_neg at hle
        obtain ⟨hta, _⟩ := prefix_append_split_lt hp' hle
        refine hstr (c :: t).length (by simp) hle ?_
        rw [hta]
    show findSub pat (c :: (t ++ b)) = _
    rw [findSub, if_neg h1, ih hz' hstr' b]
    cases findSub pat b <;> simp [List.length_cons] <;> omega

/-- Suffix membership in an append, short enough for the right part. -/
theorem suffix_append_of_le {N a b : List Char} (hlen : N.length ≤ b.length) :
    (N <:+ a ++ b) ↔ N <:+ b := by
  rw [← List.reverse_prefix, ← @List.reverse_prefix _ N b, List.reverse_append]
  exact prefix_append_of_le (by simpa using hlen)

/-- A needle head absent from a list rules out every proper needle-prefix
being a suffix of it. -/
theorem not_take_suffix_of_head_notMem {N a : List Char} {c : Char}
    (hN : N.head? = some c) (hc : c ∉ a) :
    ∀ k, 0 < k → ¬ N.take k <:+ a := by
  intro k hk hsuf
  have hmem : c ∈ N.take k := by
    cases N with
    | nil => exact absurd hN (by simp)
    | cons d t =>
      have hd : d = c := by
        rw [List.head?_cons] at hN
        exact Option.some.inj hN
      subst hd
      cases k with
      | zero => omega
      | succ k' => simp [List.take]
  exact hc (hsuf.subset hmem)

set_option maxRecDepth 100000 in
/-- Anatomy of one code-block paragraph: head, `<w:t>` opening, escaped line,
`</w:t>` closing, tail. -/
theorem codeBlockPara_decomp (l : List Char) (i n : Nat) :
    codeBlockPara l i n =
      codeParaHead i n ++ (tOpen ++ (escapeXml l ++ (tClose ++ codeParaTail))) := by
  rw [codeBlockPara, codeParaHead]
  have h3 : str "\" w:line=\"240\" w:lineRule=\"exact\"/>\n                    <w:ind w:left=\"284\" w:right=\"284\"/>\n                    <w:jc w:val=\"left\"/>\n                    <w:keepLines/>\n                    <w:wordWrap w:val=\"0\"/>\n                </w:pPr>\n                <w:r>\n                    <w:rPr>\n                        <w:rFonts w:ascii=\"Consolas\" w:hAnsi=\"Consolas\" w:cs=\"Consolas\"/>\n                        <w:sz w:val=\"18\"/>\n                        <w:szCs w:val=\"18\"/>\n                        <w:noProof/>\n                    </w:rPr>\n                    " ++ tOpen =
      str "\" w:line=\"240\" w:lineRule=\"exact\"/>\n                    <w:ind w:left=\"284\" w:right=\"284\"/>\n                    <w:jc w:val=\"left\"/>\n                    <w:keepLines/>\n                    <w:wordWrap w:val=\"0\"/>\n                </w:pPr>\n                <w:r>\n                    <w:rPr>\n                        <w:rFonts w:ascii=\"Consolas\" w:hAnsi=\"Consolas\" w:cs=\"Consolas\"/>\n                        <w:sz w:val=\"18\"/>\n                        <w:szCs w:val=\"18\"/>\n                        <w:noProof/>\n                    </w:rPr>\n                    <w:t xml:space=\"preserve\">" := by
    decide
  have h4 : tClose ++ codeParaTail =
      str "</w:t>\n                </w:r>\n            </w:p>" := by
    decide
  rw [← h3, ← h4]
  simp [List.append_assoc]

set_option maxRecDepth 100000 in
/-- The paragraph head contains no `<w:t ...>` opening. -/
theorem codeParaHead_tOpen_count (i n : Nat) : countSub tOpen (codeParaHead i n) = 0 := by
  rw [codeParaHead]
  split_ifs <;> decide

set_option maxRecDepth 100000 in
/-- No proper prefix of the `<w:t ...>` opening is a suffix of the paragraph head. -/
theorem codeParaHead_tOpen_straddle (i n : Nat) :
    ∀ k, k < tOpen.length → 0 < k → ¬ tOpen.take k <:+ codeParaHead i n := by
  rw [codeParaHead]
  split_ifs <;> decide

set_option maxRecDepth 100000 in
/-- The paragraph tail contains no `<w:t ...>` opening. -/
theorem codeParaTail_tOpen_count : countSub tOpen codeParaTail = 0 := by decide

set_option maxRecDepth 100000 in
/-- No proper prefix of the `<w:t ...>` opening is a suffix of the paragraph tail. -/
theorem codeParaTail_tOpen_straddle :
    ∀ k, k < tOpen.length → 0 < k → ¬ tOpen.take k <:+ codeParaTail := by decide

set_option maxRecDepth 100000 in
/-- Head plus `<w:t ...>` opening carry exactly one `<w:p>`. -/
theorem codeParaHead_wp_count (i n : Nat) :
    countSub (str "<w:p>") (codeParaHead i n ++ tOpen) = 1 := by
  rw [codeParaHead]
  split_ifs <;> decide

set_option maxRecDepth 100000 in
/-- No proper prefix of `<w:p>` is a suffix of the `<w:t ...>` opening. -/
theorem tOpen_wp_straddle :
    ∀ k, k < (str "<w:p>").length → 0 < k → ¬ (str "<w:p>").take k <:+ tOpen := by decide

set_option maxRecDepth 100000 in
/-- The run closing and paragraph tail carry no `<w:p>`. -/
theorem close_tail_wp_count : countSub (str "<w:p>") (tClose ++ codeParaTail) = 0 := by
  decide

set_option maxRecDepth 100000 in
/-- No proper prefix of `<w:p>` is a suffix of the paragraph tail. -/
theorem codeParaTail_wp_straddle :
    ∀ k, k < (str "<w:p>").length → 0 < k → ¬ (str "<w:p>").take k <:+ codeParaTail := by
  decide

set_option maxRecDepth 100000 in
/-- The paragraph head is longer than the `<w:t ...>` opening. -/
theorem codeParaHead_length (i n : Nat) : tOpen.length ≤ (codeParaHead i n).length := by
  rw [codeParaHead]
  split_ifs <;> decide

/-- Exactly one `<w:p>` per code-block paragraph. -/
theorem codeBlockPara_wp_count (l : List Char) (i n : Nat) :
    countSub (str "<w:p>") (codeBlockPara l i n) = 1 := by
  rw [codeBlockPara_decomp,
    show codeParaHead i n ++ (tOpen ++ (escapeXml l ++ (tClose ++ codeParaTail))) =
      (codeParaHead i n ++ tOpen) ++ (escapeXml l ++ (tClose ++ codeParaTail)) by
        simp [List.append_assoc]]
  rw [countSub_append_left (by decide) (codeParaHead i n ++ tOpen)
    (escapeXml l ++ (tClose ++ codeParaTail)) ?hb]
  case hb =>
    intro k hk0 hkN hs
    have h5 : (str "<w:p>").length = 5 := by decide
    have h26 : tOpen.length = 26 := by decide
    rw [suffix_append_of_le (by rw [List.length_take]; omega)] at hs
    exact tOpen_wp_straddle k hkN hk0 hs
  rw [countSub_append_left (by decide) (escapeXml l) (tClose ++ codeParaTail) ?he]
  case he =>
    intro k hk0 _ hs
    exact not_take_suffix_of_head_notMem (by decide) (lt_not_mem_escapeXml l) k hk0 hs
  rw [codeParaHead_wp_count,
    countSub_eq_zero_of_head (show (str "<w:p>").head? = some '<' by decide)
      (lt_not_mem_escapeXml l),
    close_tail_wp_count]

/-- One scan step of `payloadsGo` across a well-formed text run. -/
theorem payloadsGo_step (pre pay rest : List Char) (f : Nat)
    (hz : countSub tOpen pre = 0)
    (hstr : ∀ k, 0 < k → k < tOpen.length → ¬ tOpen.take k <:+ pre)
    (hpay : '<' ∉ pay) :
    payloadsGo (f + 1) (pre ++ (tOpen ++ (pay ++ (tClose ++ rest)))) =
      pay :: payloadsGo f rest := by
  rw [payloadsGo]
  have hopen : findSub tOpen (pre ++ (tOpen ++ (pay ++ (tClose ++ rest)))) =
      some pre.length := by
    rw [findSub_append (by decide) hz hstr, findSub_self_append _ _ (by decide)]
    simp
  rw [hopen]
  dsimp only
  have hdrop1 : (pre ++ (tOpen ++ (pay ++ (tClose ++ rest)))).drop
      (pre.length + tOpen.length) = pay ++ (tClose ++ rest) := by
    rw [show pre ++ (tOpen ++ (pay ++ (tClose ++ rest))) =
        (pre ++ tOpen) ++ (pay ++ (tClose ++ rest)) from by simp [List.append_assoc],
      show pre.length + tOpen.length = (pre ++ tOpen).length from
        (List.length_append _ _).symm,
      List.drop_left]
  rw [hdrop1]
  have hclose : findSub tClose (pay ++ (tClose ++ rest)) = some pay.length := by
    rw [findSub_append (by decide) (countSub_eq_zero_of_head (by decide) hpay)
        (fun k hk0 _ hs => not_take_suffix_of_head_notMem (by decide) hpay k hk0 hs),
      findSub_self_append _ _ (by decide)]
    simp
  rw [hclose]
  dsimp only
  rw [List.take_left]
  have hdrop2 : (pay ++ (tClose ++ rest)).drop (pay.length + tClose.length) = rest := by
    rw [show pay ++ (tClose ++ rest) = (pay ++ tClose) ++ rest from by
        simp [List.append_assoc],
      show pay.length + tClose.length = (pay ++ tClose).length from
        (List.length_append _ _).symm,
      List.drop_left]
  rw [hdrop2]

/-- The payload scan over concatenated code-block paragraphs returns the
escaped lines, in order. -/
theorem payloads_flatten :
    ∀ (ls : List (List Char)) (i n : Nat) (pre : List Char) (fuel : Nat),
      ls.length < fuel →
      countSub tOpen pre = 0 →
      (∀ k, 0 < k → k < tOpen.length → ¬ tOpen.take k <:+ pre) →
      payloadsGo fuel
        (pre ++ (((withIdx ls i).map fun li => codeBlockPara li.1 li.2 n).flatten)) =
        ls.map escapeXml := by
  intro ls
  induction ls with
  | nil =>
    intro i n pre fuel _ hz _
    cases fuel with
    | zero => rfl
    | succ f =>
      show payloadsGo (f + 1) (pre ++ []) = []
      rw [List.append_nil, payloadsGo, findSub_eq_none (by decide) hz]
  | cons l t ih =>
    intro i n pre fuel hfuel hz hstr
    obtain ⟨f, rfl⟩ : ∃ f, fuel = f + 1 := ⟨fuel - 1, by omega⟩
    have harr : pre ++ (((withIdx (l :: t) i).map fun li =>
          codeBlockPara li.1 li.2 n).flatten) =
        (pre ++ codeParaHead i n) ++ (tOpen ++ (escapeXml l ++ (tClose ++
          (codeParaTail ++
            ((withIdx t (i + 1)).map fun li => codeBlockPara li.1 li.2 n).flatten)))) := by
    
      show pre ++ (codeBlockPara l i n ++
        ((withIdx t (i + 1)).map fun li => codeBlockPara li.1 li.2 n).flatten) = _
      rw [codeBlockPara_decomp]
      simp [List.append_assoc]
    rw [harr]
    have hzP : countSub tOpen (pre ++ codeParaHead i n) = 0 := by
      rw [countSub_append_left (by decide) pre (codeParaHead i n) hstr, hz,
        codeParaHead_tOpen_count]
    have hstrP : ∀ k, 0 < k → k < tOpen.length →
        ¬ tOpen.take k <:+ pre ++ codeParaHead i n := by
      intro k hk0 hkN hs
      have h26 : tOpen.length = 26 := by decide
      rw [suffix_append_of_le (by
        rw [List.length_take]
        have := codeParaHead_length i n
        omega)] at hs
      exact codeParaHead_tOpen_straddle i n k hkN hk0 hs
    rw [payloadsGo_step _ _ _ _ hzP hstrP (lt_not_mem_escapeXml l)]
    rw [ih (i + 1) n codeParaTail f (by simp at hfuel ⊢; omega)
      codeParaTail_tOpen_count
      (fun k hk0 hkN hs => codeParaTail_tOpen_straddle k hkN hk0 hs)]
    rfl

/-- Concatenated code-block paragraphs carry one `<w:p>` each. -/
theorem codeBlock_flatten_wp_count :
    ∀ (ls : List (List Char)) (i n : Nat),
      countSub (str "<w:p>")
        (((withIdx ls i).map fun li => codeBlockPara li.1 li.2 n).flatten) = ls.length := by
  intro ls
  induction ls with
  | nil => intro i n; rfl
  | cons l t ih =>
    intro i n
    show countSub (str "<w:p>") (codeBlockPara l i n ++
      ((withIdx t (i + 1)).map fun li => codeBlockPara li.1 li.2 n).flatten) = _
    rw [countSub_append_left (by decide) _ _ ?hpara, codeBlockPara_wp_count, ih (i + 1) n]
    case hpara =>
      intro k hk0 hkN hs
      have hX : (List.take k (str "<w:p>")).length ≤ 5 := by
        rw [List.length_take]
        have h5 : (str "<w:p>").length = 5 := by decide
        omega
      rw [codeBlockPara_decomp] at hs
      have hb1 : (5 : Nat) ≤ (tOpen ++ (escapeXml l ++ (tClose ++ codeParaTail))).length := by
        rw [List.length_append]
        have h26 : tOpen.length = 26 := by decide
        omega
      have hb2 : (5 : Nat) ≤ (escapeXml l ++ (tClose ++ codeParaTail)).length := by
        rw [List.length_append]
        have h48 : (tClose ++ codeParaTail).length = 48 := by decide
        omega
      have hb3 : (5 : Nat) ≤ (tClose ++ codeParaTail).length := by decide
      have hb4 : (5 : Nat) ≤ codeParaTail.length := by decide
      rw [suffix_append_of_le (hX.trans hb1), suffix_append_of_le (hX.trans hb2),
        suffix_append_of_le (hX.trans hb3), suffix_append_of_le (hX.trans hb4)] at hs
      exact codeParaTail_wp_straddle k hkN hk0 hs
    rw [List.length_cons]
    omega

/-- Splitting a separator-free part followed by the separator peels one piece. -/
theorem splitOnChar_append_cons (sep : Char) :
    ∀ (l r : List Char), sep ∉ l →
      splitOnChar sep (l ++ sep :: r) = l :: splitOnChar sep r := by
  intro l
  induction l with
  | nil =>
    intro r _
    show splitOnChar sep (sep :: r) = [] :: splitOnChar sep r
    rw [splitOnChar]
    simp
  | cons c t ih =>
    intro r hmem
    have hc : ¬ c = sep := fun h => hmem (h ▸ List.mem_cons_self c t)
    have ht : sep ∉ t := fun h => hmem (List.mem_cons_of_mem c h)
    show splitOnChar sep (c :: (t ++ sep :: r)) = (c :: t) :: splitOnChar sep r
    rw [splitOnChar]
    simp only [if_neg hc]
    rw [ih r ht]

/-- `split('\n')` inverts `join('\n')` on newline-free pieces. -/
theorem splitOnChar_intercalate (sep : Char) :
    ∀ ls : List (List Char), ls ≠ [] → (∀ l ∈ ls, sep ∉ l) →
      splitOnChar sep (List.intercalate [sep] ls) = ls := by
  intro ls
  induction ls with
  | nil => intro h _; exact absurd rfl h
  | cons l t ih =>
    intro _ hmem
    cases t with
    | nil =>
      rw [show List.intercalate [sep] [l] = l by simp [List.intercalate]]
      exact splitOnChar_eq_single (hmem l (List.mem_cons_self l []))
    | cons b t' =>
      rw [show List.intercalate [sep] (l :: b :: t') =
          l ++ sep :: List.intercalate [sep] (b :: t') by
        simp [List.intercalate, List.intersperse]]
      rw [splitOnChar_append_cons sep l _ (hmem l (List.mem_cons_self l _))]
      rw [ih (by simp) (fun x hx => hmem x (List.mem_cons_of_mem l hx))]

/-- On a joined list of newline-free lines, `createCodeBlockXml` is one
paragraph per line. -/
theorem createCodeBlockXml_intercalate (ls : List (List Char)) (hne : ls ≠ [])
    (hnl : ∀ l ∈ ls, ('\n' : Char) ∉ l) :
    createCodeBlockXml (List.intercalate [('\n' : Char)] ls) =
      ((withIdx ls 0).map fun li => codeBlockPara li.1 li.2 ls.length).flatten := by
  simp only [createCodeBlockXml]
  rw [splitOnChar_intercalate ('\n' : Char) ls hne hnl]

/-- At least one character per emitted paragraph. -/
theorem codeBlock_flatten_length :
    ∀ (ls : List (List Char)) (i n : Nat),
      ls.length ≤
        (((withIdx ls i).map fun li => codeBlockPara li.1 li.2 n).flatten).length := by
  intro ls
  induction ls with
  | nil => intro i n; simp [withIdx]
  | cons l t ih =>
    intro i n
    show (l :: t).length ≤ (codeBlockPara l i n ++
      ((withIdx t (i + 1)).map fun li => codeBlockPara li.1 li.2 n).flatten).length
    rw [List.length_append, List.length_cons]
    have h1 : 1 ≤ (codeBlockPara l i n).length := by
      rw [codeBlockPara_decomp, List.length_append]
      have := codeParaHead_length i n
      have h26 : tOpen.length = 26 := by decide
      omega
    have h2 := ih (i + 1) n
    omega

/-- The text payloads of concatenated code-block paragraphs are the escaped
lines, in order. -/
theorem textPayloads_codeBlock (ls : List (List Char)) (n : Nat) :
    textPayloads (((withIdx ls 0).map fun li => codeBlockPara li.1 li.2 n).flatten) =
      ls.map escapeXml := by
  unfold textPayloads
  have h := payloads_flatten ls 0 n []
    ((((withIdx ls 0).map fun (li : List Char × Nat) =>
        codeBlockPara li.1 li.2 n).flatten).length + 1)
    (by have := codeBlock_flatten_length ls 0 n; omega)
    rfl
    (by
      intro k hk0 hkN hs
      have h0 := List.suffix_nil.mp hs
      have h1 := congrArg List.length h0
      rw [List.length_take] at h1
      have h26 : tOpen.length = 26 := by decide
      rw [h26] at h1
      simp only [List.length_nil] at h1
      omega)
  rw [List.nil_append] at h
  exact h

/-- Inside a code block the loop accumulates lines until the closing fence,
then emits the block followed by the rest of the translation. -/
theorem markdownLoop_codeAcc :
    ∀ (ls : List (List Char)) (acc : List (List Char)) (fence : List Char)
      (rest : List (List Char)) (fuel : Nat),
      (str "```").isPrefixOf (trim fence) = true →
      (∀ l ∈ ls, (str "```").isPrefixOf (trim l) = false) →
      markdownLoop (ls ++ fence :: rest) true acc (ls.length + (fuel + 1)) =
        createCodeBlockXml (List.intercalate [('\n' : Char)] (acc ++ ls)) ++
          markdownLoop rest false [] fuel := by
  intro ls
  induction ls with
  | nil =>
    intro acc fence rest fuel hf _
    rw [List.nil_append,
      show ([] : List (List Char)).length + (fuel + 1) = fuel + 1 from by simp]
    rw [markdownLoop]
    rw [if_pos hf, if_pos rfl, List.append_nil]
  | cons l t ih =>
    intro acc fence rest fuel hf hcode
    have hl : (str "```").isPrefixOf (trim l) = false := hcode l (List.mem_cons_self l t)
    rw [show ((l :: t) ++ fence :: rest) = l :: (t ++ fence :: rest) from rfl,
      show (l :: t).length + (fuel + 1) = (t.length + (fuel + 1)) + 1 from by
        rw [List.length_cons]; omega]
    rw [markdownLoop]
    rw [if_neg (by rw [hl]; exact Bool.false_ne_true), if_pos rfl]
    rw [ih (acc ++ [l]) fence rest fuel hf
      (fun x hx => hcode x (List.mem_cons_of_mem l hx))]
    rw [List.append_assoc]
    rfl

/-- C2 (amended): a fenced block of `n` non-fence lines, closed by a fence,
emits exactly `n` paragraphs whose run payloads are exactly the XML escapes
of the original lines (recovered verbatim by unescaping). -/
theorem claim2_code_block_paragraphs
    (ls rest : List (List Char)) (fence₀ fence₁ : List Char) (fuel : Nat)
    (h₀ : (str "```").isPrefixOf (trim fence₀) = true)
    (h₁ : (str "```").isPrefixOf (trim fence₁) = true)
    (hcode : ∀ l ∈ ls, (str "```").isPrefixOf (trim l) = false)
    (hnl : ∀ l ∈ ls, ('\n' : Char) ∉ l)
    (hne : ls ≠ []) :
    markdownLoop (fence₀ :: (ls ++ fence₁ :: rest)) false [] (ls.length + fuel + 2) =
      createCodeBlockXml (List.intercalate [('\n' : Char)] ls) ++
        markdownLoop rest false [] fuel ∧
    countSub (str "<w:p>") (createCodeBlockXml (List.intercalate [('\n' : Char)] ls)) =
      ls.length ∧
    textPayloads (createCodeBlockXml (List.intercalate [('\n' : Char)] ls)) =
      ls.map escapeXml ∧
    ∀ l ∈ ls, unescapeXml (escapeXml l) = l := by
  refine ⟨?_, ?_, ?_, fun l _ => unescapeXml_escapeXml l⟩
  · rw [show ls.length + fuel + 2 = (ls.length + (fuel + 1)) + 1 from by omega]
    rw [markdownLoop]
    rw [if_pos h₀, if_neg (show ¬(false = true) by decide)]
    exact markdownLoop_codeAcc ls [] fence₁ rest fuel h₁ hcode
  · rw [createCodeBlockXml_intercalate ls hne hnl]
    exact codeBlock_flatten_wp_count ls 0 ls.length
  · rw [createCodeBlockXml_intercalate ls hne hnl]
    exact textPayloads_codeBlock ls ls.length

set_option maxRecDepth 40000 in
/-- C2: counterexample. An empty fenced block (``` immediately followed by
```) has zero content lines but emits one paragraph, because
`''.split('\n')` is `['']`; and a block left unterminated at end of input is
discarded entirely, emitting nothing rather than its one content line. -/
theorem claim2_counterexample :
    countSub (str "<w:p>") (markdownToWordXml (str "```\n```")) = 1 ∧
    markdownToWordXml (str "```\nabc") = [] := by
  decide

/-- C2 witness: the block with lines `a` and the empty line emits exactly two
paragraphs carrying exactly those texts. -/
theorem claim2_witness :
    markdownLoop (str "```" :: ([str "a", str ""] ++ str "```" :: [])) false []
        ([str "a", str ""].length + 1 + 2) =
      createCodeBlockXml (List.intercalate [('\n' : Char)] [str "a", str ""]) ++
        markdownLoop [] false [] 1 ∧
    countSub (str "<w:p>")
        (createCodeBlockXml (List.intercalate [('\n' : Char)] [str "a", str ""])) =
      [str "a", str ""].length ∧
    textPayloads (createCodeBlockXml (List.intercalate [('\n' : Char)] [str "a", str ""])) =
      [str "a", str ""].map escapeXml ∧
    ∀ l ∈ [str "a", str ""], unescapeXml (escapeXml l) = l :=
  claim2_code_block_paragraphs [str "a", str ""] [] (str "```") (str "```") 1
    (by decide) (by decide) (by decide) (by decide) (by decide)

/-! ## Table structure: needle counting over `createTableXml` -/

/-- No single-character escape contains a literal `>`. -/
theorem gt_not_mem_encChar (c : Char) : '>' ∉ encChar c := by
  unfold encChar
  by_cases h1 : c = '&'
  · rw [if_pos h1]; decide
  · rw [if_neg h1]
    by_cases h2 : c = '<'
    · rw [if_pos h2]; decide
    · rw [if_neg h2]
      by_cases h3 : c = '>'
      · rw [if_pos h3]; decide
      · rw [if_neg h3]
        by_cases h4 : c = '"'
        · rw [if_pos h4]; decide
        · rw [if_neg h4]
          by_cases h5 : c = apos
          · rw [if_pos h5]; decide
          · rw [if_neg h5]
            intro hm
            exact h3 (List.mem_singleton.mp hm).symm

/-- Escaped text never contains a literal `>`. -/
theorem gt_not_mem_escapeXml (l : List Char) : '>' ∉ escapeXml l := by
  induction l with
  | nil => intro h; exact absurd h (by decide)
  | cons c t ih =>
    rw [escapeXml_cons]
    intro hm
    rcases List.mem_append.mp hm with h | h
    · exact gt_not_mem_encChar c h
    · exact ih h

/-- The last element of an append with a known nonempty right part. -/
theorem getLast?_append_some {a b : List Char} {c : Char} (h : b.getLast? = some c) :
    (a ++ b).getLast? = some c := by
  rw [List.getLast?_append, h]
  rfl

/-- Append split for a needle with `>` at most in final position, when the
left part ends in `>` or is empty. -/
theorem countSub_step {N : List Char} (hN : N ≠ [])
    (hgt : ∀ j, j + 1 < N.length → N[j]? ≠ some '>') {a : List Char} (rest : List Char)
    (ha : a = [] ∨ a.getLast? = some '>') :
    countSub N (a ++ rest) = countSub N a + countSub N rest := by
  rcases ha with rfl | ha
  · rw [List.nil_append]
    show countSub N rest = countSub N [] + countSub N rest
    rw [show countSub N [] = 0 from rfl]
    omega
  · exact countSub_append_left hN a rest (take_not_suffix_of_getLast ha hgt)

/-- A needle that begins with `<` never occurs in `<`-free text. -/
theorem countSub_zero_of_lt_free {N l : List Char} (hhead : N.head? = some '<')
    (hl : '<' ∉ l) : countSub N l = 0 :=
  countSub_eq_zero_of_head hhead hl

/-- Membership extraction from an optional index. -/
theorem mem_of_getElem?_eq_some {l : List Char} {j : Nat} {c : Char}
    (h : l[j]? = some c) : c ∈ l := by
  rcases List.getElem?_eq_some_iff.mp h with ⟨hj, rfl⟩
  exact List.getElem_mem hj

/-- A needle with no `>` anywhere satisfies the step side condition. -/
theorem hgt_of_not_mem {N : List Char} (h : '>' ∉ N) :
    ∀ j, j + 1 < N.length → N[j]? ≠ some '>' := by
  intro j _ hj
  exact h (mem_of_getElem?_eq_some hj)

/-- "Ends with `>` (or is empty)" — the boundary invariant of all emitted
XML pieces. -/
def EndsGt (l : List Char) : Prop := l = [] ∨ l.getLast? = some '>'

/-- `EndsGt` is preserved by append. -/
theorem EndsGt_append {a b : List Char} (ha : EndsGt a) (hb : EndsGt b) :
    EndsGt (a ++ b) := by
  rcases hb with rfl | hb
  · rw [List.append_nil]; exact ha
  · exact Or.inr (getLast?_append_some hb)

/-- `EndsGt` for an optional fixed piece. -/
theorem EndsGt_ifPiece (b : Bool) (P : List Char) (hP : P.getLast? = some '>') :
    EndsGt (if b = true then P else []) := by
  cases b
  · rw [if_neg (by decide)]; exact Or.inl rfl
  · rw [if_pos rfl]; exact Or.inr hP

/-- Needle count of an optional fixed piece. -/
theorem countSub_ifPiece {N : List Char} (b : Bool) (P : List Char)
    (h : countSub N P = 0) :
    countSub N (if b = true then P else []) = 0 := by
  cases b
  · rw [if_neg (by decide)]; rfl
  · rw [if_pos rfl]; exact h

/-- A run ends with `>` when nonempty. -/
theorem EndsGt_createRunXml (text : List Char) (b i c : Bool) :
    EndsGt (createRunXml text b i c) := by
  rw [createRunXml]
  by_cases ht : text = []
  · rw [if_pos ht]; exact Or.inl rfl
  · rw [if_neg ht]
    refine Or.inr ?_
    simp only [List.append_assoc]
    exact getLast?_append_some (getLast?_append_some (getLast?_append_some
      (getLast?_append_some (getLast?_append_some (getLast?_append_some
        (show (str "</w:t></w:r>").getLast? = some '>' by decide))))))

/-- A needle that starts with `<`, has no `>` before its last character and is
absent from every run scaffold piece never occurs in any single run. -/
theorem countSub_createRunXml_zero (N : List Char) (hN : N ≠ [])
    (hhead : N.head? = some '<') (hgt : ∀ j, j + 1 < N.length → N[j]? ≠ some '>')
    (h1 : countSub N (str "<w:r><w:rPr>") = 0)
    (h2 : countSub N (str "<w:b/>") = 0)
    (h3 : countSub N (str "<w:i/>") = 0)
    (h4 : countSub N (str "<w:rFonts w:ascii=\"Consolas\" w:hAnsi=\"Consolas\"/>" ++
      str "<w:sz w:val=\"20\"/>") = 0)
    (h5 : countSub N (str "</w:rPr><w:t xml:space=\"preserve\">") = 0)
    (hS3 : countSub N (str "</w:t></w:r>") = 0)
    (text : List Char) (b i c : Bool) :
    countSub N (createRunXml text b i c) = 0 := by
  rw [createRunXml]
  by_cases ht : text = []
  · rw [if_pos ht]; rfl
  · rw [if_neg ht]
    simp only [List.append_assoc]
    rw [countSub_step hN hgt _ (Or.inr (show (str "<w:r><w:rPr>").getLast? = some '>'
      by decide))]
    rw [countSub_step hN hgt _ (EndsGt_ifPiece b _ (by decide))]
    rw [countSub_step hN hgt _ (EndsGt_ifPiece i _ (by decide))]
    rw [countSub_step hN hgt _ (EndsGt_ifPiece c _ (by decide))]
    rw [countSub_step hN hgt _ (Or.inr
      (show (str "</w:rPr><w:t xml:space=\"preserve\">").getLast? = some '>' by decide))]
    rw [countSub_append_left hN _ _ (fun k hk0 _ hs =>
      not_take_suffix_of_head_notMem hhead (lt_not_mem_escapeXml text) k hk0 hs)]
    rw [h1, countSub_ifPiece b _ h2, countSub_ifPiece i _ h3, countSub_ifPiece c _ h4, h5,
      countSub_zero_of_lt_free hhead (lt_not_mem_escapeXml text), hS3]

/-- Inline-formatted output never contains such a needle, and ends with `>`
when nonempty. -/
theorem parseInlineWith_props (N : List Char) (hN : N ≠ [])
    (hhead : N.head? = some '<') (hgt : ∀ j, j + 1 < N.length → N[j]? ≠ some '>')
    (h1 : countSub N (str "<w:r><w:rPr>") = 0)
    (h2 : countSub N (str "<w:b/>") = 0)
    (h3 : countSub N (str "<w:i/>") = 0)
    (h4 : countSub N (str "<w:rFonts w:ascii=\"Consolas\" w:hAnsi=\"Consolas\"/>" ++
      str "<w:sz w:val=\"20\"/>") = 0)
    (h5 : countSub N (str "</w:rPr><w:t xml:space=\"preserve\">") = 0)
    (hS3 : countSub N (str "</w:t></w:r>") = 0) :
    ∀ (fuel : Nat) (text : List Char),
      countSub N (parseInlineWith inlinePatterns text fuel) = 0 ∧
      EndsGt (parseInlineWith inlinePatterns text fuel) := by
  have hrun := countSub_createRunXml_zero N hN hhead hgt h1 h2 h3 h4 h5 hS3
  intro fuel
  induction fuel with
  | zero => intro text; exact ⟨rfl, Or.inl rfl⟩
  | succ fuel ih =>
    intro text
    rw [parseInlineWith]
    by_cases he : text = []
    · rw [if_pos he]; exact ⟨rfl, Or.inl rfl⟩
    · rw [if_neg he]
      cases hsel : selectEarliest inlinePatterns text with
      | none => exact ⟨hrun text false false false, EndsGt_createRunXml text false false false⟩
      | some pig =>
        obtain ⟨p, pos, ge⟩ := pig
        dsimp only
        have hA : EndsGt (if pos > 0 then createRunXml (text.take pos) false false false
            else []) := by
          by_cases hp : pos > 0
          · rw [if_pos hp]; exact EndsGt_createRunXml _ false false false
          · rw [if_neg hp]; exact Or.inl rfl
        have hAz : countSub N (if pos > 0 then createRunXml (text.take pos) false false false
            else []) = 0 := by
          by_cases hp : pos > 0
          · rw [if_pos hp]; exact hrun _ false false false
          · rw [if_neg hp]; rfl
        constructor
        · rw [List.append_assoc]
          rw [countSub_step hN hgt _ hA]
          rw [countSub_step hN hgt _ (EndsGt_createRunXml _ _ _ _)]
          rw [hAz, hrun, (ih _).1]
        · rw [List.append_assoc]
          exact EndsGt_append hA (EndsGt_append (EndsGt_createRunXml _ _ _ _) (ih _).2)

/-- `replaceAllSubGo` ignores the exact fuel once it covers the input length. -/
theorem replaceAllSubGo_fuel (pat repl : List Char) :
    ∀ (n : Nat) (l : List Char), l.length ≤ n →
      ∀ f1 f2 : Nat, l.length ≤ f1 → l.length ≤ f2 →
        replaceAllSubGo pat repl l f1 = replaceAllSubGo pat repl l f2 := by
  intro n
  induction n with
  | zero =>
    intro l hl f1 f2 _ _
    have : l = [] := List.eq_nil_of_length_eq_zero (by omega)
    subst this
    cases f1 <;> cases f2 <;> rfl
  | succ n ih =>
    intro l hl f1 f2 h1 h2
    cases l with
    | nil => cases f1 <;> cases f2 <;> rfl
    | cons c t =>
      rw [List.length_cons] at hl h1 h2
      obtain ⟨g1, rfl⟩ : ∃ g, f1 = g + 1 := ⟨f1 - 1, by omega⟩
      obtain ⟨g2, rfl⟩ : ∃ g, f2 = g + 1 := ⟨f2 - 1, by omega⟩
      rw [replaceAllSubGo, replaceAllSubGo]
      by_cases hp : pat.isPrefixOf (c :: t) = true
      · rw [if_pos hp, if_pos hp]
        rw [ih (t.drop (pat.length - 1))
          (le_trans ((List.drop_sublist _ _).length_le) (by omega)) g1 g2
          (le_trans ((List.drop_sublist _ _).length_le) (by omega))
          (le_trans ((List.drop_sublist _ _).length_le) (by omega))]
      · rw [if_neg hp, if_neg hp]
        rw [ih t (by omega) g1 g2 (by omega) (by omega)]

/-- `replaceAllSubGo` is the identity on pattern-free input. -/
theorem replaceAllSubGo_id (pat repl : List Char) (hpat : pat ≠ []) :
    ∀ (l : List Char) (f : Nat), countSub pat l = 0 → replaceAllSubGo pat repl l f = l := by
  intro l
  induction l with
  | nil => intro f _; cases f <;> rfl
  | cons c t ih =>
    intro f hz
    cases f with
    | zero => rfl
    | succ f =>
      rw [countSub] at hz
      have hp : ¬ pat.isPrefixOf (c :: t) = true := by
        intro hp
        rw [if_pos hp] at hz
        omega
      rw [if_neg hp] at hz
      rw [replaceAllSubGo, if_neg hp, ih f (by omega)]

/-- Global replacement distributes over an append when no pattern occurrence
straddles the boundary. -/
theorem replaceAllSub_append_go (pat repl : List Char) (hpat : pat ≠ []) :
    ∀ (n : Nat) (a : List Char), a.length ≤ n → ∀ (b : List Char) (f : Nat),
      (a ++ b).length ≤ f →
      (∀ k, 0 < k → k < pat.length → ¬ (pat.take k <:+ a ∧ pat.drop k <+: b)) →
      replaceAllSubGo pat repl (a ++ b) f =
        replaceAllSubGo pat repl a a.length ++ replaceAllSubGo pat repl b b.length := by
  intro n
  induction n with
  | zero =>
    intro a ha b f hf _
    have : a = [] := List.eq_nil_of_length_eq_zero (by omega)
    subst this
    rw [List.nil_append] at hf ⊢
    rw [show replaceAllSubGo pat repl ([] : List Char) ([] : List Char).length = []
      from rfl, List.nil_append]
    exact replaceAllSubGo_fuel pat repl b.length b le_rfl f b.length hf le_rfl
  | succ n ih =>
    intro a ha b f hf hstr
    cases a with
    | nil =>
      rw [List.nil_append] at hf ⊢
      rw [show replaceAllSubGo pat repl ([] : List Char) ([] : List Char).length = []
        from rfl, List.nil_append]
      exact replaceAllSubGo_fuel pat repl b.length b le_rfl f b.length hf le_rfl
    | cons c a2 =>
      rw [List.length_append, List.length_cons] at hf
      obtain ⟨g, rfl⟩ : ∃ g, f = g + 1 := ⟨f - 1, by omega⟩
      rw [List.length_cons] at ha
      have hstr2 : ∀ k, 0 < k → k < pat.length →
          ¬ (pat.take k <:+ a2 ∧ pat.drop k <+: b) := by
        intro k hk0 hkN ⟨hs, hp⟩
        exact hstr k hk0 hkN ⟨hs.trans (List.suffix_cons c a2), hp⟩
      by_cases hp : pat <+: (c :: a2)
      · have hpL : pat.isPrefixOf (c :: (a2 ++ b)) = true := by
          rw [List.isPrefixOf_iff_prefix]
          exact hp.trans (by rw [← List.cons_append]; exact ⟨b, rfl⟩)
        have hpR : pat.isPrefixOf (c :: a2) = true := List.isPrefixOf_iff_prefix.mpr hp
        have hlen : pat.length - 1 ≤ a2.length := by
          have := hp.length_le
          rw [List.length_cons] at this
          omega
        show replaceAllSubGo pat repl (c :: (a2 ++ b)) (g + 1) = _
        rw [replaceAllSubGo, if_pos hpL]
        rw [show replaceAllSubGo pat repl (c :: a2) (c :: a2).length =
            repl ++ replaceAllSubGo pat repl (a2.drop (pat.length - 1)) a2.length from by
          rw [List.length_cons, replaceAllSubGo, if_pos hpR]]
        rw [List.drop_append_of_le_length hlen]
        rw [ih (a2.drop (pat.length - 1))
          (le_trans ((List.drop_sublist _ _).length_le) (by omega)) b g
          (by rw [List.length_append]
              have := (List.drop_sublist (pat.length - 1) a2).length_le
              omega)
          (fun k hk0 hkN hc =>
            hstr2 k hk0 hkN ⟨hc.1.trans (List.drop_suffix _ _), hc.2⟩)]
        rw [replaceAllSubGo_fuel pat repl (a2.drop (pat.length - 1)).length _ le_rfl
          a2.length (a2.drop (pat.length - 1)).length
          ((List.drop_sublist _ _).length_le) le_rfl]
        rw [List.append_assoc]
      · have hpL : ¬ pat.isPrefixOf (c :: (a2 ++ b)) = true := by
          intro hh
          have hp2 : pat <+: (c :: a2) ++ b := by
            rw [List.cons_append]
            exact List.isPrefixOf_iff_prefix.mp hh
          by_cases hle : pat.length ≤ (c :: a2).length
          · exact hp ((prefix_append_of_le hle).mp hp2)
          · push_neg at hle
            obtain ⟨hta, htb⟩ := prefix_append_split_lt hp2 hle
            refine hstr (c :: a2).length (by simp) hle ⟨?_, htb⟩
            rw [hta]
        have hpR : ¬ pat.isPrefixOf (c :: a2) = true := fun hh =>
          hp (List.isPrefixOf_iff_prefix.mp hh)
        show replaceAllSubGo pat repl (c :: (a2 ++ b)) (g + 1) = _
        rw [replaceAllSubGo, if_neg hpL]
        rw [show replaceAllSubGo pat repl (c :: a2) (c :: a2).length =
            c :: replaceAllSubGo pat repl a2 a2.length from by
          rw [List.length_cons, replaceAllSubGo, if_neg hpR]]
        rw [ih a2 (by omega) b g (by rw [List.length_append]; omega) hstr2]
        rfl

/-- `replaceAllSub` distributes over an append with no boundary occurrence. -/
theorem replaceAllSub_append (pat repl : List Char) (hpat : pat ≠ []) (a b : List Char)
    (hstr : ∀ k, 0 < k → k < pat.length → ¬ (pat.take k <:+ a ∧ pat.drop k <+: b)) :
    replaceAllSub pat repl (a ++ b) =
      replaceAllSub pat repl a ++ replaceAllSub pat repl b := by
  unfold replaceAllSub
  rw [replaceAllSub_append_go pat repl hpat a.length a le_rfl b (a ++ b).length le_rfl hstr]

/-- The header pattern `<w:rPr>` cannot straddle out of a piece that ends with
`>` (or is empty). -/
theorem hdrPat_no_straddle {a b : List Char} (ha : EndsGt a) :
    ∀ k, 0 < k → k < (str "<w:rPr>").length →
      ¬ ((str "<w:rPr>").take k <:+ a ∧ (str "<w:rPr>").drop k <+: b) := by
  intro k hk0 hkN hc
  rcases ha with rfl | ha
  · have h0 := List.suffix_nil.mp hc.1
    have h1 := congrArg List.length h0
    rw [List.length_take] at h1
    have h7 : (str "<w:rPr>").length = 7 := by decide
    rw [h7] at h1 hkN
    simp only [List.length_nil] at h1
    omega
  · refine take_not_suffix_of_getLast ha ?_ k hk0 hkN hc.1
    intro j hj
    have h7 : (str "<w:rPr>").length = 7 := by decide
    rw [h7] at hj
    exact (by decide : ∀ j, j < 6 → (str "<w:rPr>")[j]? ≠ some '>') j (by omega)

/-- The header pattern cannot straddle out of `<`-free text. -/
theorem hdrPat_no_straddle_lt {a b : List Char} (ha : '<' ∉ a) :
    ∀ k, 0 < k → k < (str "<w:rPr>").length →
      ¬ ((str "<w:rPr>").take k <:+ a ∧ (str "<w:rPr>").drop k <+: b) :=
  fun k hk0 _ hc => not_take_suffix_of_head_notMem (by decide) ha k hk0 hc.1

/-- `replaceAllSub` commutes with an optional piece. -/
theorem replaceAllSub_ifPiece (pat repl : List Char) (b : Bool) (P : List Char) :
    replaceAllSub pat repl (if b = true then P else []) =
      if b = true then replaceAllSub pat repl P else [] := by
  cases b
  · rw [if_neg (by decide), if_neg (by decide)]; rfl
  · rw [if_pos rfl, if_pos rfl]

/-- The header-substituted run (`runs.replace(/<w:rPr>/g, ...)` applied to one
run) never contains such a needle, and ends with `>` when nonempty. -/
theorem headerRun_props (N : List Char) (hN : N ≠ [])
    (hhead : N.head? = some '<') (hgt : ∀ j, j + 1 < N.length → N[j]? ≠ some '>')
    (q1 : countSub N (replaceAllSub (str "<w:rPr>")
      (str "<w:rPr><w:b/><w:color w:val=\"FFFFFF\"/>") (str "<w:r><w:rPr>")) = 0)
    (g1 : (replaceAllSub (str "<w:rPr>")
      (str "<w:rPr><w:b/><w:color w:val=\"FFFFFF\"/>")
        (str "<w:r><w:rPr>")).getLast? = some '>')
    (q2 : countSub N (replaceAllSub (str "<w:rPr>")
      (str "<w:rPr><w:b/><w:color w:val=\"FFFFFF\"/>") (str "<w:b/>")) = 0)
    (g2 : (replaceAllSub (str "<w:rPr>")
      (str "<w:rPr><w:b/><w:color w:val=\"FFFFFF\"/>") (str "<w:b/>")).getLast? = some '>')
    (q3 : countSub N (replaceAllSub (str "<w:rPr>")
      (str "<w:rPr><w:b/><w:color w:val=\"FFFFFF\"/>") (str "<w:i/>")) = 0)
    (g3 : (replaceAllSub (str "<w:rPr>")
      (str "<w:rPr><w:b/><w:color w:val=\"FFFFFF\"/>") (str "<w:i/>")).getLast? = some '>')
    (q4 : countSub N (replaceAllSub (str "<w:rPr>")
      (str "<w:rPr><w:b/><w:color w:val=\"FFFFFF\"/>")
      (str "<w:rFonts w:ascii=\"Consolas\" w:hAnsi=\"Consolas\"/>" ++
        str "<w:sz w:val=\"20\"/>")) = 0)
    (g4 : (replaceAllSub (str "<w:rPr>")
      (str "<w:rPr><w:b/><w:color w:val=\"FFFFFF\"/>")
      (str "<w:rFonts w:ascii=\"Consolas\" w:hAnsi=\"Consolas\"/>" ++
        str "<w:sz w:val=\"20\"/>")).getLast? = some '>')
    (q5 : countSub N (replaceAllSub (str "<w:rPr>")
      (str "<w:rPr><w:b/><w:color w:val=\"FFFFFF\"/>")
      (str "</w:rPr><w:t xml:space=\"preserve\">")) = 0)
    (g5 : (replaceAllSub (str "<w:rPr>")
      (str "<w:rPr><w:b/><w:color w:val=\"FFFFFF\"/>")
        (str "</w:rPr><w:t xml:space=\"preserve\">")).getLast? = some '>')
    (q6 : countSub N (replaceAllSub (str "<w:rPr>")
      (str "<w:rPr><w:b/><w:color w:val=\"FFFFFF\"/>") (str "</w:t></w:r>")) = 0)
    (g6 : (replaceAllSub (str "<w:rPr>")
      (str "<w:rPr><w:b/><w:color w:val=\"FFFFFF\"/>") (str "</w:t></w:r>")).getLast? =
        some '>')
    (text : List Char) (b i c : Bool) :
    countSub N (replaceAllSub (str "<w:rPr>")
      (str "<w:rPr><w:b/><w:color w:val=\"FFFFFF\"/>") (createRunXml text b i c)) = 0 ∧
    EndsGt (replaceAllSub (str "<w:rPr>")
      (str "<w:rPr><w:b/><w:color w:val=\"FFFFFF\"/>") (createRunXml text b i c)) := by
  rw [createRunXml]
  by_cases ht : text = []
  · rw [if_pos ht]
    exact ⟨rfl, Or.inl rfl⟩
  · rw [if_neg ht]
    simp only [List.append_assoc]
    rw [replaceAllSub_append _ _ (by decide) _ _
      (hdrPat_no_straddle (Or.inr (by decide)))]
    rw [replaceAllSub_append _ _ (by decide) _ _
      (hdrPat_no_straddle (EndsGt_ifPiece b _ (by decide)))]
    rw [replaceAllSub_append _ _ (by decide) _ _
      (hdrPat_no_straddle (EndsGt_ifPiece i _ (by decide)))]
    rw [replaceAllSub_append _ _ (by decide) _ _
      (hdrPat_no_straddle (EndsGt_ifPiece c _ (by decide)))]
    rw [replaceAllSub_append _ _ (by decide) _ _
      (hdrPat_no_straddle (Or.inr (by decide)))]
    rw [replaceAllSub_append _ _ (by decide) _ _
      (hdrPat_no_straddle_lt (lt_not_mem_escapeXml text))]
    rw [replaceAllSub_ifPiece, replaceAllSub_ifPiece, replaceAllSub_ifPiece]
    rw [show replaceAllSub (str "<w:rPr>")
        (str "<w:rPr><w:b/><w:color w:val=\"FFFFFF\"/>") (escapeXml text) =
        escapeXml text from replaceAllSubGo_id _ _ (by decide) _ _
      (countSub_zero_of_lt_free (by decide) (lt_not_mem_escapeXml text))]
    constructor
    · rw [countSub_step hN hgt _ (Or.inr g1)]
      rw [countSub_step hN hgt _ (EndsGt_ifPiece b _ g2)]
      rw [countSub_step hN hgt _ (EndsGt_ifPiece i _ g3)]
      rw [countSub_step hN hgt _ (EndsGt_ifPiece c _ g4)]
      rw [countSub_step hN hgt _ (Or.inr g5)]
      rw [countSub_append_left hN _ _ (fun k hk0 _ hs =>
        not_take_suffix_of_head_notMem hhead (lt_not_mem_escapeXml text) k hk0 hs)]
      rw [q1, countSub_ifPiece b _ q2, countSub_ifPiece i _ q3, countSub_ifPiece c _ q4,
        q5, countSub_zero_of_lt_free hhead (lt_not_mem_escapeXml text), q6]
    · exact EndsGt_append (Or.inr g1) (EndsGt_append (EndsGt_ifPiece b _ g2)
        (EndsGt_append (EndsGt_ifPiece i _ g3) (EndsGt_append (EndsGt_ifPiece c _ g4)
          (EndsGt_append (Or.inr g5) (Or.inr (getLast?_append_some g6))))))

/-- The header-substituted inline output never contains such a needle, and
ends with `>` when nonempty. -/
theorem headerRuns_props (N : List Char) (hN : N ≠ [])
    (hhead : N.head? = some '<') (hgt : ∀ j, j + 1 < N.length → N[j]? ≠ some '>')
    (q1 : countSub N (replaceAllSub (str "<w:rPr>")
      (str "<w:rPr><w:b/><w:color w:val=\"FFFFFF\"/>") (str "<w:r><w:rPr>")) = 0)
    (g1 : (replaceAllSub (str "<w:rPr>")
      (str "<w:rPr><w:b/><w:color w:val=\"FFFFFF\"/>")
        (str "<w:r><w:rPr>")).getLast? = some '>')
    (q2 : countSub N (replaceAllSub (str "<w:rPr>")
      (str "<w:rPr><w:b/><w:color w:val=\"FFFFFF\"/>") (str "<w:b/>")) = 0)
    (g2 : (replaceAllSub (str "<w:rPr>")
      (str "<w:rPr><w:b/><w:color w:val=\"FFFFFF\"/>") (str "<w:b/>")).getLast? = some '>')
    (q3 : countSub N (replaceAllSub (str "<w:rPr>")
      (str "<w:rPr><w:b/><w:color w:val=\"FFFFFF\"/>") (str "<w:i/>")) = 0)
    (g3 : (replaceAllSub (str "<w:rPr>")
      (str "<w:rPr><w:b/><w:color w:val=\"FFFFFF\"/>") (str "<w:i/>")).getLast? = some '>')
    (q4 : countSub N (replaceAllSub (str "<w:rPr>")
      (str "<w:rPr><w:b/><w:color w:val=\"FFFFFF\"/>")
      (str "<w:rFonts w:ascii=\"Consolas\" w:hAnsi=\"Consolas\"/>" ++
        str "<w:sz w:val=\"20\"/>")) = 0)
    (g4 : (replaceAllSub (str "<w:rPr>")
      (str "<w:rPr><w:b/><w:color w:val=\"FFFFFF\"/>")
      (str "<w:rFonts w:ascii=\"Consolas\" w:hAnsi=\"Consolas\"/>" ++
        str "<w:sz w:val=\"20\"/>")).getLast? = some '>')
    (q5 : countSub N (replaceAllSub (str "<w:rPr>")
      (str "<w:rPr><w:b/><w:color w:val=\"FFFFFF\"/>")
      (str "</w:rPr><w:t xml:space=\"preserve\">")) = 0)
    (g5 : (replaceAllSub (str "<w:rPr>")
      (str "<w:rPr><w:b/><w:color w:val=\"FFFFFF\"/>")
        (str "</w:rPr><w:t xml:space=\"preserve\">")).getLast? = some '>')
    (q6 : countSub N (replaceAllSub (str "<w:rPr>")
      (str "<w:rPr><w:b/><w:color w:val=\"FFFFFF\"/>") (str "</w:t></w:r>")) = 0)
    (g6 : (replaceAllSub (str "<w:rPr>")
      (str "<w:rPr><w:b/><w:color w:val=\"FFFFFF\"/>") (str "</w:t></w:r>")).getLast? =
        some '>') :
    ∀ (fuel : Nat) (text : List Char),
      countSub N (replaceAllSub (str "<w:rPr>")
        (str "<w:rPr><w:b/><w:color w:val=\"FFFFFF\"/>")
        (parseInlineWith inlinePatterns text fuel)) = 0 ∧
      EndsGt (replaceAllSub (str "<w:rPr>")
        (str "<w:rPr><w:b/><w:color w:val=\"FFFFFF\"/>")
        (parseInlineWith inlinePatterns text fuel)) := by
  have hchunk := headerRun_props N hN hhead hgt q1 g1 q2 g2 q3 g3 q4 g4 q5 g5 q6 g6
  intro fuel
  induction fuel with
  | zero => intro text; exact ⟨rfl, Or.inl rfl⟩
  | succ fuel ih =>
    intro text
    rw [parseInlineWith]
    by_cases he : text = []
    · rw [if_pos he]; exact ⟨rfl, Or.inl rfl⟩
    · rw [if_neg he]
      cases hsel : selectEarliest inlinePatterns text with
      | none => exact hchunk text false false false
      | some pig =>
        obtain ⟨p, pos, ge⟩ := pig
        dsimp only
        have hA : EndsGt (if pos > 0 then createRunXml (text.take pos) false false false
            else []) := by
          by_cases hp : pos > 0
          · rw [if_pos hp]; exact EndsGt_createRunXml _ false false false
          · rw [if_neg hp]; exact Or.inl rfl
        rw [List.append_assoc]
        rw [replaceAllSub_append _ _ (by decide) _ _ (hdrPat_no_straddle hA)]
        rw [replaceAllSub_append _ _ (by decide) _ _
          (hdrPat_no_straddle (EndsGt_createRunXml _ _ _ _))]
        have hAprops : countSub N (replaceAllSub (str "<w:rPr>")
            (str "<w:rPr><w:b/><w:color w:val=\"FFFFFF\"/>")
            (if pos > 0 then createRunXml (text.take pos) false false false else [])) = 0 ∧
            EndsGt (replaceAllSub (str "<w:rPr>")
              (str "<w:rPr><w:b/><w:color w:val=\"FFFFFF\"/>")
              (if pos > 0 then createRunXml (text.take pos) false false false else [])) := by
          by_cases hp : pos > 0
          · rw [if_pos hp]; exact hchunk _ false false false
          · rw [if_neg hp]; exact ⟨rfl, Or.inl rfl⟩
        constructor
        · rw [countSub_step hN hgt _ hAprops.2]
          rw [countSub_step hN hgt _ (hchunk _ _ _ _).2]
          rw [hAprops.1, (hchunk _ _ _ _).1, (ih _).1]
        · exact EndsGt_append hAprops.2 (EndsGt_append (hchunk _ _ _ _).2 (ih _).2)

/-- Counting in a list with a single `<` at its head. -/
theorem countSub_single_site {N T : List Char} (hhead : N.head? = some '<')
    (hT : '<' ∉ T) :
    countSub N ('<' :: T) = if N.isPrefixOf ('<' :: T) = true then 1 else 0 := by
  show (if N.isPrefixOf ('<' :: T) then 1 else 0) + countSub N T = _
  rw [countSub_zero_of_lt_free hhead hT, Nat.add_zero]

/-- A mismatch at one index refutes a prefix. -/
theorem isPrefixOf_false_of_getElem {N l : List Char} {j : Nat} {a b : Char}
    (hN : N[j]? = some a) (hl : l[j]? = some b) (hab : a ≠ b) :
    ¬ N.isPrefixOf l = true := by
  intro hp
  obtain ⟨t, ht⟩ := List.isPrefixOf_iff_prefix.mp hp
  have hj : j < N.length := (List.getElem?_eq_some_iff.mp hN).1
  rw [← ht, List.getElem?_append_left hj, hN] at hl
  exact hab (Option.some.inj hl)

/-- Flattening pieces with a constant needle count multiplies the count. -/
theorem countSub_flatten_const {N : List Char} (hN : N ≠ [])
    (hgt : ∀ j, j + 1 < N.length → N[j]? ≠ some '>') :
    ∀ (ps : List (List Char)) (v : Nat), (∀ p ∈ ps, countSub N p = v ∧ EndsGt p) →
      countSub N ps.flatten = ps.length * v := by
  intro ps
  induction ps with
  | nil => intro v _; simp [countSub]
  | cons p t ih =>
    intro v hp
    rw [List.flatten_cons]
    rw [countSub_step hN hgt _ (hp p (List.mem_cons_self p t)).2]
    rw [(hp p (List.mem_cons_self p t)).1, ih v (fun x hx => hp x (List.mem_cons_of_mem p hx))]
    rw [List.length_cons]
    ring

/-- First components of the indexed copy are members of the original list. -/
theorem withIdx_fst_mem {α : Type} : ∀ (l : List α) (j : Nat) (x : α × Nat),
    x ∈ withIdx l j → x.1 ∈ l := by
  intro l
  induction l with
  | nil => intro j x hx; exact absurd hx (by simp [withIdx])
  | cons a t ih =>
    intro j x hx
    rw [withIdx] at hx
    rcases List.mem_cons.mp hx with rfl | hx
    · exact List.mem_cons_self a t
    · exact List.mem_cons_of_mem a (ih (j + 1) x hx)

/-- The seed of the column-count fold bounds the result. -/
theorem foldl_max_seed_le (rows : List (List (List Char))) :
    ∀ acc : Nat, acc ≤ rows.foldl (fun a r => max a r.length) acc := by
  induction rows with
  | nil => intro acc; exact le_rfl
  | cons r t ih =>
    intro acc
    rw [List.foldl_cons]
    exact le_trans (Nat.le_max_left acc r.length) (ih (max acc r.length))

/-- Every row length is bounded by the column-count fold. -/
theorem length_le_foldl_max (rows : List (List (List Char))) :
    ∀ r ∈ rows, ∀ acc : Nat, r.length ≤ rows.foldl (fun a r => max a r.length) acc := by
  induction rows with
  | nil => intro r hr; exact absurd hr (by simp)
  | cons q t ih =>
    intro r hr acc
    rw [List.foldl_cons]
    rcases List.mem_cons.mp hr with rfl | hr
    · exact le_trans (Nat.le_max_right acc r.length) (foldl_max_seed_le t _)
    · exact ih r hr _

/-- The three tag stems that can never occur in run output. -/
theorem parseInline_stem_free (text : List Char) (fuel : Nat) :
    (countSub (str "<w:tc") (parseInlineWith inlinePatterns text fuel) = 0 ∧
      EndsGt (parseInlineWith inlinePatterns text fuel)) ∧
    countSub (str "<w:tr") (parseInlineWith inlinePatterns text fuel) = 0 ∧
    countSub (str "<w:g") (parseInlineWith inlinePatterns text fuel) = 0 := by
  refine ⟨parseInlineWith_props (str "<w:tc") (by decide) (by decide)
      (hgt_of_not_mem (by decide)) (by decide) (by decide) (by decide) (by decide)
      (by decide) (by decide) fuel text,
    (parseInlineWith_props (str "<w:tr") (by decide) (by decide)
      (hgt_of_not_mem (by decide)) (by decide) (by decide) (by decide) (by decide)
      (by decide) (by decide) fuel text).1,
    (parseInlineWith_props (str "<w:g") (by decide) (by decide)
      (hgt_of_not_mem (by decide)) (by decide) (by decide) (by decide) (by decide)
      (by decide) (by decide) fuel text).1⟩

/-- The three tag stems can never occur in header-substituted run output. -/
theorem headerRuns_stem_free (text : List Char) (fuel : Nat) :
    (countSub (str "<w:tc") (replaceAllSub (str "<w:rPr>")
        (str "<w:rPr><w:b/><w:color w:val=\"FFFFFF\"/>")
        (parseInlineWith inlinePatterns text fuel)) = 0 ∧
      EndsGt (replaceAllSub (str "<w:rPr>")
        (str "<w:rPr><w:b/><w:color w:val=\"FFFFFF\"/>")
        (parseInlineWith inlinePatterns text fuel))) ∧
    countSub (str "<w:tr") (replaceAllSub (str "<w:rPr>")
      (str "<w:rPr><w:b/><w:color w:val=\"FFFFFF\"/>")
      (parseInlineWith inlinePatterns text fuel)) = 0 ∧
    countSub (str "<w:g") (replaceAllSub (str "<w:rPr>")
      (str "<w:rPr><w:b/><w:color w:val=\"FFFFFF\"/>")
      (parseInlineWith inlinePatterns text fuel)) = 0 := by
  refine ⟨headerRuns_props (str "<w:tc") (by decide) (by decide)
      (hgt_of_not_mem (by decide)) (by decide) (by decide) (by decide) (by decide)
      (by decide) (by decide) (by decide) (by decide) (by decide) (by decide)
      (by decide) (by decide) fuel text,
    (headerRuns_props (str "<w:tr") (by decide) (by decide)
      (hgt_of_not_mem (by decide)) (by decide) (by decide) (by decide) (by decide)
      (by decide) (by decide) (by decide) (by decide) (by decide) (by decide)
      (by decide) (by decide) fuel text).1,
    (headerRuns_props (str "<w:g") (by decide) (by decide)
      (hgt_of_not_mem (by decide)) (by decide) (by decide) (by decide) (by decide)
      (by decide) (by decide) (by decide) (by decide) (by decide) (by decide)
      (by decide) (by decide) fuel text).1⟩

/-- A `<w:tcW>` opener carrying a specific width value. -/
def tcwNeedle (w : Nat) : List Char :=
  str "<w:tcW w:w=\"" ++ (natChars w ++ ['"'])

/-- A `<w:gridCol>` element carrying a specific width value. -/
def gridNeedle (w : Nat) : List Char :=
  str "<w:gridCol w:w=\"" ++ (natChars w ++ ['"'])

/-- The width digits and closing quote contain neither `<` nor `>`. -/
theorem digits_quote_free (w : Nat) :
    '<' ∉ natChars w ++ ['"'] ∧ '>' ∉ natChars w ++ ['"'] := by
  constructor <;>
  · intro hm
    rcases List.mem_append.mp hm with h | h
    · have := natChars_mem w _ h
      exact absurd this (by decide)
    · exact absurd (List.mem_singleton.mp h) (by decide)

/-- `>` occurs nowhere in a width-pinned `tcW` needle. -/
theorem gt_not_mem_tcwNeedle (w : Nat) : '>' ∉ tcwNeedle w := by
  intro hm
  rcases List.mem_append.mp hm with h | h
  · exact absurd h (by decide)
  · exact (digits_quote_free w).2 h

/-- `>` occurs nowhere in a width-pinned `gridCol` needle. -/
theorem gt_not_mem_gridNeedle (w : Nat) : '>' ∉ gridNeedle w := by
  intro hm
  rcases List.mem_append.mp hm with h | h
  · exact absurd h (by decide)
  · exact (digits_quote_free w).2 h

/-- Anatomy of the cell-width element. -/
theorem tcWXml_decomp (w : Nat) :
    tcWXml w = tcwNeedle w ++ str " w:type=\"dxa\"/>" := by
  rw [tcWXml, tcwNeedle,
    show str "\" w:type=\"dxa\"/>" = ['"'] ++ str " w:type=\"dxa\"/>" from rfl]
  simp [List.append_assoc]

/-- Anatomy of the grid-column element. -/
theorem gridColXml_decomp (w : Nat) :
    gridColXml w = gridNeedle w ++ str "/>" := by
  rw [gridColXml, gridNeedle, show str "\"/>" = ['"'] ++ str "/>" from rfl]
  simp [List.append_assoc]

/-- `<` occurs only at the head of the cell-width element. -/
theorem lt_tail_tcWXml (w : Nat) :
    '<' ∉ str "w:tcW w:w=\"" ++ (natChars w ++ str "\" w:type=\"dxa\"/>") := by
  intro hm
  rcases List.mem_append.mp hm with h | h
  · exact absurd h (by decide)
  · rcases List.mem_append.mp h with h | h
    · have := natChars_mem w _ h
      exact absurd this (by decide)
    · exact absurd h (by decide)

/-- `<` occurs only at the head of the grid-column element. -/
theorem lt_tail_gridColXml (w : Nat) :
    '<' ∉ str "w:gridCol w:w=\"" ++ (natChars w ++ str "\"/>") := by
  intro hm
  rcases List.mem_append.mp hm with h | h
  · exact absurd h (by decide)
  · rcases List.mem_append.mp h with h | h
    · have := natChars_mem w _ h
      exact absurd this (by decide)
    · exact absurd h (by decide)

/-- The cell-width element ends with `>`. -/
theorem tcWXml_getLast (w : Nat) : (tcWXml w).getLast? = some '>' := by
  rw [tcWXml_decomp]
  exact getLast?_append_some (by decide)

/-- The grid-column element ends with `>`. -/
theorem gridColXml_getLast (w : Nat) : (gridColXml w).getLast? = some '>' := by
  rw [gridColXml_decomp]
  exact getLast?_append_some (by decide)

/-- Needle counting in the cell-width element reduces to one prefix test. -/
theorem countSub_tcWXml (w : Nat) (N : List Char) (hhead : N.head? = some '<') :
    countSub N (tcWXml w) = if N.isPrefixOf (tcWXml w) = true then 1 else 0 := by
  rw [show tcWXml w =
      '<' :: (str "w:tcW w:w=\"" ++ (natChars w ++ str "\" w:type=\"dxa\"/>")) from rfl]
  exact countSub_single_site hhead (lt_tail_tcWXml w)

/-- Needle counting in the grid-column element reduces to one prefix test. -/
theorem countSub_gridColXml (w : Nat) (N : List Char) (hhead : N.head? = some '<') :
    countSub N (gridColXml w) = if N.isPrefixOf (gridColXml w) = true then 1 else 0 := by
  rw [show gridColXml w =
      '<' :: (str "w:gridCol w:w=\"" ++ (natChars w ++ str "\"/>")) from rfl]
  exact countSub_single_site hhead (lt_tail_gridColXml w)

/-- The index-5 character of the cell-width element. -/
theorem tcWXml_at5 (w : Nat) : (tcWXml w)[5]? = some 'W' := by
  rw [show tcWXml w =
      str "<w:tcW w:w=\"" ++ (natChars w ++ str "\" w:type=\"dxa\"/>") from rfl]
  rw [List.getElem?_append_left (by decide)]
  decide

/-- The index-4 character of the cell-width element. -/
theorem tcWXml_at4 (w : Nat) : (tcWXml w)[4]? = some 'c' := by
  rw [show tcWXml w =
      str "<w:tcW w:w=\"" ++ (natChars w ++ str "\" w:type=\"dxa\"/>") from rfl]
  rw [List.getElem?_append_left (by decide)]
  decide

/-- The index-3 character of the cell-width element. -/
theorem tcWXml_at3 (w : Nat) : (tcWXml w)[3]? = some 't' := by
  rw [show tcWXml w =
      str "<w:tcW w:w=\"" ++ (natChars w ++ str "\" w:type=\"dxa\"/>") from rfl]
  rw [List.getElem?_append_left (by decide)]
  decide

/-- The index-3 character of the grid-column element. -/
theorem gridColXml_at3 (w : Nat) : (gridColXml w)[3]? = some 'g' := by
  rw [show gridColXml w =
      str "<w:gridCol w:w=\"" ++ (natChars w ++ str "\"/>") from rfl]
  rw [List.getElem?_append_left (by decide)]
  decide

/-- The index-3 character of the width-pinned needles. -/
theorem tcwNeedle_at3 (w : Nat) : (tcwNeedle w)[3]? = some 't' := by
  rw [tcwNeedle, List.getElem?_append_left (by decide)]
  decide

/-- See `tcwNeedle_at3`. -/
theorem gridNeedle_at3 (w : Nat) : (gridNeedle w)[3]? = some 'g' := by
  rw [gridNeedle, List.getElem?_append_left (by decide)]
  decide

/-- Exhaustive needle counts over the cell-width element. -/
theorem tcW_counts (w : Nat) :
    countSub (str "<w:tcW ") (tcWXml w) = 1 ∧
    countSub (tcwNeedle w) (tcWXml w) = 1 ∧
    countSub (str "<w:tc>") (tcWXml w) = 0 ∧
    countSub (str "<w:tr>") (tcWXml w) = 0 ∧
    countSub (str "<w:gridCol") (tcWXml w) = 0 ∧
    countSub (gridNeedle w) (tcWXml w) = 0 := by
  refine ⟨?_, ?_, ?_, ?_, ?_, ?_⟩
  · rw [countSub_tcWXml w _ (by decide)]
    rw [if_pos (show (str "<w:tcW ").isPrefixOf (tcWXml w) = true from
      List.isPrefixOf_iff_prefix.mpr
        ((by decide : str "<w:tcW " <+: str "<w:tcW w:w=\"").trans
          (show str "<w:tcW w:w=\"" <+: tcWXml w from List.prefix_append _ _)))]
  · rw [countSub_tcWXml w _ (by rw [tcwNeedle]; rfl)]
    rw [if_pos (show (tcwNeedle w).isPrefixOf (tcWXml w) = true from
      List.isPrefixOf_iff_prefix.mpr
        (by rw [tcWXml_decomp]; exact List.prefix_append _ _))]
  · rw [countSub_tcWXml w _ (by decide),
      if_neg (isPrefixOf_false_of_getElem
        (show (str "<w:tc>")[5]? = some '>' by decide) (tcWXml_at5 w) (by decide))]
  · rw [countSub_tcWXml w _ (by decide),
      if_neg (isPrefixOf_false_of_getElem
        (show (str "<w:tr>")[4]? = some 'r' by decide) (tcWXml_at4 w) (by decide))]
  · rw [countSub_tcWXml w _ (by decide),
      if_neg (isPrefixOf_false_of_getElem
        (show (str "<w:gridCol")[3]? = some 'g' by decide) (tcWXml_at3 w) (by decide))]
  · rw [countSub_tcWXml w _ (by rw [gridNeedle]; rfl),
      if_neg (isPrefixOf_false_of_getElem (gridNeedle_at3 w) (tcWXml_at3 w) (by decide))]

/-- Exhaustive needle counts over the grid-column element. -/
theorem grid_counts (w : Nat) :
    countSub (str "<w:gridCol") (gridColXml w) = 1 ∧
    countSub (gridNeedle w) (gridColXml w) = 1 ∧
    countSub (str "<w:tc>") (gridColXml w) = 0 ∧
    countSub (str "<w:tr>") (gridColXml w) = 0 ∧
    countSub (str "<w:tcW ") (gridColXml w) = 0 ∧
    countSub (tcwNeedle w) (gridColXml w) = 0 := by
  refine ⟨?_, ?_, ?_, ?_, ?_, ?_⟩
  · rw [countSub_gridColXml w _ (by decide)]
    rw [if_pos (show (str "<w:gridCol").isPrefixOf (gridColXml w) = true from
      List.isPrefixOf_iff_prefix.mpr
        ((by decide : str "<w:gridCol" <+: str "<w:gridCol w:w=\"").trans
          (show str "<w:gridCol w:w=\"" <+: gridColXml w from List.prefix_append _ _)))]
  · rw [countSub_gridColXml w _ (by rw [gridNeedle]; rfl)]
    rw [if_pos (show (gridNeedle w).isPrefixOf (gridColXml w) = true from
      List.isPrefixOf_iff_prefix.mpr
        (by rw [gridColXml_decomp]; exact List.prefix_append _ _))]
  · rw [countSub_gridColXml w _ (by decide),
      if_neg (isPrefixOf_false_of_getElem
        (show (str "<w:tc>")[3]? = some 't' by decide) (gridColXml_at3 w) (by decide))]
  · rw [countSub_gridColXml w _ (by decide),
      if_neg (isPrefixOf_false_of_getElem
        (show (str "<w:tr>")[3]? = some 't' by decide) (gridColXml_at3 w) (by decide))]
  · rw [countSub_gridColXml w _ (by decide),
      if_neg (isPrefixOf_false_of_getElem
        (show (str "<w:tcW ")[3]? = some 't' by decide) (gridColXml_at3 w) (by decide))]
  · rw [countSub_gridColXml w _ (by rw [tcwNeedle]; rfl),
      if_neg (isPrefixOf_false_of_getElem (tcwNeedle_at3 w) (gridColXml_at3 w) (by decide))]

/-- `EndsGt` for a two-way choice of fixed pieces. -/
theorem EndsGt_if2 (b : Bool) (P Q : List Char) (hP : P.getLast? = some '>')
    (hQ : Q.getLast? = some '>') : EndsGt (if b = true then P else Q) := by
  cases b
  · rw [if_neg (by decide)]; exact Or.inr hQ
  · rw [if_pos rfl]; exact Or.inr hP

/-- Needle count of a two-way choice of fixed pieces. -/
theorem countSub_if2 {N : List Char} (b : Bool) (P Q : List Char)
    (hP : countSub N P = 0) (hQ : countSub N Q = 0) :
    countSub N (if b = true then P else Q) = 0 := by
  cases b
  · rw [if_neg (by decide)]; exact hQ
  · rw [if_pos rfl]; exact hP

/-- The run part of a table cell is free of all three tag stems and ends
with `>` when nonempty. -/
theorem runsPart_free (hdr : Bool) (text : List Char) :
    countSub (str "<w:tc") (if hdr = true then
        replaceAllSub (str "<w:rPr>") (str "<w:rPr><w:b/><w:color w:val=\"FFFFFF\"/>")
          (parseInlineFormatting text)
      else parseInlineFormatting text) = 0 ∧
    countSub (str "<w:tr") (if hdr = true then
        replaceAllSub (str "<w:rPr>") (str "<w:rPr><w:b/><w:color w:val=\"FFFFFF\"/>")
          (parseInlineFormatting text)
      else parseInlineFormatting text) = 0 ∧
    countSub (str "<w:g") (if hdr = true then
        replaceAllSub (str "<w:rPr>") (str "<w:rPr><w:b/><w:color w:val=\"FFFFFF\"/>")
          (parseInlineFormatting text)
      else parseInlineFormatting text) = 0 ∧
    EndsGt (if hdr = true then
        replaceAllSub (str "<w:rPr>") (str "<w:rPr><w:b/><w:color w:val=\"FFFFFF\"/>")
          (parseInlineFormatting text)
      else parseInlineFormatting text) := by
  cases hdr
  · simp only [show (false = true) = False by simp, if_false, parseInlineFormatting]
    exact ⟨(parseInline_stem_free text _).1.1, (parseInline_stem_free text _).2.1,
      (parseInline_stem_free text _).2.2, (parseInline_stem_free text _).1.2⟩
  · simp only [if_true, parseInlineFormatting]
    exact ⟨(headerRuns_stem_free text _).1.1, (headerRuns_stem_free text _).2.1,
      (headerRuns_stem_free text _).2.2, (headerRuns_stem_free text _).1.2⟩

/-- A table cell ends with `>`. -/
theorem tcCellXml_getLast (text : List Char) (hdr : Bool) (w : Nat) :
    (tcCellXml text hdr w).getLast? = some '>' := by
  simp only [tcCellXml, List.append_assoc]
  exact getLast?_append_some (getLast?_append_some (getLast?_append_some
    (getLast?_append_some (getLast?_append_some (getLast?_append_some
      (getLast?_append_some (getLast?_append_some (getLast?_append_some
        (getLast?_append_some (getLast?_append_some (getLast?_append_some
          (getLast?_append_some
            (show (str "</w:tc>").getLast? = some '>' by decide)))))))))))))

/-- Needle counting over one table cell: the run part contributes nothing and
every fixed piece contributes independently. -/
theorem countSub_tcCellXml (N : List Char) (hN : N ≠ [])
    (hgt : ∀ j, j + 1 < N.length → N[j]? ≠ some '>')
    (text : List Char) (hdr : Bool) (w : Nat)
    (hruns0 : countSub N (if hdr = true then
        replaceAllSub (str "<w:rPr>") (str "<w:rPr><w:b/><w:color w:val=\"FFFFFF\"/>")
          (parseInlineFormatting text)
      else parseInlineFormatting text) = 0)
    (hrunsE : EndsGt (if hdr = true then
        replaceAllSub (str "<w:rPr>") (str "<w:rPr><w:b/><w:color w:val=\"FFFFFF\"/>")
          (parseInlineFormatting text)
      else parseInlineFormatting text)) :
    countSub N (tcCellXml text hdr w) =
      countSub N (str "<w:tc>") + countSub N (str "<w:tcPr>") + countSub N (tcWXml w) +
      countSub N (if hdr = true then
        str "<w:shd w:val=\"clear\" w:color=\"auto\" w:fill=\"F58220\"/>"
        else str "<w:shd w:val=\"clear\" w:color=\"auto\" w:fill=\"FFFFFF\"/>") +
      countSub N (str "<w:tcBorders><w:top w:val=\"single\" w:sz=\"8\" w:space=\"0\" w:color=\"F58220\"/><w:left w:val=\"single\" w:sz=\"8\" w:space=\"0\" w:color=\"F58220\"/><w:bottom w:val=\"single\" w:sz=\"8\" w:space=\"0\" w:color=\"F58220\"/><w:right w:val=\"single\" w:sz=\"8\" w:space=\"0\" w:color=\"F58220\"/></w:tcBorders>") +
      countSub N (str "<w:tcMar><w:top w:w=\"80\" w:type=\"dxa\"/><w:left w:w=\"120\" w:type=\"dxa\"/><w:bottom w:w=\"80\" w:type=\"dxa\"/><w:right w:w=\"120\" w:type=\"dxa\"/></w:tcMar>") +
      countSub N (str "</w:tcPr>") + countSub N (str "<w:p>") + countSub N (str "<w:pPr>") +
      countSub N (str "<w:spacing w:before=\"0\" w:after=\"0\" w:line=\"240\" w:lineRule=\"auto\"/>") +
      countSub N (str "</w:pPr>") + countSub N (str "</w:p>") +
      countSub N (str "</w:tc>") := by
  simp only [tcCellXml, List.append_assoc]
  rw [countSub_step hN hgt _ (Or.inr (show (str "<w:tc>").getLast? = some '>' by decide))]
  rw [countSub_step hN hgt _ (Or.inr (show (str "<w:tcPr>").getLast? = some '>' by decide))]
  rw [countSub_step hN hgt _ (Or.inr (tcWXml_getLast w))]
  rw [countSub_step hN hgt _ (EndsGt_if2 hdr _ _ (by decide) (by decide))]
  rw [countSub_step hN hgt _ (Or.inr (by decide))]
  rw [countSub_step hN hgt _ (Or.inr (by decide))]
  rw [countSub_step hN hgt _ (Or.inr (show (str "</w:tcPr>").getLast? = some '>' by decide))]
  rw [countSub_step hN hgt _ (Or.inr (show (str "<w:p>").getLast? = some '>' by decide))]
  rw [countSub_step hN hgt _ (Or.inr (show (str "<w:pPr>").getLast? = some '>' by decide))]
  rw [countSub_step hN hgt _ (Or.inr (by decide))]
  rw [countSub_step hN hgt _ (Or.inr (show (str "</w:pPr>").getLast? = some '>' by decide))]
  rw [countSub_step hN hgt _ hrunsE]
  rw [countSub_step hN hgt _ (Or.inr (show (str "</w:p>").getLast? = some '>' by decide))]
  rw [hruns0]
  omega

/-- Bounded-index form of the `>`-placement side condition. -/
theorem hgt_concrete (m : Nat) {N : List Char} (hlen : N.length = m)
    (h : ∀ j, j < m - 1 → N[j]? ≠ some '>') :
    ∀ j, j + 1 < N.length → N[j]? ≠ some '>' := by
  intro j hj
  rw [hlen] at hj
  exact h j (by omega)

/-- The width-pinned `tcW` needle extends its concrete stem. -/
theorem tcwNeedle_stem (w : Nat) : str "<w:tcW " <+: tcwNeedle w :=
  (by decide : str "<w:tcW " <+: str "<w:tcW w:w=\"").trans
    (show str "<w:tcW w:w=\"" <+: tcwNeedle w from List.prefix_append _ _)

/-- The width-pinned `gridCol` needle extends its concrete stem. -/
theorem gridNeedle_stem (w : Nat) : str "<w:gridCol" <+: gridNeedle w :=
  (by decide : str "<w:gridCol" <+: str "<w:gridCol w:w=\"").trans
    (show str "<w:gridCol w:w=\"" <+: gridNeedle w from List.prefix_append _ _)

set_option maxRecDepth 10000 in
/-- Exhaustive needle counts over one table cell: one cell element, one cell
width carrying exactly the given width, no row or grid-column elements. -/
theorem cell_counts (text : List Char) (hdr : Bool) (w : Nat) :
    countSub (str "<w:tc>") (tcCellXml text hdr w) = 1 ∧
    countSub (str "<w:tr>") (tcCellXml text hdr w) = 0 ∧
    countSub (str "<w:tcW ") (tcCellXml text hdr w) = 1 ∧
    countSub (tcwNeedle w) (tcCellXml text hdr w) = 1 ∧
    countSub (str "<w:gridCol") (tcCellXml text hdr w) = 0 ∧
    countSub (gridNeedle w) (tcCellXml text hdr w) = 0 := by
  have hfree := runsPart_free hdr text
  have hzw : ∀ P : List Char, countSub (str "<w:tcW ") P = 0 →
      countSub (tcwNeedle w) P = 0 :=
    fun P h => countSub_eq_zero_of_sub (by decide) (tcwNeedle_stem w) h
  have hzg : ∀ P : List Char, countSub (str "<w:gridCol") P = 0 →
      countSub (gridNeedle w) P = 0 :=
    fun P h => countSub_eq_zero_of_sub (by decide) (gridNeedle_stem w) h
  refine ⟨?_, ?_, ?_, ?_, ?_, ?_⟩
  · rw [countSub_tcCellXml (str "<w:tc>") (by decide)
      (hgt_concrete 6 (by decide) (by decide)) text hdr w
      (countSub_eq_zero_of_sub (by decide) (by decide) hfree.1) hfree.2.2.2]
    rw [(tcW_counts w).2.2.1, countSub_if2 hdr _ _ (by decide) (by decide)]
    decide
  · rw [countSub_tcCellXml (str "<w:tr>") (by decide)
      (hgt_concrete 6 (by decide) (by decide)) text hdr w
      (countSub_eq_zero_of_sub (by decide) (by decide) hfree.2.1) hfree.2.2.2]
    rw [(tcW_counts w).2.2.2.1, countSub_if2 hdr _ _ (by decide) (by decide)]
    decide
  · rw [countSub_tcCellXml (str "<w:tcW ") (by decide)
      (hgt_concrete 7 (by decide) (by decide)) text hdr w
      (countSub_eq_zero_of_sub (by decide) (by decide) hfree.1) hfree.2.2.2]
    rw [(tcW_counts w).1, countSub_if2 hdr _ _ (by decide) (by decide)]
    decide
  · rw [countSub_tcCellXml (tcwNeedle w) (by rw [tcwNeedle]; simp)
      (hgt_of_not_mem (gt_not_mem_tcwNeedle w)) text hdr w
      (countSub_eq_zero_of_sub (by decide)
        ((by decide : str "<w:tc" <+: str "<w:tcW ").trans (tcwNeedle_stem w)) hfree.1)
      hfree.2.2.2]
    rw [(tcW_counts w).2.1, countSub_if2 hdr _ _ (hzw _ (by decide)) (hzw _ (by decide))]
    rw [hzw _ (by decide), hzw _ (by decide), hzw _ (by decide), hzw _ (by decide),
      hzw _ (by decide), hzw _ (by decide), hzw _ (by decide), hzw _ (by decide),
      hzw _ (by decide), hzw _ (by decide), hzw _ (by decide)]
  · rw [countSub_tcCellXml (str "<w:gridCol") (by decide)
      (hgt_concrete 10 (by decide) (by decide)) text hdr w
      (countSub_eq_zero_of_sub (by decide) (by decide) hfree.2.2.1) hfree.2.2.2]
    rw [(tcW_counts w).2.2.2.2.1, countSub_if2 hdr _ _ (by decide) (by decide)]
    decide
  · rw [countSub_tcCellXml (gridNeedle w) (by rw [gridNeedle]; simp)
      (hgt_of_not_mem (gt_not_mem_gridNeedle w)) text hdr w
      (countSub_eq_zero_of_sub (by decide)
        ((by decide : str "<w:g" <+: str "<w:gridCol").trans (gridNeedle_stem w))
        hfree.2.2.1)
      hfree.2.2.2]
    rw [(tcW_counts w).2.2.2.2.2, countSub_if2 hdr _ _ (hzg _ (by decide)) (hzg _ (by decide))]
    rw [hzg _ (by decide), hzg _ (by decide), hzg _ (by decide), hzg _ (by decide),
      hzg _ (by decide), hzg _ (by decide), hzg _ (by decide), hzg _ (by decide),
      hzg _ (by decide), hzg _ (by decide), hzg _ (by decide)]

/-- Padding a short row reaches exactly the column count. -/
theorem padRow_length (r : List (List Char)) (n : Nat) (h : r.length ≤ n) :
    (padRow r n).length = n := by
  rw [padRow_eq, List.length_append, List.length_replicate]
  omega

/-- `EndsGt` passes to a flattened list of pieces. -/
theorem EndsGt_flatten : ∀ (ps : List (List Char)), (∀ p ∈ ps, EndsGt p) →
    EndsGt ps.flatten := by
  intro ps
  induction ps with
  | nil => intro _; exact Or.inl rfl
  | cons p t ih =>
    intro h
    rw [List.flatten_cons]
    exact EndsGt_append (h p (List.mem_cons_self p t))
      (ih (fun x hx => h x (List.mem_cons_of_mem p hx)))

/-- A table row ends with `>`. -/
theorem tableRowXml_getLast (r : List (List Char)) (idx numCols w : Nat) :
    (tableRowXml r idx numCols w).getLast? = some '>' := by
  simp only [tableRowXml, List.append_assoc]
  exact getLast?_append_some (getLast?_append_some (getLast?_append_some
    (show (str "</w:tr>").getLast? = some '>' by decide)))

/-- Needle counting over one table row reduces to the per-cell counts. -/
theorem countSub_tableRowXml (N : List Char) (hN : N ≠ [])
    (hgt : ∀ j, j + 1 < N.length → N[j]? ≠ some '>')
    (r : List (List Char)) (idx numCols w : Nat) (hle : r.length ≤ numCols)
    (v : Nat) (hcell : ∀ cell hdr, countSub N (tcCellXml cell hdr w) = v) :
    countSub N (tableRowXml r idx numCols w) =
      countSub N (str "<w:tr>") +
      countSub N (str "<w:trPr><w:trHeight w:val=\"0\" w:hRule=\"atLeast\"/></w:trPr>") +
      numCols * v + countSub N (str "</w:tr>") := by
  simp only [tableRowXml, List.append_assoc]
  rw [countSub_step hN hgt _ (Or.inr (show (str "<w:tr>").getLast? = some '>' by decide))]
  rw [countSub_step hN hgt _ (Or.inr (by decide))]
  rw [countSub_step hN hgt _ (EndsGt_flatten _ (fun p hp => ?hE))]
  case hE =>
    obtain ⟨cell, _, rfl⟩ := List.mem_map.mp hp
    exact Or.inr (tcCellXml_getLast _ _ _)
  rw [countSub_flatten_const hN hgt _ v (fun p hp => ?hv)]
  case hv =>
    obtain ⟨cell, _, rfl⟩ := List.mem_map.mp hp
    exact ⟨hcell cell _, Or.inr (tcCellXml_getLast _ _ _)⟩
  rw [List.length_map, padRow_length r numCols hle]
  omega

/-- Exhaustive needle counts over one table row: one row element and exactly
`numCols` cells, each with the pinned width. -/
theorem row_counts (r : List (List Char)) (idx numCols w : Nat)
    (hle : r.length ≤ numCols) :
    countSub (str "<w:tr>") (tableRowXml r idx numCols w) = 1 ∧
    countSub (str "<w:tc>") (tableRowXml r idx numCols w) = numCols ∧
    countSub (str "<w:tcW ") (tableRowXml r idx numCols w) = numCols ∧
    countSub (tcwNeedle w) (tableRowXml r idx numCols w) = numCols ∧
    countSub (str "<w:gridCol") (tableRowXml r idx numCols w) = 0 ∧
    countSub (gridNeedle w) (tableRowXml r idx numCols w) = 0 := by
  have hzw : ∀ P : List Char, countSub (str "<w:tcW ") P = 0 →
      countSub (tcwNeedle w) P = 0 :=
    fun P h => countSub_eq_zero_of_sub (by decide) (tcwNeedle_stem w) h
  have hzg : ∀ P : List Char, countSub (str "<w:gridCol") P = 0 →
      countSub (gridNeedle w) P = 0 :=
    fun P h => countSub_eq_zero_of_sub (by decide) (gridNeedle_stem w) h
  refine ⟨?_, ?_, ?_, ?_, ?_, ?_⟩
  · rw [countSub_tableRowXml (str "<w:tr>") (by decide)
      (hgt_concrete 6 (by decide) (by decide)) r idx numCols w hle 0
      (fun cell hdr => (cell_counts cell hdr w).2.1)]
    have e1 : countSub (str "<w:tr>") (str "<w:tr>") = 1 := by decide
    have e2 : countSub (str "<w:tr>")
      (str "<w:trPr><w:trHeight w:val=\"0\" w:hRule=\"atLeast\"/></w:trPr>") = 0 := by decide
    have e3 : countSub (str "<w:tr>") (str "</w:tr>") = 0 := by decide
    omega
  · rw [countSub_tableRowXml (str "<w:tc>") (by decide)
      (hgt_concrete 6 (by decide) (by decide)) r idx numCols w hle 1
      (fun cell hdr => (cell_counts cell hdr w).1)]
    have e1 : countSub (str "<w:tc>") (str "<w:tr>") = 0 := by decide
    have e2 : countSub (str "<w:tc>")
      (str "<w:trPr><w:trHeight w:val=\"0\" w:hRule=\"atLeast\"/></w:trPr>") = 0 := by decide
    have e3 : countSub (str "<w:tc>") (str "</w:tr>") = 0 := by decide
    omega
  · rw [countSub_tableRowXml (str "<w:tcW ") (by decide)
      (hgt_concrete 7 (by decide) (by decide)) r idx numCols w hle 1
      (fun cell hdr => (cell_counts cell hdr w).2.2.1)]
    have e1 : countSub (str "<w:tcW ") (str "<w:tr>") = 0 := by decide
    have e2 : countSub (str "<w:tcW ")
      (str "<w:trPr><w:trHeight w:val=\"0\" w:hRule=\"atLeast\"/></w:trPr>") = 0 := by decide
    have e3 : countSub (str "<w:tcW ") (str "</w:tr>") = 0 := by decide
    omega
  · rw [countSub_tableRowXml (tcwNeedle w) (by rw [tcwNeedle]; simp)
      (hgt_of_not_mem (gt_not_mem_tcwNeedle w)) r idx numCols w hle 1
      (fun cell hdr => (cell_counts cell hdr w).2.2.2.1)]
    have e1 : countSub (tcwNeedle w) (str "<w:tr>") = 0 := hzw _ (by decide)
    have e2 : countSub (tcwNeedle w)
      (str "<w:trPr><w:trHeight w:val=\"0\" w:hRule=\"atLeast\"/></w:trPr>") = 0 :=
      hzw _ (by decide)
    have e3 : countSub (tcwNeedle w) (str "</w:tr>") = 0 := hzw _ (by decide)
    omega
  · rw [countSub_tableRowXml (str "<w:gridCol") (by decide)
      (hgt_concrete 10 (by decide) (by decide)) r idx numCols w hle 0
      (fun cell hdr => (cell_counts cell hdr w).2.2.2.2.1)]
    have e1 : countSub (str "<w:gridCol") (str "<w:tr>") = 0 := by decide
    have e2 : countSub (str "<w:gridCol")
      (str "<w:trPr><w:trHeight w:val=\"0\" w:hRule=\"atLeast\"/></w:trPr>") = 0 := by decide
    have e3 : countSub (str "<w:gridCol") (str "</w:tr>") = 0 := by decide
    omega
  · rw [countSub_tableRowXml (gridNeedle w) (by rw [gridNeedle]; simp)
      (hgt_of_not_mem (gt_not_mem_gridNeedle w)) r idx numCols w hle 0
      (fun cell hdr => (cell_counts cell hdr w).2.2.2.2.2)]
    have e1 : countSub (gridNeedle w) (str "<w:tr>") = 0 := hzg _ (by decide)
    have e2 : countSub (gridNeedle w)
      (str "<w:trPr><w:trHeight w:val=\"0\" w:hRule=\"atLeast\"/></w:trPr>") = 0 :=
      hzg _ (by decide)
    have e3 : countSub (gridNeedle w) (str "</w:tr>") = 0 := hzg _ (by decide)
    omega

/-- The indexed copy preserves length. -/
theorem withIdx_length {α : Type} : ∀ (l : List α) (j : Nat),
    (withIdx l j).length = l.length := by
  intro l
  induction l with
  | nil => intro j; rfl
  | cons a t ih => intro j; rw [withIdx, List.length_cons, List.length_cons, ih]

set_option maxRecDepth 100000 in
/-- Needle counting over the whole emitted table. -/
theorem countSub_createTableXml (N : List Char) (hN : N ≠ [])
    (hgt : ∀ j, j + 1 < N.length → N[j]? ≠ some '>')
    (tableLines : List (List Char)) (hne : tableRows tableLines ≠ [])
    (M cw : Nat) (hM : (tableRows tableLines).foldl (fun acc r => max acc r.length) 0 = M)
    (hcw : 9360 / M = cw) (vG vR : Nat)
    (hgrid : countSub N (gridColXml cw) = vG)
    (hrow : ∀ r ∈ tableRows tableLines, ∀ i, countSub N (tableRowXml r i M cw) = vR) :
    countSub N (createTableXml tableLines) =
      countSub N (str "<w:tbl>") + countSub N tblPrXml + countSub N (str "<w:tblGrid>") +
      M * vG + countSub N (str "</w:tblGrid>") + (tableRows tableLines).length * vR +
      countSub N (str "</w:tbl>") +
      countSub N
        (str "<w:p><w:pPr><w:spacing w:before=\"120\" w:after=\"0\"/></w:pPr></w:p>") := by
  simp only [createTableXml]
  rw [if_neg (fun h => hne (List.length_eq_zero.mp h))]
  rw [hM, hcw]
  simp only [List.append_assoc]
  rw [countSub_step hN hgt _ (Or.inr (show (str "<w:tbl>").getLast? = some '>' by decide))]
  rw [countSub_step hN hgt _ (Or.inr (show tblPrXml.getLast? = some '>' by decide))]
  rw [countSub_step hN hgt _
    (Or.inr (show (str "<w:tblGrid>").getLast? = some '>' by decide))]
  rw [countSub_step hN hgt _ (EndsGt_flatten _ (fun p hp => ?hg1))]
  case hg1 =>
    rw [List.eq_of_mem_replicate hp]
    exact Or.inr (gridColXml_getLast cw)
  rw [countSub_flatten_const hN hgt _ vG (fun p hp => ?hg2)]
  case hg2 =>
    rw [List.eq_of_mem_replicate hp]
    exact ⟨hgrid, Or.inr (gridColXml_getLast cw)⟩
  rw [countSub_step hN hgt _
    (Or.inr (show (str "</w:tblGrid>").getLast? = some '>' by decide))]
  rw [countSub_step hN hgt _ (EndsGt_flatten _ (fun p hp => ?hr1))]
  case hr1 =>
    obtain ⟨ri, _, rfl⟩ := List.mem_map.mp hp
    exact Or.inr (tableRowXml_getLast _ _ _ _)
  rw [countSub_flatten_const hN hgt _ vR (fun p hp => ?hr2)]
  case hr2 =>
    obtain ⟨ri, hri, rfl⟩ := List.mem_map.mp hp
    exact ⟨hrow ri.1 (withIdx_fst_mem _ 0 ri hri) ri.2,
      Or.inr (tableRowXml_getLast _ _ _ _)⟩
  rw [countSub_step hN hgt _ (Or.inr (show (str "</w:tbl>").getLast? = some '>' by decide))]
  rw [List.length_replicate, List.length_map, withIdx_length]
  omega

set_option maxRecDepth 100000 in
/-- C5: every row of the emitted table is padded with empty cells to the
maximum column count `M` over all non-separator rows; the table grid holds
exactly `M` columns, every one carrying width `9360 / M`; and every cell of
every row carries that same width. -/
theorem claim5_table_padding (tableLines : List (List Char)) (M cw : Nat)
    (hne : tableRows tableLines ≠ [])
    (hM : (tableRows tableLines).foldl (fun acc r => max acc r.length) 0 = M)
    (hcw : 9360 / M = cw) :
    (∀ r ∈ tableRows tableLines, r.length ≤ M ∧
      padRow r M = r ++ List.replicate (M - r.length) [] ∧ (padRow r M).length = M) ∧
    countSub (str "<w:tr>") (createTableXml tableLines) = (tableRows tableLines).length ∧
    countSub (str "<w:tc>") (createTableXml tableLines) =
      (tableRows tableLines).length * M ∧
    countSub (str "<w:tcW ") (createTableXml tableLines) =
      (tableRows tableLines).length * M ∧
    countSub (tcwNeedle cw) (createTableXml tableLines) =
      (tableRows tableLines).length * M ∧
    countSub (str "<w:gridCol") (createTableXml tableLines) = M ∧
    countSub (gridNeedle cw) (createTableXml tableLines) = M := by
  have hle : ∀ r ∈ tableRows tableLines, r.length ≤ M := by
    intro r hr
    rw [← hM]
    exact length_le_foldl_max _ r hr 0
  have hzw : ∀ P : List Char, countSub (str "<w:tcW ") P = 0 →
      countSub (tcwNeedle cw) P = 0 :=
    fun P h => countSub_eq_zero_of_sub (by decide) (tcwNeedle_stem cw) h
  have hzg : ∀ P : List Char, countSub (str "<w:gridCol") P = 0 →
      countSub (gridNeedle cw) P = 0 :=
    fun P h => countSub_eq_zero_of_sub (by decide) (gridNeedle_stem cw) h
  refine ⟨fun r hr => ⟨hle r hr, padRow_eq r M, padRow_length r M (hle r hr)⟩,
    ?_, ?_, ?_, ?_, ?_, ?_⟩
  · rw [countSub_createTableXml (str "<w:tr>") (by decide)
      (hgt_concrete 6 (by decide) (by decide)) tableLines hne M cw hM hcw 0 1
      (grid_counts cw).2.2.2.1
      (fun r hr i => (row_counts r i M cw (hle r hr)).1)]
    have e1 : countSub (str "<w:tr>") (str "<w:tbl>") = 0 := by decide
    have e2 : countSub (str "<w:tr>") tblPrXml = 0 := by decide
    have e3 : countSub (str "<w:tr>") (str "<w:tblGrid>") = 0 := by decide
    have e4 : countSub (str "<w:tr>") (str "</w:tblGrid>") = 0 := by decide
    have e5 : countSub (str "<w:tr>") (str "</w:tbl>") = 0 := by decide
    have e6 : countSub (str "<w:tr>")
      (str "<w:p><w:pPr><w:spacing w:before=\"120\" w:after=\"0\"/></w:pPr></w:p>") = 0 :=
      by decide
    omega
  · rw [countSub_createTableXml (str "<w:tc>") (by decide)
      (hgt_concrete 6 (by decide) (by decide)) tableLines hne M cw hM hcw 0 M
      (grid_counts cw).2.2.1
      (fun r hr i => (row_counts r i M cw (hle r hr)).2.1)]
    have e1 : countSub (str "<w:tc>") (str "<w:tbl>") = 0 := by decide
    have e2 : countSub (str "<w:tc>") tblPrXml = 0 := by decide
    have e3 : countSub (str "<w:tc>") (str "<w:tblGrid>") = 0 := by decide
    have e4 : countSub (str "<w:tc>") (str "</w:tblGrid>") = 0 := by decide
    have e5 : countSub (str "<w:tc>") (str "</w:tbl>") = 0 := by decide
    have e6 : countSub (str "<w:tc>")
      (str "<w:p><w:pPr><w:spacing w:before=\"120\" w:after=\"0\"/></w:pPr></w:p>") = 0 :=
      by decide
    omega
  · rw [countSub_createTableXml (str "<w:tcW ") (by decide)
      (hgt_concrete 7 (by decide) (by decide)) tableLines hne M cw hM hcw 0 M
      (grid_counts cw).2.2.2.2.1
      (fun r hr i => (row_counts r i M cw (hle r hr)).2.2.1)]
    have e1 : countSub (str "<w:tcW ") (str "<w:tbl>") = 0 := by decide
    have e2 : countSub (str "<w:tcW ") tblPrXml = 0 := by decide
    have e3 : countSub (str "<w:tcW ") (str "<w:tblGrid>") = 0 := by decide
    have e4 : countSub (str "<w:tcW ") (str "</w:tblGrid>") = 0 := by decide
    have e5 : countSub (str "<w:tcW ") (str "</w:tbl>") = 0 := by decide
    have e6 : countSub (str "<w:tcW ")
      (str "<w:p><w:pPr><w:spacing w:before=\"120\" w:after=\"0\"/></w:pPr></w:p>") = 0 :=
      by decide
    omega
  · rw [countSub_createTableXml (tcwNeedle cw) (by rw [tcwNeedle]; simp)
      (hgt_of_not_mem (gt_not_mem_tcwNeedle cw)) tableLines hne M cw hM hcw 0 M
      (grid_counts cw).2.2.2.2.2
      (fun r hr i => (row_counts r i M cw (hle r hr)).2.2.2.1)]
    have e1 : countSub (tcwNeedle cw) (str "<w:tbl>") = 0 := hzw _ (by decide)
    have e2 : countSub (tcwNeedle cw) tblPrXml = 0 := hzw _ (by decide)
    have e3 : countSub (tcwNeedle cw) (str "<w:tblGrid>") = 0 := hzw _ (by decide)
    have e4 : countSub (tcwNeedle cw) (str "</w:tblGrid>") = 0 := hzw _ (by decide)
    have e5 : countSub (tcwNeedle cw) (str "</w:tbl>") = 0 := hzw _ (by decide)
    have e6 : countSub (tcwNeedle cw)
      (str "<w:p><w:pPr><w:spacing w:before=\"120\" w:after=\"0\"/></w:pPr></w:p>") = 0 :=
      hzw _ (by decide)
    omega
  · rw [countSub_createTableXml (str "<w:gridCol") (by decide)
      (hgt_concrete 10 (by decide) (by decide)) tableLines hne M cw hM hcw 1 0
      (grid_counts cw).1
      (fun r hr i => (row_counts r i M cw (hle r hr)).2.2.2.2.1)]
    have e1 : countSub (str "<w:gridCol") (str "<w:tbl>") = 0 := by decide
    have e2 : countSub (str "<w:gridCol") tblPrXml = 0 := by decide
    have e3 : countSub (str "<w:gridCol") (str "<w:tblGrid>") = 0 := by decide
    have e4 : countSub (str "<w:gridCol") (str "</w:tblGrid>") = 0 := by decide
    have e5 : countSub (str "<w:gridCol") (str "</w:tbl>") = 0 := by decide
    have e6 : countSub (str "<w:gridCol")
      (str "<w:p><w:pPr><w:spacing w:before=\"120\" w:after=\"0\"/></w:pPr></w:p>") = 0 :=
      by decide
    omega
  · rw [countSub_createTableXml (gridNeedle cw) (by rw [gridNeedle]; simp)
      (hgt_of_not_mem (gt_not_mem_gridNeedle cw)) tableLines hne M cw hM hcw 1 0
      (grid_counts cw).2.1
      (fun r hr i => (row_counts r i M cw (hle r hr)).2.2.2.2.2)]
    have e1 : countSub (gridNeedle cw) (str "<w:tbl>") = 0 := hzg _ (by decide)
    have e2 : countSub (gridNeedle cw) tblPrXml = 0 := hzg _ (by decide)
    have e3 : countSub (gridNeedle cw) (str "<w:tblGrid>") = 0 := hzg _ (by decide)
    have e4 : countSub (gridNeedle cw) (str "</w:tblGrid>") = 0 := hzg _ (by decide)
    have e5 : countSub (gridNeedle cw) (str "</w:tbl>") = 0 := hzg _ (by decide)
    have e6 : countSub (gridNeedle cw)
      (str "<w:p><w:pPr><w:spacing w:before=\"120\" w:after=\"0\"/></w:pPr></w:p>") = 0 :=
      hzg _ (by decide)
    omega

set_option maxRecDepth 40000 in
/-- C5 witness: a two-row table with cell counts 2 and 1 and a separator row;
`M = 2`, column width `4680 = 9360 / 2`. -/
theorem claim5_witness :
    (∀ r ∈ tableRows [str "| a | b |", str "|---|", str "| c |"], r.length ≤ 2 ∧
      padRow r 2 = r ++ List.replicate (2 - r.length) [] ∧ (padRow r 2).length = 2) ∧
    countSub (str "<w:tr>") (createTableXml [str "| a | b |", str "|---|", str "| c |"]) =
      (tableRows [str "| a | b |", str "|---|", str "| c |"]).length ∧
    countSub (str "<w:tc>") (createTableXml [str "| a | b |", str "|---|", str "| c |"]) =
      (tableRows [str "| a | b |", str "|---|", str "| c |"]).length * 2 ∧
    countSub (str "<w:tcW ") (createTableXml [str "| a | b |", str "|---|", str "| c |"]) =
      (tableRows [str "| a | b |", str "|---|", str "| c |"]).length * 2 ∧
    countSub (tcwNeedle 4680)
        (createTableXml [str "| a | b |", str "|---|", str "| c |"]) =
      (tableRows [str "| a | b |", str "|---|", str "| c |"]).length * 2 ∧
    countSub (str "<w:gridCol")
        (createTableXml [str "| a | b |", str "|---|", str "| c |"]) = 2 ∧
    countSub (gridNeedle 4680)
        (createTableXml [str "| a | b |", str "|---|", str "| c |"]) = 2 :=
  claim5_table_padding [str "| a | b |", str "|---|", str "| c |"] 2 4680
    (by decide) (by decide) (by decide)

/-! ## Idempotence of the page-size patch -/

/-- Inversion of a successful page-size match. -/
theorem pgMatchHere_shape {Y : List Char} {L : Nat} (h : pgMatchHere Y = some L) :
    pgNeedle.isPrefixOf Y = true ∧ ∃ j, L = 8 + j ∧
      (Y.drop 7).findIdx? (fun c => c = '>') = some j ∧ 1 ≤ j ∧
      (Y.drop 7)[j - 1]? = some '/' := by
  unfold pgMatchHere at h
  split at h
  · rename_i hpre
    split at h
    · rename_i j hj
      split at h
      · rename_i hcheck
        exact ⟨hpre, j, (Option.some.inj h).symm, hj, hcheck.1, hcheck.2⟩
      · exact absurd h (by simp)
    · exact absurd h (by simp)
  · exact absurd h (by simp)

/-- Construction of a page-size match. -/
theorem pgMatchHere_intro {Y : List Char} {j : Nat}
    (hpre : pgNeedle.isPrefixOf Y = true)
    (hj : (Y.drop 7).findIdx? (fun c => c = '>') = some j) (hj1 : 1 ≤ j)
    (hsl : (Y.drop 7)[j - 1]? = some '/') :
    pgMatchHere Y = some (8 + j) := by
  unfold pgMatchHere
  rw [if_pos hpre, hj]
  dsimp only
  rw [if_pos ⟨hj1, hsl⟩]

/-- A list whose members all fail the test contributes only an offset. -/
theorem findIdx?_prepend {p : Char → Bool} {a : List Char}
    (ha : ∀ c ∈ a, p c = false) (b : List Char) :
    (a ++ b).findIdx? p = (b.findIdx? p).map (· + a.length) := by
  rw [List.findIdx?_append, List.findIdx?_eq_none_iff.mpr ha]
  rfl

/-- Positions before the first page-size match do not match. -/
theorem findPg_min {l : List Char} {s len : Nat} (h : findPg l = some (s, len)) :
    (∀ p, p < s → pgMatchHere (l.drop p) = none) ∧
      pgMatchHere (l.drop s) = some len := by
  induction l generalizing s with
  | nil => exact absurd h (by simp [findPg])
  | cons c t ih =>
    simp only [findPg] at h
    cases hm : pgMatchHere (c :: t) with
    | some len0 =>
      rw [hm] at h
      obtain ⟨hs, hl⟩ := Prod.mk.injEq .. ▸ Option.some.inj h
      subst hs; subst hl
      exact ⟨fun p hp => absurd hp (by omega), hm⟩
    | none =>
      rw [hm] at h
      simp only [Option.map_eq_some'] at h
      obtain ⟨⟨s', len'⟩, hfind, heq⟩ := h
      obtain ⟨hs, hl⟩ := Prod.mk.injEq .. ▸ heq
      subst hs; subst hl
      obtain ⟨hmin, hat⟩ := ih hfind
      refine ⟨?_, hat⟩
      intro p hp
      cases p with
      | zero => exact hm
      | succ p' => exact hmin p' (by omega)

/-- An unmatched document has no match at any position. -/
theorem findPg_none_all {l : List Char} (h : findPg l = none) :
    ∀ p, pgMatchHere (l.drop p) = none := by
  induction l with
  | nil =>
    intro p
    rw [List.drop_nil]
    rfl
  | cons c t ih =>
    intro p
    simp only [findPg] at h
    cases hm : pgMatchHere (c :: t) with
    | some len0 => rw [hm] at h; exact absurd h (by simp)
    | none =>
      rw [hm] at h
      simp only [Option.map_eq_none'] at h
      cases p with
      | zero => exact hm
      | succ p' => exact ih h p'

/-- No match anywhere means no first match. -/
theorem findPg_none_intro {l : List Char} (h : ∀ p, pgMatchHere (l.drop p) = none) :
    findPg l = none := by
  induction l with
  | nil => rfl
  | cons c t ih =>
    simp only [findPg]
    rw [show pgMatchHere (c :: t) = none from h 0]
    rw [ih (fun p => h (p + 1))]
    rfl

/-- Reconstruction of the first match from per-position facts. -/
theorem findPg_intro {l : List Char} {s L : Nat}
    (hmin : ∀ p, p < s → pgMatchHere (l.drop p) = none)
    (hat : pgMatchHere (l.drop s) = some L) :
    findPg l = some (s, L) := by
  induction l generalizing s with
  | nil =>
    rw [List.drop_nil] at hat
    exact absurd hat (by rw [show pgMatchHere [] = none from rfl]; simp)
  | cons c t ih =>
    simp only [findPg]
    cases s with
    | zero =>
      rw [List.drop_zero] at hat
      rw [hat]
    | succ s' =>
      rw [show pgMatchHere (c :: t) = none from hmin 0 (by omega)]
      rw [ih (fun p hp => hmin (p + 1) (by omega)) hat]
      rfl

/-- Splitting a drop at a later position. -/
theorem drop_eq_take_drop_append (l : List Char) (m n : Nat) (hmn : m ≤ n)
    (hn : n ≤ l.length) : l.drop m = (l.take n).drop m ++ l.drop n := by
  conv_lhs => rw [← List.take_append_drop n l]
  rw [List.drop_append_eq_append_drop]
  rw [show m - (l.take n).length = 0 from by rw [List.length_take]; omega]
  rw [List.drop_zero]

/-- A satisfied head is found at once. -/
theorem findIdx?_head_true {p : Char → Bool} {c : Char} (h : p c = true)
    (r : List Char) : (c :: r).findIdx? p = some 0 :=
  List.findIdx?_eq_some_iff_getElem.mpr ⟨by simp, by simpa using h, fun j hj => by omega⟩

/-- The body of the replacement tag, everything before the closing `/>`. -/
def pgsBody (width height : Nat) (orientation : List Char) : List Char :=
  str "<w:pgSz w:w=\"" ++ (natChars width ++ (str "\" w:h=\"" ++ (natChars height ++
    (str "\" w:orient=\"" ++ (orientation ++ ['"'])))))

/-- Anatomy of the replacement tag. -/
theorem pgSzTag_decomp (w h : Nat) (o : List Char) :
    pgSzTag w h o = pgsBody w h o ++ ('/' :: '>' :: []) := by
  rw [pgSzTag, pgsBody, show str "\"/>" = ['"'] ++ ('/' :: '>' :: []) from rfl]
  simp [List.append_assoc]

/-- The tag body contains no `>` when the orientation has none. -/
theorem gt_not_mem_pgsBody {w h : Nat} {o : List Char} (ho : '>' ∉ o) :
    '>' ∉ pgsBody w h o := by
  intro hm
  rw [pgsBody] at hm
  rcases List.mem_append.mp hm with hc | hm
  · exact absurd hc (by decide)
  rcases List.mem_append.mp hm with hc | hm
  · exact absurd (natChars_mem w _ hc) (by decide)
  rcases List.mem_append.mp hm with hc | hm
  · exact absurd hc (by decide)
  rcases List.mem_append.mp hm with hc | hm
  · exact absurd (natChars_mem h _ hc) (by decide)
  rcases List.mem_append.mp hm with hc | hm
  · exact absurd hc (by decide)
  rcases List.mem_append.mp hm with hc | hm
  · exact ho hc
  · exact absurd (List.mem_singleton.mp hm) (by decide)

/-- The tag body is long enough to contain the needle region. -/
theorem pgsBody_length (w h : Nat) (o : List Char) : 13 ≤ (pgsBody w h o).length := by
  rw [pgsBody, List.length_append]
  have : (str "<w:pgSz w:w=\"").length = 13 := by decide
  omega

/-- The replacement tag matches the page-size regex in full, whatever follows
it. -/
theorem pgSzTag_match {w h : Nat} {o : List Char} (ho : '>' ∉ o) (r : List Char) :
    pgMatchHere (pgSzTag w h o ++ r) = some (pgSzTag w h o).length := by
  have hb13 := pgsBody_length w h o
  have harr : pgSzTag w h o ++ r = pgsBody w h o ++ ('/' :: '>' :: r) := by
    rw [pgSzTag_decomp]
    simp [List.append_assoc]
  have hpre : pgNeedle.isPrefixOf (pgsBody w h o ++ ('/' :: '>' :: r)) = true := by
    rw [List.isPrefixOf_iff_prefix]
    refine List.IsPrefix.trans ?_ (List.prefix_append _ _)
    rw [pgsBody]
    exact List.IsPrefix.trans (by decide : pgNeedle <+: str "<w:pgSz w:w=\"")
      (List.prefix_append _ _)
  have hdrop : (pgsBody w h o ++ ('/' :: '>' :: r)).drop 7 =
      (pgsBody w h o).drop 7 ++ ('/' :: '>' :: r) :=
    List.drop_append_of_le_length (by omega)
  have hclean : ∀ c ∈ (pgsBody w h o).drop 7, (decide (c = '>')) = false := by
    intro c hc
    have : c ∈ pgsBody w h o := (List.drop_subset _ _) hc
    have hne : ¬ c = '>' := fun hcc => gt_not_mem_pgsBody ho (hcc ▸ this)
    simpa using hne
  have hfind : ((pgsBody w h o ++ ('/' :: '>' :: r)).drop 7).findIdx?
      (fun c => c = '>') = some (1 + ((pgsBody w h o).drop 7).length) := by
    rw [hdrop, findIdx?_prepend hclean]
    rw [show ('/' :: '>' :: r).findIdx? (fun c => c = '>') = some 1 from by
      rw [show ('/' :: '>' :: r) = ['/'] ++ ('>' :: r) from rfl,
        findIdx?_prepend (by intro c hc; simp at hc; subst hc; decide),
        findIdx?_head_true (by decide)]
      rfl]
    rfl
  have hslash : ((pgsBody w h o ++ ('/' :: '>' :: r)).drop 7)[1 +
      ((pgsBody w h o).drop 7).length - 1]? = some '/' := by
    rw [hdrop]
    rw [show 1 + ((pgsBody w h o).drop 7).length - 1 = ((pgsBody w h o).drop 7).length
      from by omega]
    rw [List.getElem?_append_right le_rfl]
    simp
  rw [harr]
  rw [pgMatchHere, if_pos hpre, hfind]
  dsimp only
  rw [if_pos ⟨by omega, hslash⟩]
  rw [Option.some.injEq, pgSzTag_decomp, List.length_append, List.length_drop]
  have : ('/' :: '>' :: ([] : List Char)).length = 2 := rfl
  omega

/-- A prefix that fits inside the left part of an append is a prefix of it. -/
theorem prefix_of_prefix_append {p a b : List Char} (h : p <+: a ++ b)
    (hl : p.length ≤ a.length) : p <+: a := by
  rw [List.prefix_iff_eq_take] at h ⊢
  rw [List.take_append_eq_append_take,
    show p.length - a.length = 0 from by omega, List.take_zero, List.append_nil] at h
  exact h

/-- A piece containing `>` within its first seven characters kills the
page-size prefix test, whatever follows. -/
theorem pgMatchHere_append_none_of_short {X : List Char} (hgt : '>' ∈ X)
    (h7 : X.length ≤ 7) (Z : List Char) : pgMatchHere (X ++ Z) = none := by
  rw [pgMatchHere, if_neg]
  intro hpre
  have hp : pgNeedle <+: X ++ Z := List.isPrefixOf_iff_prefix.mp hpre
  have hXeq : X = pgNeedle.take X.length := by
    have hx : X = (X ++ Z).take X.length :=
      List.prefix_iff_eq_take.mp (List.prefix_append _ _)
    have hpeq : pgNeedle = (X ++ Z).take 7 := by
      have h := List.prefix_iff_eq_take.mp hp
      rw [show pgNeedle.length = 7 from rfl] at h
      exact h
    rw [hpeq, List.take_take, inf_eq_left.mpr (show X.length ≤ 7 from h7)]
    exact hx
  have : '>' ∈ pgNeedle := List.take_subset _ _ (hXeq ▸ hgt)
  exact absurd this (by decide)

/-- When the head piece is at least eight characters long and contains a `>`
past the needle region, a match at its start is decided by the head piece
alone. -/
theorem pgMatchHere_append_det {X : List Char} (h8 : 8 ≤ X.length)
    (hgt : '>' ∈ X.drop 7) (Z : List Char) :
    pgMatchHere (X ++ Z) = pgMatchHere X := by
  obtain ⟨jX, hjX⟩ : ∃ j, (X.drop 7).findIdx? (fun c => c = '>') = some j := by
    cases hfi : (X.drop 7).findIdx? (fun c => c = '>') with
    | some j => exact ⟨j, rfl⟩
    | none => exact absurd (List.findIdx?_eq_none_iff.mp hfi '>' hgt) (by decide)
  have hjlt : jX < (X.drop 7).length := (List.findIdx?_eq_some_iff_getElem.mp hjX).1
  have hdrop : (X ++ Z).drop 7 = X.drop 7 ++ Z := List.drop_append_of_le_length (by omega)
  have hfind : ((X ++ Z).drop 7).findIdx? (fun c => c = '>') = some jX := by
    rw [hdrop, List.findIdx?_append, hjX]
    rfl
  have hpre : pgNeedle.isPrefixOf (X ++ Z) = pgNeedle.isPrefixOf X := by
    rw [Bool.eq_iff_iff, List.isPrefixOf_iff_prefix, List.isPrefixOf_iff_prefix]
    constructor
    · intro hc
      exact prefix_of_prefix_append hc (by rw [show pgNeedle.length = 7 from rfl]; omega)
    · intro hc
      exact hc.trans (List.prefix_append _ _)
  have hget : ((X ++ Z).drop 7)[jX - 1]? = (X.drop 7)[jX - 1]? := by
    rw [hdrop, List.getElem?_append_left (show jX - 1 < (X.drop 7).length from by omega)]
  unfold pgMatchHere
  rw [hpre, hfind, hjX]
  dsimp only
  rw [hget]

/-- A head piece ending in `>` decides matching at its start regardless of the
tail: failure against one tail is failure against any. -/
theorem pgMatchHere_transfer2 {X Z : List Char} (hXlast : X.getLast? = some '>')
    (h1 : pgMatchHere (X ++ Z) = none) (W : List Char) :
    pgMatchHere (X ++ W) = none := by
  have hgtX : '>' ∈ X := List.mem_of_mem_getLast? hXlast
  by_cases h7 : X.length ≤ 7
  · exact pgMatchHere_append_none_of_short hgtX h7 W
  · have h8 : 8 ≤ X.length := by omega
    have hgt : '>' ∈ X.drop 7 := by
      have hx : X[X.length - 1]? = some '>' := by
        rw [← List.getLast?_eq_getElem?]
        exact hXlast
      have hd : (X.drop 7)[X.length - 8]? = some '>' := by
        rw [List.getElem?_drop, show 7 + (X.length - 8) = X.length - 1 from by omega]
        exact hx
      exact mem_of_getElem?_eq_some hd
    rw [pgMatchHere_append_det h8 hgt W]
    rw [pgMatchHere_append_det h8 hgt Z] at h1
    exact h1

/-- The needle has its `<` only at the front. -/
theorem pgNeedle_lt_only_head {k : Nat} (h1 : 1 ≤ k) (h7 : k < 7)
    (hk : pgNeedle[k]? = some '<') : False := by
  interval_cases k <;> exact absurd hk (by decide)

/-- Failure at the head position against a tail that matches at its start
transfers to any tail that begins with the needle. -/
theorem pgMatchHere_transfer {X Y Z : List Char} {LY : Nat}
    (h1 : pgMatchHere (X ++ Y) = none) (hY : pgMatchHere Y = some LY)
    (hZ : pgNeedle.isPrefixOf Z = true) :
    pgMatchHere (X ++ Z) = none := by
  cases hs : pgMatchHere (X ++ Z) with
  | none => rfl
  | some L =>
    exfalso
    obtain ⟨hYpre, jY, hLY, hjY, hjY1, hslY⟩ := pgMatchHere_shape hY
    obtain ⟨hpre', j, hL, hj, hj1, hsl⟩ := pgMatchHere_shape hs
    by_cases h7 : 7 ≤ X.length
    · have hdropZ : (X ++ Z).drop 7 = X.drop 7 ++ Z := List.drop_append_of_le_length h7
      have hdrop : (X ++ Y).drop 7 = X.drop 7 ++ Y := List.drop_append_of_le_length h7
      have hXpre : pgNeedle <+: X :=
        prefix_of_prefix_append (List.isPrefixOf_iff_prefix.mp hpre')
          (by rw [show pgNeedle.length = 7 from rfl]; omega)
      have hXYpre : pgNeedle.isPrefixOf (X ++ Y) = true :=
        List.isPrefixOf_iff_prefix.mpr (hXpre.trans (List.prefix_append _ _))
      cases hfx : (X.drop 7).findIdx? (fun c => c = '>') with
      | some jx =>
        have hjxlt : jx < (X.drop 7).length :=
          (List.findIdx?_eq_some_iff_getElem.mp hfx).1
        have hjeq : j = jx := by
          have hj2 : some jx = some j := by
            rw [hdropZ, List.findIdx?_append, hfx] at hj
            exact hj
          exact (Option.some.inj hj2).symm
        subst hjeq
        rw [hdropZ,
          List.getElem?_append_left (show j - 1 < (X.drop 7).length from by omega)] at hsl
        have hmatch : pgMatchHere (X ++ Y) = some (8 + j) := by
          apply pgMatchHere_intro hXYpre
          · rw [hdrop, List.findIdx?_append, hfx]
            rfl
          · exact hj1
          · rw [hdrop,
              List.getElem?_append_left (show j - 1 < (X.drop 7).length from by omega)]
            exact hsl
        rw [hmatch] at h1
        exact Option.noConfusion h1
      | none =>
        have hclean : ∀ c ∈ X.drop 7, (decide (c = '>')) = false :=
          List.findIdx?_eq_none_iff.mp hfx
        have hYfull : Y = pgNeedle ++ Y.drop 7 := by
          have hYt : pgNeedle = Y.take 7 := by
            have h := List.prefix_iff_eq_take.mp (List.isPrefixOf_iff_prefix.mp hYpre)
            rw [show pgNeedle.length = 7 from rfl] at h
            exact h
          conv_lhs => rw [← List.take_append_drop 7 Y]
          rw [← hYt]
        have hYfi : Y.findIdx? (fun c => c = '>') = some (jY + 7) := by
          conv_lhs => rw [hYfull]
          rw [findIdx?_prepend (show ∀ c ∈ pgNeedle, (decide (c = '>')) = false from
            by decide), hjY]
          rfl
        have hfindXY : ((X ++ Y).drop 7).findIdx? (fun c => c = '>') =
            some (jY + 7 + (X.drop 7).length) := by
          rw [hdrop, findIdx?_prepend hclean, hYfi]
          rfl
        have hslXY : ((X ++ Y).drop 7)[jY + 7 + (X.drop 7).length - 1]? = some '/' := by
          rw [hdrop, List.getElem?_append_right
            (show (X.drop 7).length ≤ jY + 7 + (X.drop 7).length - 1 from by omega)]
          rw [show jY + 7 + (X.drop 7).length - 1 - (X.drop 7).length = 7 + (jY - 1)
            from by omega]
          rw [← List.getElem?_drop]
          exact hslY
        have hmatch : pgMatchHere (X ++ Y) = some (8 + (jY + 7 + (X.drop 7).length)) :=
          pgMatchHere_intro hXYpre hfindXY (by omega) hslXY
        rw [hmatch] at h1
        exact Option.noConfusion h1
    · have hXlt : X.length < 7 := by omega
      have hpeq : pgNeedle = (X ++ Z).take 7 := by
        have h := List.prefix_iff_eq_take.mp (List.isPrefixOf_iff_prefix.mp hpre')
        rw [show pgNeedle.length = 7 from rfl] at h
        exact h
      rcases Nat.eq_zero_or_pos X.length with h0 | hpos
      · have hnil : X = [] := List.eq_nil_of_length_eq_zero h0
        subst hnil
        rw [List.nil_append, hY] at h1
        exact Option.noConfusion h1
      · have hZ0 : Z[0]? = some '<' := by
          have hZt : pgNeedle = Z.take 7 := by
            have h := List.prefix_iff_eq_take.mp (List.isPrefixOf_iff_prefix.mp hZ)
            rw [show pgNeedle.length = 7 from rfl] at h
            exact h
          have hv : (Z.take 7)[0]? = some '<' := by
            rw [← hZt]
            decide
          rw [List.getElem?_take] at hv
          simpa using hv
        have hk : pgNeedle[X.length]? = some '<' := by
          rw [hpeq, List.getElem?_take, if_pos hXlt,
            List.getElem?_append_right le_rfl, Nat.sub_self]
          exact hZ0
        exact pgNeedle_lt_only_head hpos hXlt hk

/-- `replacePgGo` is fuel-invariant once the fuel exceeds the input length. -/
theorem replacePgGo_fuel (S : List Char) :
    ∀ (n : Nat) (l : List Char), l.length ≤ n →
      ∀ f1 f2 : Nat, l.length < f1 → l.length < f2 →
        replacePgGo S l f1 = replacePgGo S l f2 := by
  intro n
  induction n with
  | zero =>
    intro l hl f1 f2 h1 h2
    have : l = [] := List.eq_nil_of_length_eq_zero (by omega)
    subst this
    obtain ⟨g1, rfl⟩ : ∃ g, f1 = g + 1 := ⟨f1 - 1, by omega⟩
    obtain ⟨g2, rfl⟩ : ∃ g, f2 = g + 1 := ⟨f2 - 1, by omega⟩
    rfl
  | succ n ih =>
    intro l hl f1 f2 h1 h2
    obtain ⟨g1, rfl⟩ : ∃ g, f1 = g + 1 := ⟨f1 - 1, by omega⟩
    obtain ⟨g2, rfl⟩ : ∃ g, f2 = g + 1 := ⟨f2 - 1, by omega⟩
    rw [replacePgGo, replacePgGo]
    cases hf : findPg l with
    | none => rfl
    | some p =>
      obtain ⟨s, len⟩ := p
      have hb := findPg_bounds hf
      have hd : (l.drop (s + len)).length = l.length - (s + len) := List.length_drop _ _
      dsimp only
      rw [ih (l.drop (s + len)) (by omega) g1 g2 (by omega) (by omega)]

/-- Unfolding `replacePg` when there is no match. -/
theorem replacePg_eq_none {S l : List Char} (h : findPg l = none) :
    replacePg S l = l := by
  rw [replacePg, replacePgGo, h]

/-- Unfolding `replacePg` at the first match. -/
theorem replacePg_eq_some {S l : List Char} {s len : Nat}
    (h : findPg l = some (s, len)) :
    replacePg S l = l.take s ++ S ++ replacePg S (l.drop (s + len)) := by
  have hb := findPg_bounds h
  have hd : (l.drop (s + len)).length = l.length - (s + len) := List.length_drop _ _
  rw [replacePg, replacePg, replacePgGo, h]
  dsimp only
  rw [replacePgGo_fuel S (l.drop (s + len)).length (l.drop (s + len)) le_rfl
    l.length ((l.drop (s + len)).length + 1) (by omega) (by omega)]

/-- `replaceSectOpenGo` is fuel-invariant once the fuel exceeds the input
length. -/
theorem replaceSectOpenGo_fuel (S : List Char) :
    ∀ (n : Nat) (l : List Char), l.length ≤ n →
      ∀ f1 f2 : Nat, l.length < f1 → l.length < f2 →
        replaceSectOpenGo S l f1 = replaceSectOpenGo S l f2 := by
  intro n
  induction n with
  | zero =>
    intro l hl f1 f2 h1 h2
    have : l = [] := List.eq_nil_of_length_eq_zero (by omega)
    subst this
    obtain ⟨g1, rfl⟩ : ∃ g, f1 = g + 1 := ⟨f1 - 1, by omega⟩
    obtain ⟨g2, rfl⟩ : ∃ g, f2 = g + 1 := ⟨f2 - 1, by omega⟩
    rfl
  | succ n ih =>
    intro l hl f1 f2 h1 h2
    obtain ⟨g1, rfl⟩ : ∃ g, f1 = g + 1 := ⟨f1 - 1, by omega⟩
    obtain ⟨g2, rfl⟩ : ∃ g, f2 = g + 1 := ⟨f2 - 1, by omega⟩
    rw [replaceSectOpenGo, replaceSectOpenGo]
    cases hf : findSectOpen l with
    | none => rfl
    | some p =>
      obtain ⟨s, len⟩ := p
      have hb := findSectOpen_bounds hf
      have hd : (l.drop (s + len)).length = l.length - (s + len) := List.length_drop _ _
      dsimp only
      rw [ih (l.drop (s + len)) (by omega) g1 g2 (by omega) (by omega)]

/-- Unfolding `replaceSectOpen` when there is no match. -/
theorem replaceSectOpen_eq_none {S l : List Char} (h : findSectOpen l = none) :
    replaceSectOpen S l = l := by
  rw [replaceSectOpen, replaceSectOpenGo, h]

/-- Unfolding `replaceSectOpen` at the first match. -/
theorem replaceSectOpen_eq_some {S l : List Char} {s len : Nat}
    (h : findSectOpen l = some (s, len)) :
    replaceSectOpen S l =
      l.take (s + len) ++ S ++ replaceSectOpen S (l.drop (s + len)) := by
  have hb := findSectOpen_bounds h
  have hd : (l.drop (s + len)).length = l.length - (s + len) := List.length_drop _ _
  rw [replaceSectOpen, replaceSectOpen, replaceSectOpenGo, h]
  dsimp only
  rw [replaceSectOpenGo_fuel S (l.drop (s + len)).length (l.drop (s + len)) le_rfl
    l.length ((l.drop (s + len)).length + 1) (by omega) (by omega)]

/-- Anatomy of a section-opening match. -/
theorem sectOpenHere_shape {Y : List Char} {L : Nat} (h : sectOpenHere Y = some L) :
    sectNeedle.isPrefixOf Y = true ∧ ∃ j, L = 10 + j ∧
      (Y.drop 9).findIdx? (fun c => c = '>') = some j ∧ Y[9 + j]? = some '>' := by
  unfold sectOpenHere at h
  split at h
  · rename_i hpre
    split at h
    · rename_i j hj
      refine ⟨hpre, j, (Option.some.inj h).symm, hj, ?_⟩
      obtain ⟨hlt, hp, _⟩ := List.findIdx?_eq_some_iff_getElem.mp hj
      have : (Y.drop 9)[j]? = some '>' := by
        rw [List.getElem?_eq_getElem hlt]
        have : (Y.drop 9)[j] = '>' := by simpa using hp
        rw [this]
      rw [List.getElem?_drop] at this
      exact this
    · exact Option.noConfusion h
  · exact Option.noConfusion h

/-- Positions before the first section-opening match do not match. -/
theorem findSectOpen_min {l : List Char} {s len : Nat}
    (h : findSectOpen l = some (s, len)) :
    (∀ p, p < s → sectOpenHere (l.drop p) = none) ∧
      sectOpenHere (l.drop s) = some len := by
  induction l generalizing s with
  | nil => exact absurd h (by simp [findSectOpen])
  | cons c t ih =>
    simp only [findSectOpen] at h
    cases hm : sectOpenHere (c :: t) with
    | some len0 =>
      rw [hm] at h
      obtain ⟨hs, hl⟩ := Prod.mk.injEq .. ▸ Option.some.inj h
      subst hs; subst hl
      exact ⟨fun p hp => absurd hp (by omega), by rw [List.drop_zero]; exact hm⟩
    | none =>
      rw [hm] at h
      simp only [Option.map_eq_some'] at h
      obtain ⟨⟨s', len'⟩, hfind, heq⟩ := h
      obtain ⟨hs, hl⟩ := Prod.mk.injEq .. ▸ heq
      subst hs; subst hl
      obtain ⟨hmin, hat⟩ := ih hfind
      constructor
      · intro p hp
        cases p with
        | zero => rw [List.drop_zero]; exact hm
        | succ p' => rw [List.drop_succ_cons]; exact hmin p' (by omega)
      · rw [List.drop_succ_cons]; exact hat

/-- Dropping strictly inside a list keeps its last element. -/
theorem getLast?_drop_of_lt {A : List Char} {p : Nat} (hp : p < A.length) :
    (A.drop p).getLast? = A.getLast? := by
  rw [List.getLast?_eq_getElem?, List.getLast?_eq_getElem?, List.length_drop,
    List.getElem?_drop, show p + (A.length - p - 1) = A.length - 1 from by omega]

/-- After one global page-size rewrite the first match sits at the original
position with the replacement's length, and a second rewrite is the
identity. -/
theorem replacePg_fix {w h : Nat} {o : List Char} (ho : '>' ∉ o) :
    ∀ (n : Nat) (l : List Char), l.length ≤ n → ∀ s len,
      findPg l = some (s, len) →
      findPg (replacePg (pgSzTag w h o) l) = some (s, (pgSzTag w h o).length) ∧
        replacePg (pgSzTag w h o) (replacePg (pgSzTag w h o) l) =
          replacePg (pgSzTag w h o) l := by
  intro n
  induction n with
  | zero =>
    intro l hl s len hf
    have : l = [] := List.eq_nil_of_length_eq_zero (by omega)
    subst this
    exact absurd hf (by rw [show findPg [] = none from rfl]; simp)
  | succ n ih =>
    intro l hl s len hf
    have hb := findPg_bounds hf
    obtain ⟨hmin, hat⟩ := findPg_min hf
    have hts : (l.take s).length = s := by rw [List.length_take]; omega
    have hrecfix :
        replacePg (pgSzTag w h o) (replacePg (pgSzTag w h o) (l.drop (s + len))) =
          replacePg (pgSzTag w h o) (l.drop (s + len)) := by
      cases hfr : findPg (l.drop (s + len)) with
      | none => rw [replacePg_eq_none hfr, replacePg_eq_none hfr]
      | some q =>
        obtain ⟨s', len'⟩ := q
        exact (ih (l.drop (s + len)) (by rw [List.length_drop]; omega) s' len' hfr).2
    have hSpre : pgNeedle.isPrefixOf
        (pgSzTag w h o ++ replacePg (pgSzTag w h o) (l.drop (s + len))) = true :=
      (pgMatchHere_shape
        (pgSzTag_match ho (replacePg (pgSzTag w h o) (l.drop (s + len))))).1
    have hout := replacePg_eq_some (S := pgSzTag w h o) hf
    have hfo : findPg (replacePg (pgSzTag w h o) l) =
        some (s, (pgSzTag w h o).length) := by
      rw [hout, List.append_assoc]
      apply findPg_intro
      · intro p hp
        rw [List.drop_append_of_le_length (show p ≤ (l.take s).length from by omega)]
        exact pgMatchHere_transfer
          (by rw [← drop_eq_take_drop_append l p s (by omega) (by omega)]
              exact hmin p hp)
          hat hSpre
      · rw [List.drop_left' hts]
        exact pgSzTag_match ho _
    refine ⟨hfo, ?_⟩
    rw [replacePg_eq_some hfo, hout]
    rw [show ((l.take s ++ pgSzTag w h o ++
        replacePg (pgSzTag w h o) (l.drop (s + len))).take s) = l.take s from by
      rw [List.append_assoc]; exact List.take_left' hts]
    rw [show ((l.take s ++ pgSzTag w h o ++
        replacePg (pgSzTag w h o) (l.drop (s + len))).drop
        (s + (pgSzTag w h o).length)) =
        replacePg (pgSzTag w h o) (l.drop (s + len)) from
      List.drop_left' (by rw [List.length_append, hts])]
    rw [hrecfix]

/-- On a document without page-size tags, inserting the tag after each
section opener creates matches that a subsequent page-size rewrite maps to
themselves; the first such match sits right after the first opener. -/
theorem replaceSect_pg_fix {w h : Nat} {o : List Char} (ho : '>' ∉ o) :
    ∀ (n : Nat) (m : List Char), m.length ≤ n → findPg m = none →
      replacePg (pgSzTag w h o) (replaceSectOpen (pgSzTag w h o) m) =
          replaceSectOpen (pgSzTag w h o) m ∧
        ∀ s len, findSectOpen m = some (s, len) →
          findPg (replaceSectOpen (pgSzTag w h o) m) =
            some (s + len, (pgSzTag w h o).length) := by
  intro n
  induction n with
  | zero =>
    intro m hl hfp
    have : m = [] := List.eq_nil_of_length_eq_zero (by omega)
    subst this
    refine ⟨?_, ?_⟩
    · rw [replaceSectOpen_eq_none (show findSectOpen ([] : List Char) = none from rfl),
        replacePg_eq_none hfp]
    · intro s len hfs
      exact absurd hfs (by rw [show findSectOpen [] = none from rfl]; simp)
  | succ n ih =>
    intro m hl hfp
    cases hfs : findSectOpen m with
    | none =>
      rw [replaceSectOpen_eq_none hfs]
      refine ⟨replacePg_eq_none hfp, ?_⟩
      intro s len hfs'
      exact Option.noConfusion hfs'
    | some p =>
      obtain ⟨s, len⟩ := p
      have hb := findSectOpen_bounds hfs
      obtain ⟨hsmin, hsat⟩ := findSectOpen_min hfs
      have hts : (m.take (s + len)).length = s + len := by rw [List.length_take]; omega
      have hfd : findPg (m.drop (s + len)) = none := by
        apply findPg_none_intro
        intro p
        rw [List.drop_drop]
        exact findPg_none_all hfp _
      obtain ⟨hrecfix, _⟩ := ih (m.drop (s + len)) (by rw [List.length_drop]; omega) hfd
      have hout := replaceSectOpen_eq_some (S := pgSzTag w h o) hfs
      have hAlast : (m.take (s + len)).getLast? = some '>' := by
        obtain ⟨hspre, j, hlen, hj, hgt⟩ := sectOpenHere_shape hsat
        rw [List.getElem?_drop] at hgt
        have hm : m[s + len - 1]? = some '>' := by
          rw [show s + len - 1 = s + (9 + j) from by omega]
          exact hgt
        rw [List.getLast?_eq_getElem?, hts, List.getElem?_take, if_pos (by omega)]
        exact hm
      have hfo : findPg (replaceSectOpen (pgSzTag w h o) m) =
          some (s + len, (pgSzTag w h o).length) := by
        rw [hout, List.append_assoc]
        apply findPg_intro
        · intro p hp
          rw [List.drop_append_of_le_length
            (show p ≤ (m.take (s + len)).length from by omega)]
          have hXlast : ((m.take (s + len)).drop p).getLast? = some '>' := by
            rw [getLast?_drop_of_lt (show p < (m.take (s + len)).length from by omega)]
            exact hAlast
          have h1 : pgMatchHere ((m.take (s + len)).drop p ++ m.drop (s + len)) = none := by
            rw [← drop_eq_take_drop_append m p (s + len) (by omega) (by omega)]
            exact findPg_none_all hfp p
          exact pgMatchHere_transfer2 hXlast h1 _
        · rw [List.drop_left' hts]
          exact pgSzTag_match ho _
      refine ⟨?_, fun s' len' hfs' => ?_⟩
      · rw [replacePg_eq_some hfo, hout]
        rw [show ((m.take (s + len) ++ pgSzTag w h o ++
            replaceSectOpen (pgSzTag w h o) (m.drop (s + len))).take (s + len)) =
            m.take (s + len) from by
          rw [List.append_assoc]; exact List.take_left' hts]
        rw [show ((m.take (s + len) ++ pgSzTag w h o ++
            replaceSectOpen (pgSzTag w h o) (m.drop (s + len))).drop
            (s + len + (pgSzTag w h o).length)) =
            replaceSectOpen (pgSzTag w h o) (m.drop (s + len)) from
          List.drop_left' (by rw [List.length_append, hts])]
        rw [hrecfix]
      · obtain ⟨rfl, rfl⟩ : s = s' ∧ len = len' :=
          Prod.mk.injEq .. ▸ Option.some.inj hfs'
        exact hfo

/-- The effective page width (source 72-75): swapped when landscape. -/
def pgWidth (ps : PageSettings) : Nat :=
  if ps.orientation = str "landscape" then ((pageSizeFor ps.size).getD (11906, 16838)).2
  else ((pageSizeFor ps.size).getD (11906, 16838)).1

/-- The effective page height (source 72-75): swapped when landscape. -/
def pgHeight (ps : PageSettings) : Nat :=
  if ps.orientation = str "landscape" then ((pageSizeFor ps.size).getD (11906, 16838)).1
  else ((pageSizeFor ps.size).getD (11906, 16838)).2

/-- `setPageSize` in branch form. -/
theorem setPageSize_eq (ps : PageSettings) (doc : List Char) :
    setPageSize ps doc =
      if (findPg doc).isSome then
        replacePg (pgSzTag (pgWidth ps) (pgHeight ps) ps.orientation) doc
      else
        replaceSectOpen (pgSzTag (pgWidth ps) (pgHeight ps) ps.orientation)
          (replacePg (pgSzTag (pgWidth ps) (pgHeight ps) ps.orientation) doc) := rfl

/-- C4: `setPageSize` is idempotent — in both the rewrite branch and the
append-inside-`<w:sectPr>` branch — provided the orientation string contains
no `>` character.  (When it does, the inserted tag fails the page-size regex
and the append branch duplicates it; see `claim4_counterexample`.) -/
theorem claim4_idempotent (ps : PageSettings) (doc : List Char)
    (ho : '>' ∉ ps.orientation) :
    setPageSize ps (setPageSize ps doc) = setPageSize ps doc := by
  rw [setPageSize_eq ps doc, setPageSize_eq ps _]
  cases hfp : findPg doc with
  | some p =>
    obtain ⟨s, len⟩ := p
    obtain ⟨hfind, hidem⟩ :=
      @replacePg_fix (pgWidth ps) (pgHeight ps) ps.orientation ho doc.length doc
        le_rfl s len hfp
    rw [if_pos (show (some (s, len)).isSome = true from rfl)]
    rw [hfind]
    rw [if_pos (show (some (s,
      (pgSzTag (pgWidth ps) (pgHeight ps) ps.orientation).length)).isSome = true from rfl)]
    exact hidem
  | none =>
    rw [if_neg (show ¬ (none : Option (Nat × Nat)).isSome = true from by decide)]
    rw [replacePg_eq_none hfp]
    obtain ⟨hidem, hfind⟩ :=
      @replaceSect_pg_fix (pgWidth ps) (pgHeight ps) ps.orientation ho doc.length doc
        le_rfl hfp
    cases hfs : findSectOpen doc with
    | none =>
      rw [replaceSectOpen_eq_none hfs, hfp]
      rw [if_neg (show ¬ (none : Option (Nat × Nat)).isSome = true from by decide)]
      rw [replacePg_eq_none hfp, replaceSectOpen_eq_none hfs]
    | some p =>
      obtain ⟨s, len⟩ := p
      have hfo := hfind s len hfs
      rw [hfo]
      rw [if_pos (show (some (s + len,
        (pgSzTag (pgWidth ps) (pgHeight ps) ps.orientation).length)).isSome = true
        from rfl)]
      exact hidem

set_option maxRecDepth 100000 in
/-- C4: counterexample to unconditional idempotence — with orientation `x>`
the document has no page-size tag, so the tag is appended inside the
`<w:sectPr>` opener; the inserted tag's first `>` (inside the orientation
value) is not preceded by `/`, so it fails the page-size regex and the second
application appends a second copy. -/
theorem claim4_counterexample :
    setPageSize ⟨str "a4", str "x>"⟩
        (setPageSize ⟨str "a4", str "x>"⟩ (str "<w:sectPr></w:sectPr>")) ≠
      setPageSize ⟨str "a4", str "x>"⟩ (str "<w:sectPr></w:sectPr>") := by
  decide

set_option maxRecDepth 100000 in
/-- C4 witness: a portrait A4 patch applied twice to a plain section is the
same as applied once. -/
theorem claim4_witness :
    '>' ∉ str "portrait" ∧
      setPageSize ⟨str "a4", str "portrait"⟩
          (setPageSize ⟨str "a4", str "portrait"⟩ (str "<w:sectPr></w:sectPr>")) =
        setPageSize ⟨str "a4", str "portrait"⟩ (str "<w:sectPr></w:sectPr>") :=
  ⟨by decide, claim4_idempotent ⟨str "a4", str "portrait"⟩ (str "<w:sectPr></w:sectPr>")
    (by decide)⟩
